import Mathlib

/-!
# Label editor core: items, document, commands, object-form persistence

A shallow embedding of `src/items/labelitem.cpp`, `src/items/*item.cpp` and
`src/models/labelmodels.cpp`.

Conventions of the embedding
* `qreal` is an exact ordered field `K` (`ℚ` where a concrete scalar is needed, `ℝ` where the
  code calls `qCos`/`qSin`); IEEE rounding is not modelled there. The angle loops of
  `LabelItem::setRotation` are given a second time on doubles (`binary64`,
  `LabelItem.setRotationDouble`), where rounding decides what is stored and whether the call
  returns.
* `LabelItem*` is an address (`ItemPtr`, `0` is `nullptr`); item objects live in a heap.
* Qt containers and value classes (`QList`, `QRectF`, `QJsonObject`, `QUndoStack`) are library
  code; they are embedded by their documented behaviour.
* Signals, the graphics scene and painting are outside the embedding.
-/

namespace LabelEditor

/-! ## Qt value classes -/

/-- Qt point with `qreal` coordinates. -/
structure QPointF (K : Type) where
  xp : K
  yp : K
deriving DecidableEq, Repr

/-- Qt size with `qreal` extent. -/
structure QSizeF (K : Type) where
  wd : K
  ht : K
deriving DecidableEq, Repr

/-- Qt rectangle: top-left corner `(xp, yp)`, width `w`, height `h`. -/
structure QRectF (K : Type) where
  xp : K
  yp : K
  w : K
  h : K
deriving DecidableEq, Repr

section Geometry

variable {K : Type} [LinearOrderedField K]

/-- The difference `p - q` of two points (`operator-`). -/
def QPointF.sub (p q : QPointF K) : QPointF K := ⟨p.xp - q.xp, p.yp - q.yp⟩

/-- The sum `p + q` of two points (`operator+`). -/
def QPointF.add (p q : QPointF K) : QPointF K := ⟨p.xp + q.xp, p.yp + q.yp⟩

/-- Centre of a rectangle: `QRectF::center()`. -/
def QRectF.center (r : QRectF K) : QPointF K := ⟨r.xp + r.w / 2, r.yp + r.h / 2⟩

/-- Top-left corner: `QRectF::topLeft()`. -/
def QRectF.topLeft (r : QRectF K) : QPointF K := ⟨r.xp, r.yp⟩

/-- Extent of a rectangle: `QRectF::size()`. -/
def QRectF.size (r : QRectF K) : QSizeF K := ⟨r.w, r.h⟩

/-- Moves the rectangle, keeping its size: `QRectF::moveTopLeft`. -/
def QRectF.moveTopLeft (r : QRectF K) (p : QPointF K) : QRectF K := { r with xp := p.xp, yp := p.yp }

/-- Replaces the extent, keeping the top-left corner: `QRectF::setSize`. -/
def QRectF.setSize (r : QRectF K) (s : QSizeF K) : QRectF K := { r with w := s.wd, h := s.ht }

/-- Point-in-rectangle test of `QRectF::contains(const QPointF &)`: edges are inside, a
rectangle of zero width or height contains nothing, negative extents are normalised. -/
def QRectF.contains (r : QRectF K) (p : QPointF K) : Bool :=
  let l := if r.w < 0 then r.xp + r.w else r.xp
  let rr := if r.w < 0 then r.xp else r.xp + r.w
  if l = rr then false
  else if p.xp < l ∨ p.xp > rr then false
  else
    let t := if r.h < 0 then r.yp + r.h else r.yp
    let b := if r.h < 0 then r.yp else r.yp + r.h
    if t = b then false
    else if p.yp < t ∨ p.yp > b then false
    else true

/-- Left edge: `QRectF::left()`. -/
def QRectF.left (r : QRectF K) : K := r.xp

/-- Top edge: `QRectF::top()`. -/
def QRectF.top (r : QRectF K) : K := r.yp

/-- Right edge: `QRectF::right()`. -/
def QRectF.right (r : QRectF K) : K := r.xp + r.w

/-- Bottom edge: `QRectF::bottom()`. -/
def QRectF.bottom (r : QRectF K) : K := r.yp + r.h

/-- Top-right corner: `QRectF::topRight()`. -/
def QRectF.topRight (r : QRectF K) : QPointF K := ⟨r.xp + r.w, r.yp⟩

/-- Bottom-left corner: `QRectF::bottomLeft()`. -/
def QRectF.bottomLeft (r : QRectF K) : QPointF K := ⟨r.xp, r.yp + r.h⟩

/-- Bottom-right corner: `QRectF::bottomRight()`. -/
def QRectF.bottomRight (r : QRectF K) : QPointF K := ⟨r.xp + r.w, r.yp + r.h⟩

/-- Moves the left edge, keeping the right edge: `QRectF::setLeft`. -/
def QRectF.setLeft (r : QRectF K) (pos : K) : QRectF K :=
  let diff := pos - r.xp
  { r with xp := r.xp + diff, w := r.w - diff }

/-- Moves the right edge, keeping the left edge: `QRectF::setRight`. -/
def QRectF.setRight (r : QRectF K) (pos : K) : QRectF K := { r with w := pos - r.xp }

/-- Moves the top edge, keeping the bottom edge: `QRectF::setTop`. -/
def QRectF.setTop (r : QRectF K) (pos : K) : QRectF K :=
  let diff := pos - r.yp
  { r with yp := r.yp + diff, h := r.h - diff }

/-- Moves the bottom edge, keeping the top edge: `QRectF::setBottom`. -/
def QRectF.setBottom (r : QRectF K) (pos : K) : QRectF K := { r with h := pos - r.yp }

/-- Moves the top-left corner: `QRectF::setTopLeft`. -/
def QRectF.setTopLeft (r : QRectF K) (p : QPointF K) : QRectF K := (r.setLeft p.xp).setTop p.yp

/-- Moves the top-right corner: `QRectF::setTopRight`. -/
def QRectF.setTopRight (r : QRectF K) (p : QPointF K) : QRectF K := (r.setRight p.xp).setTop p.yp

/-- Moves the bottom-left corner: `QRectF::setBottomLeft`. -/
def QRectF.setBottomLeft (r : QRectF K) (p : QPointF K) : QRectF K :=
  (r.setLeft p.xp).setBottom p.yp

/-- Moves the bottom-right corner: `QRectF::setBottomRight`. -/
def QRectF.setBottomRight (r : QRectF K) (p : QPointF K) : QRectF K :=
  (r.setRight p.xp).setBottom p.yp

/-- The rect with `dx1`, `dy1` added to its left and top edge and `dx2`, `dy2` to its right
and bottom edge: `QRectF::adjusted`. -/
def QRectF.adjusted (r : QRectF K) (dx1 dy1 dx2 dy2 : K) : QRectF K :=
  ⟨r.xp + dx1, r.yp + dy1, r.w + dx2 - dx1, r.h + dy2 - dy1⟩

end Geometry

/-! ## Items -/

/-- Decoded raster image: `QImage`, reduced to null-ness and pixel size. -/
structure QImage where
  isNull : Bool := true
  width : Nat := 0
  height : Nat := 0
deriving DecidableEq, Repr

/-- Base-class state of `LabelItem` (`labelitem.h`) and the z value and selection state
inherited from `QGraphicsItem`. Defaults are those of `LabelItem::LabelItem`, except for the id: the
constructor draws a fresh UUID, which the subclass constructors below take as an argument. -/
structure LabelItem (K : Type) [LinearOrderedField K] where
  m_id : String := ""
  m_name : String := "Item"
  m_rect : QRectF K := ⟨0, 0, 100, 50⟩
  m_rotation : K := 0
  m_locked : Bool := false
  m_visible : Bool := true
  m_modified : Bool := false
  zValue : K := 0
  m_hovered : Bool := false
  m_dragging : Bool := false
  m_activeHandle : Int := -1
  m_dragStartPos : QPointF K := ⟨0, 0⟩
  m_lastPos : QPointF K := ⟨0, 0⟩
  m_startRect : QRectF K := ⟨0, 0, 0, 0⟩
  selected : Bool := false

section ItemOps

variable {K : Type} [LinearOrderedField K]

/-- The body of `LabelItem::setModified`. -/
def LabelItem.setModified (it : LabelItem K) (modified : Bool) : LabelItem K :=
  { it with m_modified := modified }

/-- The body of `LabelItem::setPosition`. -/
def LabelItem.setPosition (it : LabelItem K) (pos : QPointF K) : LabelItem K :=
  { it with m_rect := it.m_rect.moveTopLeft pos, m_modified := true }

/-- The body of `LabelItem::setSize`: a non-positive extent is ignored. -/
def LabelItem.setSize (it : LabelItem K) (size : QSizeF K) : LabelItem K :=
  if size.wd ≤ 0 ∨ size.ht ≤ 0 then it
  else { it with m_rect := it.m_rect.setSize size, m_modified := true }

/-- The body of `LabelItem::setName`. -/
def LabelItem.setName (it : LabelItem K) (name : String) : LabelItem K :=
  if it.m_name = name then it
  else { it with m_name := name, m_modified := true }

/-- The body of `QGraphicsItem::setZValue`. -/
def LabelItem.setZValue (it : LabelItem K) (z : K) : LabelItem K :=
  { it with zValue := z }

/-- The body of `LabelItem::contains`. The math-library entries `qCos`, `qSin` and `M_PI` are
parameters. -/
def LabelItem.contains (qCos qSin : K → K) (M_PI : K) (it : LabelItem K) (point : QPointF K) :
    Bool :=
  if it.m_rotation ≠ 0 then
    let center := it.m_rect.center
    let rotatedPoint := point.sub center
    let angle := -it.m_rotation * M_PI / 180
    let x := rotatedPoint.xp * qCos angle - rotatedPoint.yp * qSin angle
    let y := rotatedPoint.xp * qSin angle + rotatedPoint.yp * qCos angle
    let rotatedPoint := (QPointF.mk x y).add center
    it.m_rect.contains rotatedPoint
  else
    it.m_rect.contains point

/-- Reference rotation used by the specification: the point `q` turned forward by `r` degrees
about `c`. -/
def rotateForward (qCos qSin : K → K) (M_PI : K) (r : K) (c q : QPointF K) : QPointF K :=
  let a := r * M_PI / 180
  let d := q.sub c
  (QPointF.mk (d.xp * qCos a - d.yp * qSin a) (d.xp * qSin a + d.yp * qCos a)).add c

/-- Reference hit test in the specification's words: `p` lies in the image of the item's rect
turned forward by the item's rotation about the rect's centre. -/
def containsReference (qCos qSin : K → K) (M_PI : K) (it : LabelItem K) (p : QPointF K) : Prop :=
  ∃ q : QPointF K, it.m_rect.contains q = true ∧
    rotateForward qCos qSin M_PI it.m_rotation it.m_rect.center q = p

/-- The body of `LabelItem::setLocked` (the movable flag of the graphics item is outside the
embedding). -/
def LabelItem.setLocked (it : LabelItem K) (locked : Bool) : LabelItem K :=
  if it.m_locked = locked then it
  else { it with m_locked := locked, m_modified := true }

/-- The body of `LabelItem::position`. -/
def LabelItem.position (it : LabelItem K) : QPointF K := it.m_rect.topLeft

/-- The body of `LabelItem::resize` (the base-class version of the virtual method). -/
def LabelItem.resize (it : LabelItem K) (width height : K) : LabelItem K :=
  it.setSize ⟨width, height⟩

/-- The handle constants of `labelitem.h`. -/
def HandleTopLeft : Int := 0

/-- Handle index of the top edge midpoint. -/
def HandleTopMiddle : Int := 1

/-- Handle index of the top-right corner. -/
def HandleTopRight : Int := 2

/-- Handle index of the left edge midpoint. -/
def HandleMiddleLeft : Int := 3

/-- Handle index of the right edge midpoint. -/
def HandleMiddleRight : Int := 4

/-- Handle index of the bottom-left corner. -/
def HandleBottomLeft : Int := 5

/-- Handle index of the bottom edge midpoint. -/
def HandleBottomMiddle : Int := 6

/-- Handle index of the bottom-right corner. -/
def HandleBottomRight : Int := 7

/-- Handle index of the rotate handle. -/
def HandleRotate : Int := 8

/-- Side of a handle square (`static const int HandleSize = 8`). -/
def HandleSize : Int := 8

/-- Gap between handles and the item edge (`static const int HandleSpace = 4`). -/
def HandleSpace : Int := 4

/-- Distance of the rotate handle above the top edge
(`static const int RotateHandleDistance = 20`). -/
def RotateHandleDistance : Int := 20

/-- The square of side `HandleSize` centred on a handle position; `HandleSize/2` is the
integer quotient. -/
def handleSquare (c : QPointF K) : QRectF K :=
  ⟨c.xp - ((HandleSize / 2 : Int) : K), c.yp - ((HandleSize / 2 : Int) : K), (HandleSize : K),
    (HandleSize : K)⟩

/-- The eight resize handle positions in the order of `LabelItem::handleAtPosition`. -/
def LabelItem.resizeHandles (it : LabelItem K) : List (QPointF K) :=
  let center := it.m_rect.center
  [it.m_rect.topLeft, ⟨center.xp, it.m_rect.top⟩, it.m_rect.topRight,
    ⟨it.m_rect.left, center.yp⟩, ⟨it.m_rect.right, center.yp⟩,
    it.m_rect.bottomLeft, ⟨center.xp, it.m_rect.bottom⟩, it.m_rect.bottomRight]

/-- The search loop of `LabelItem::handleAtPosition` over the resize handles, from index `i`
on. -/
def firstHandleContaining (p : QPointF K) : List (QPointF K) → Int → Int
  | [], _ => -1
  | h :: hs, i => if (handleSquare h).contains p then i else firstHandleContaining p hs (i + 1)

/-- The body of `LabelItem::handleAtPosition`. -/
def LabelItem.handleAtPosition (qCos qSin : K → K) (M_PI : K) (it : LabelItem K)
    (point : QPointF K) : Int :=
  if it.selected = false then -1
  else
    let center := it.m_rect.center
    let transformedPoint :=
      if it.m_rotation ≠ 0 then
        let relativePoint := point.sub center
        let angle := -it.m_rotation * M_PI / 180
        let x := relativePoint.xp * qCos angle - relativePoint.yp * qSin angle
        let y := relativePoint.xp * qSin angle + relativePoint.yp * qCos angle
        (QPointF.mk x y).add center
      else point
    let rotateHandle : QPointF K := ⟨center.xp, it.m_rect.top - (RotateHandleDistance : K)⟩
    if (handleSquare rotateHandle).contains transformedPoint then HandleRotate
    else firstHandleContaining transformedPoint it.resizeHandles 0

/-- The `switch` of the resize branch of `LabelItem::mouseMoveEvent`: the candidate rect for
dragging a resize handle by `delta`. -/
def resizeCandidate (handle : Int) (rect : QRectF K) (delta : QPointF K) : QRectF K :=
  if handle = HandleTopLeft then rect.setTopLeft (rect.topLeft.add delta)
  else if handle = HandleTopMiddle then rect.setTop (rect.top + delta.yp)
  else if handle = HandleTopRight then rect.setTopRight (rect.topRight.add delta)
  else if handle = HandleMiddleLeft then rect.setLeft (rect.left + delta.xp)
  else if handle = HandleMiddleRight then rect.setRight (rect.right + delta.xp)
  else if handle = HandleBottomLeft then rect.setBottomLeft (rect.bottomLeft.add delta)
  else if handle = HandleBottomMiddle then rect.setBottom (rect.bottom + delta.yp)
  else if handle = HandleBottomRight then rect.setBottomRight (rect.bottomRight.add delta)
  else rect

/-- The body of `LabelItem::mousePressEvent` for a press at `pos`; `leftButton` tells whether
the left button was pressed. The handle is looked up before the item is marked selected. The
base-class handler that runs last changes no member of `LabelItem`. -/
def LabelItem.mousePressEvent (qCos qSin : K → K) (M_PI : K) (it : LabelItem K)
    (pos : QPointF K) (leftButton : Bool) : LabelItem K :=
  if it.m_locked then it
  else if leftButton then
    { it with
      m_dragging := true
      m_dragStartPos := pos
      m_lastPos := pos
      m_startRect := it.m_rect
      m_activeHandle := it.handleAtPosition qCos qSin M_PI pos
      selected := true }
  else it

/-- The body of `LabelItem::mouseReleaseEvent`. -/
def LabelItem.mouseReleaseEvent (it : LabelItem K) (leftButton : Bool) : LabelItem K :=
  if leftButton ∧ it.m_dragging then { it with m_dragging := false, m_activeHandle := -1 }
  else it

/-- The body of `LabelItem::boundingRect`; the math-library entry `qSqrt` is a parameter. -/
def LabelItem.boundingRect (qSqrt : K → K) (it : LabelItem K) : QRectF K :=
  let margin : K := ((HandleSize + HandleSpace : Int) : K)
  let rect := it.m_rect.adjusted (-margin) (-margin) margin margin
  if it.m_rotation ≠ 0 then
    let diagonal := qSqrt (rect.w * rect.w + rect.h * rect.h)
    ⟨-diagonal / 2, -diagonal / 2, diagonal, diagonal⟩
  else rect

/-- The body of `LabelItem::setId`. -/
def LabelItem.setId (it : LabelItem K) (id : String) : LabelItem K :=
  if it.m_id = id then it else { it with m_id := id }

/-- Members of `MoveItemCommand`; the item it points to is the one handed to `redo` and
`undo`. -/
structure MoveItemCommand (K : Type) where
  m_oldPos : QPointF K
  m_newPos : QPointF K

/-- The body of `MoveItemCommand::redo`. -/
def MoveItemCommand.redo (c : MoveItemCommand K) (m_item : LabelItem K) : LabelItem K :=
  m_item.setPosition c.m_newPos

/-- The body of `MoveItemCommand::undo`. -/
def MoveItemCommand.undo (c : MoveItemCommand K) (m_item : LabelItem K) : LabelItem K :=
  m_item.setPosition c.m_oldPos

/-- Members of `ResizeItemCommand`; the item it points to is the one handed to `redo` and
`undo`. -/
structure ResizeItemCommand (K : Type) where
  m_oldRect : QRectF K
  m_newRect : QRectF K

/-- The body of `ResizeItemCommand::redo`. -/
def ResizeItemCommand.redo (c : ResizeItemCommand K) (m_item : LabelItem K) : LabelItem K :=
  (m_item.setPosition c.m_newRect.topLeft).setSize c.m_newRect.size

/-- The body of `ResizeItemCommand::undo`. -/
def ResizeItemCommand.undo (c : ResizeItemCommand K) (m_item : LabelItem K) : LabelItem K :=
  (m_item.setPosition c.m_oldRect.topLeft).setSize c.m_oldRect.size

end ItemOps

section Rotation

/-- First loop of `LabelItem::setRotation`, `while (angle >= 360.0) angle -= 360.0;`, with
exact scalars: no subtraction rounds, so the loop ends after `⌊angle / 360⌋` rounds. On doubles
a subtraction can round and the loop can go on for ever: see `normalizeDownDouble`. -/
def normalizeDown {K : Type} [LinearOrderedField K] [FloorRing K] (angle : K) : K :=
  if 360 ≤ angle then normalizeDown (angle - 360) else angle
termination_by Int.toNat ⌊angle / 360⌋
decreasing_by
  have h1 : (1 : K) ≤ angle / 360 := by
    rw [le_div_iff₀ (by norm_num : (0 : K) < 360)]; linarith
  have h2 : (1 : ℤ) ≤ ⌊angle / 360⌋ := by
    rw [Int.le_floor]; exact_mod_cast h1
  have h3 : (angle - 360) / 360 = angle / 360 - 1 := by field_simp
  rw [h3, Int.floor_sub_one]
  omega

/-- Second loop of `LabelItem::setRotation`, `while (angle < 0.0) angle += 360.0;`, with exact
scalars: no addition rounds, so the result is below 360. On doubles the sum of a small negative
angle and 360 rounds to 360, and the loop can go on for ever: see `normalizeUpDouble`. -/
def normalizeUp {K : Type} [LinearOrderedField K] [FloorRing K] (angle : K) : K :=
  if angle < 0 then normalizeUp (angle + 360) else angle
termination_by Int.toNat ⌈-angle / 360⌉
decreasing_by
  have h1 : (0 : K) < -angle / 360 := by
    apply div_pos <;> linarith
  have h2 : (1 : ℤ) ≤ ⌈-angle / 360⌉ := by
    have := Int.ceil_pos.mpr h1
    omega
  have h3 : -(angle + 360) / 360 = -angle / 360 - 1 := by field_simp; ring
  rw [h3, Int.ceil_sub_one]
  omega

/-- The body of `LabelItem::setRotation` with exact scalars. For an angle of `[0, 360)` neither
loop is entered and this is the value the code stores; what the code stores for other angles,
and whether it returns, is given by `LabelItem.setRotationDouble`. -/
def LabelItem.setRotation {K : Type} [LinearOrderedField K] [FloorRing K] (it : LabelItem K)
    (angle : K) : LabelItem K :=
  if it.m_rotation = angle then it
  else
    let angle := normalizeDown angle
    let angle := normalizeUp angle
    { it with m_rotation := angle, m_modified := true }

/-- The integer nearest to `q`, the even one of the two when `q` lies half-way. -/
def roundHalfEven (q : ℚ) : Int :=
  let f := ⌊q⌋
  if q - f < 1 / 2 then f
  else if 1 / 2 < q - f then f + 1
  else if f % 2 = 0 then f else f + 1

/-- Rounding of an exact result to the type `double` (`qreal`): IEEE 754 binary64, round to
nearest, ties to even. A finite `double` is held as the rational it denotes. The scale is that
of the binade of `x` (53 significant bits), and that of the subnormals below `2 ^ (-1022)`.
Overflow is not represented: the loops of `setRotation` never go beyond their argument. -/
def binary64 (x : ℚ) : ℚ :=
  if x = 0 then 0
  else
    let e := max (Int.log 2 |x|) (-1022)
    let ulp : ℚ := 2 ^ (e - 52)
    roundHalfEven (x / ulp) * ulp

/-- First loop of `LabelItem::setRotation` on doubles: `while (angle >= 360.0) angle -= 360.0;`.
The fuel bounds the number of tests of the loop condition; `none` means that the loop has not
ended within that bound. -/
def normalizeDownDouble : Nat → ℚ → Option ℚ
  | 0, _ => none
  | fuel + 1, angle =>
    if 360 ≤ angle then normalizeDownDouble fuel (binary64 (angle - 360)) else some angle

/-- Second loop of `LabelItem::setRotation` on doubles: `while (angle < 0.0) angle += 360.0;`. -/
def normalizeUpDouble : Nat → ℚ → Option ℚ
  | 0, _ => none
  | fuel + 1, angle =>
    if angle < 0 then normalizeUpDouble fuel (binary64 (angle + 360)) else some angle

/-- The body of `LabelItem::setRotation` on doubles; `none` means that one of its loops has not
ended within the fuel. -/
def LabelItem.setRotationDouble (fuel : Nat) (it : LabelItem ℚ) (angle : ℚ) :
    Option (LabelItem ℚ) :=
  if it.m_rotation = angle then some it
  else
    match normalizeDownDouble fuel angle with
    | none => none
    | some angle =>
      match normalizeUpDouble fuel angle with
      | none => none
      | some angle => some { it with m_rotation := angle, m_modified := true }

/-- The body of `LabelItem::mouseMoveEvent` for a move to `currentPos`. Dragging the body
(`m_activeHandle == -1`) is left to the base-class handler, which moves the graphics item and
changes no member of `LabelItem`; the rotate handle turns the item by the change of the angle
seen from the centre (`qAtan2` and `M_PI` are parameters); a resize handle takes the candidate
rect when its width and height are at least 10. -/
def LabelItem.mouseMoveEvent {K : Type} [LinearOrderedField K] [FloorRing K]
    (qAtan2 : K → K → K) (M_PI : K) (it : LabelItem K) (currentPos : QPointF K) : LabelItem K :=
  if it.m_dragging = false ∨ it.m_locked = true then it
  else
    let delta := currentPos.sub it.m_lastPos
    let it : LabelItem K :=
      if it.m_activeHandle = -1 then it
      else if it.m_activeHandle = HandleRotate then
        let center := it.m_rect.center
        let startVector := it.m_dragStartPos.sub center
        let currentVector := currentPos.sub center
        let startAngle := qAtan2 startVector.yp startVector.xp * 180 / M_PI
        let currentAngle := qAtan2 currentVector.yp currentVector.xp * 180 / M_PI
        let deltaAngle := currentAngle - startAngle
        let it := it.setRotation (it.m_rotation + deltaAngle)
        { it with m_dragStartPos := currentPos }
      else
        let newRect := resizeCandidate it.m_activeHandle it.m_rect delta
        if 10 ≤ newRect.w ∧ 10 ≤ newRect.h then { it with m_rect := newRect } else it
    { it with m_lastPos := currentPos, m_modified := true }

/-- Members of `RotateItemCommand`; the item it points to is the one handed to `redo` and
`undo`. -/
structure RotateItemCommand (K : Type) where
  m_oldAngle : K
  m_newAngle : K

/-- The body of `RotateItemCommand::redo`. -/
def RotateItemCommand.redo {K : Type} [LinearOrderedField K] [FloorRing K]
    (c : RotateItemCommand K) (m_item : LabelItem K) : LabelItem K :=
  m_item.setRotation c.m_newAngle

/-- The body of `RotateItemCommand::undo`. -/
def RotateItemCommand.undo {K : Type} [LinearOrderedField K] [FloorRing K]
    (c : RotateItemCommand K) (m_item : LabelItem K) : LabelItem K :=
  m_item.setRotation c.m_oldAngle

end Rotation

/-! ## Item subclasses -/

/-- A `QColor` of the RGB kind: whether it is valid, and its four channels (0 to 255). The
defaults are those of `Qt::black`. -/
structure QColor where
  valid : Bool := true
  red : Nat := 0
  green : Nat := 0
  blue : Nat := 0
  alpha : Nat := 255
deriving DecidableEq, Repr

namespace QColor

/-- The colour `Qt::black`. -/
def black : QColor := {}

/-- The colour `Qt::white`. -/
def white : QColor := { red := 255, green := 255, blue := 255 }

/-- The colour `Qt::transparent`: black with alpha 0. -/
def transparent : QColor := { alpha := 0 }

/-- An invalid colour, as the default constructor makes it. -/
def invalid : QColor := { valid := false }

/-- The lower-case hexadecimal digit for `n` below 16. -/
def hexDigit (n : Nat) : Char := if n < 10 then Char.ofNat (48 + n) else Char.ofNat (87 + n)

/-- Two hexadecimal digits for a channel. -/
def hexPair (n : Nat) : List Char := [hexDigit (n / 16 % 16), hexDigit (n % 16)]

/-- The text `QColor::name()` gives (format `HexRgb`): `#rrggbb`, without the alpha
channel. -/
def name (c : QColor) : String :=
  String.mk (Char.ofNat 35 :: (hexPair c.red ++ hexPair c.green ++ hexPair c.blue))

/-- The value of a hexadecimal digit of either case. -/
def hexValue (c : Char) : Option Nat :=
  if 48 ≤ c.toNat ∧ c.toNat ≤ 57 then some (c.toNat - 48)
  else if 97 ≤ c.toNat ∧ c.toNat ≤ 102 then some (c.toNat - 87)
  else if 65 ≤ c.toNat ∧ c.toNat ≤ 70 then some (c.toNat - 55)
  else none

/-- The value of two hexadecimal digits. -/
def pairValue (hi lo : Char) : Option Nat :=
  match hexValue hi, hexValue lo with
  | some a, some b => some (16 * a + b)
  | _, _ => none

/-- The constructor `QColor(const QString &name)` for the two forms of name the item
serialisers meet: `#rrggbb`, which gives an opaque colour, and `transparent`. The other forms
Qt accepts (`#rgb`, `#aarrggbb`, the longer hexadecimal forms and the SVG colour names) are
outside the embedding and read as the invalid colour here, as every unknown name does. -/
def fromString (name : String) : QColor :=
  if name = "transparent" then transparent
  else
    match name.toList with
    | [h, r1, r0, g1, g0, b1, b0] =>
      if h = Char.ofNat 35 then
        match pairValue r1 r0, pairValue g1 g0, pairValue b1 b0 with
        | some r, some g, some b => { red := r, green := g, blue := b }
        | _, _, _ => invalid
      else invalid
    | _ => invalid

end QColor

/-- Members of `TextItem` on top of the base class, with the defaults of the constructor
(`Qt::AlignLeft | Qt::AlignTop` is 33). The font of `TextItem` and, in the other subclasses,
the styling members (fonts, colours, margins, effect settings) are left out: the serialisers
write and read them back without touching the members kept here. -/
structure TextItem extends LabelItem ℚ where
  m_text : String := "双击编辑文本"
  m_textColor : QColor := QColor.black
  m_backgroundColor : QColor := QColor.transparent
  m_alignment : Int := 33
  m_wordWrap : Bool := true
  m_borderWidth : Int := 0
  m_borderColor : QColor := QColor.black

/-- Members of `ImageItem` on top of the base class. -/
structure ImageItem extends LabelItem ℚ where
  m_imagePath : String := ""
  m_originalImage : QImage := {}
  m_keepAspectRatio : Bool := true

/-- The enumeration `BarcodeType` of `barcodeitem.h`. -/
inductive BarcodeType where
  | Code128
  | Code39
  | Code93
  | EAN8
  | EAN13
  | UPC_A
  | UPC_E
  | MSI
  | Interleaved2of5
  | ITF14
  | Codabar
deriving DecidableEq, Repr

/-- Members of `BarcodeItem` on top of the base class. -/
structure BarcodeItem extends LabelItem ℚ where
  m_data : String := "12345678"
  m_type : BarcodeType := .Code128

/-- Members of `QRCodeItem` on top of the base class. -/
structure QRCodeItem extends LabelItem ℚ where
  m_data : String := "https://example.com"

/-- An item object of one of the four concrete classes. -/
inductive ItemObject where
  | text (t : TextItem)
  | image (i : ImageItem)
  | barcode (b : BarcodeItem)
  | qrcode (q : QRCodeItem)

/-- The base-class part of an item object. -/
def ItemObject.base : ItemObject → LabelItem ℚ
  | .text t => t.toLabelItem
  | .image i => i.toLabelItem
  | .barcode b => b.toLabelItem
  | .qrcode q => q.toLabelItem

/-- A base-class method applied to an item object. -/
def ItemObject.mapBase (f : LabelItem ℚ → LabelItem ℚ) : ItemObject → ItemObject
  | .text t => .text { t with toLabelItem := f t.toLabelItem }
  | .image i => .image { i with toLabelItem := f i.toLabelItem }
  | .barcode b => .barcode { b with toLabelItem := f b.toLabelItem }
  | .qrcode q => .qrcode { q with toLabelItem := f q.toLabelItem }

/-- The type discriminator each class writes into its persisted record. -/
def ItemObject.typeName : ItemObject → String
  | .text _ => "text"
  | .image _ => "image"
  | .barcode _ => "barcode"
  | .qrcode _ => "qrcode"

/-! ## JSON values (object form) -/

/-- A `QJsonValue`; numbers are doubles. -/
inductive QJsonValue where
  | undefined
  | null
  | bool (b : Bool)
  | double (d : ℚ)
  | string (s : String)
  | array (a : List QJsonValue)
  | object (o : List (String × QJsonValue))

/-- A `QJsonObject`: keys with their values. -/
abbrev QJsonObject := List (String × QJsonValue)

/-- A `QJsonArray`. -/
abbrev QJsonArray := List QJsonValue

namespace QJsonValue

/-- The string held by the value, or the default: `QJsonValue::toString`. -/
def toString (v : QJsonValue) (defaultValue : String) : String :=
  match v with
  | .string s => s
  | _ => defaultValue

/-- The number held by the value, or the default: `QJsonValue::toDouble`. -/
def toDouble (v : QJsonValue) (defaultValue : ℚ) : ℚ :=
  match v with
  | .double d => d
  | _ => defaultValue

/-- The boolean held by the value, or the default: `QJsonValue::toBool`. -/
def toBool (v : QJsonValue) (defaultValue : Bool) : Bool :=
  match v with
  | .bool b => b
  | _ => defaultValue

/-- The number held by the value when it is a whole number in the range of `int`, or the
default: `QJsonValue::toInt`. -/
def toInt (v : QJsonValue) (defaultValue : Int) : Int :=
  match v with
  | .double d =>
    if d.den = 1 ∧ -2147483648 ≤ d.num ∧ d.num ≤ 2147483647 then d.num else defaultValue
  | _ => defaultValue

/-- The array held by the value, or the empty array: `QJsonValue::toArray`. -/
def toArray (v : QJsonValue) : QJsonArray :=
  match v with
  | .array a => a
  | _ => []

/-- The object held by the value, or the empty object: `QJsonValue::toObject`. -/
def toObject (v : QJsonValue) : QJsonObject :=
  match v with
  | .object o => o
  | _ => []

end QJsonValue

namespace QJsonObject

/-- Reading `json[key]`: the value stored under the key, `undefined` when there is none. -/
def value : QJsonObject → String → QJsonValue
  | [], _ => .undefined
  | (k, v) :: rest, key => if k = key then v else value rest key

/-- Writing `json[key] = v`: replaces the value stored under the key or adds the key. -/
def insert : QJsonObject → String → QJsonValue → QJsonObject
  | [], key, v => [(key, v)]
  | (k, x) :: rest, key, v => if k = key then (k, v) :: rest else (k, x) :: insert rest key v

end QJsonObject

/-! ## Item persistence (object form) -/

/-- The collaborators of the persistence code outside the model: the UUID generator (indexed
by the number of the allocation), the size hint of a freshly constructed text item, the image
reader, the PNG/base64 codec used for embedded image data, and the number readers
`QString::toDouble` and `QString::toInt` used on XML attributes. -/
structure Services where
  createUuid : Nat → String
  textSizeHint : QSizeF ℚ
  readImage : String → QImage
  loadFromData : String → QImage
  savePng : QImage → String
  toDouble : String → ℚ := fun _ => 0
  toInt : String → Int := fun _ => 0

/-- The extent of an image as a `QSizeF`: `QImage::size()`. -/
def QImage.size (img : QImage) : QSizeF ℚ := ⟨img.width, img.height⟩

/-- The call `size.scale(w, h, Qt::KeepAspectRatio)` of `QSizeF`. -/
def QSizeF.scaleKeepAspectRatio (sz : QSizeF ℚ) (w h : ℚ) : QSizeF ℚ :=
  if sz.wd = 0 ∨ sz.ht = 0 then ⟨w, h⟩
  else
    let rw := h * sz.wd / sz.ht
    if rw ≤ w then ⟨rw, h⟩ else ⟨w, w * sz.ht / sz.wd⟩

namespace TextItem

/-- The constructor `TextItem::TextItem`; `sizeHint` is the value of `sizeHint()` for the
default text. -/
def new (uuid : String) (sizeHint : QSizeF ℚ) : TextItem :=
  let t : TextItem := { m_id := uuid }
  let t : TextItem := { t with toLabelItem := t.toLabelItem.setName "文本" }
  { t with toLabelItem := t.toLabelItem.setSize sizeHint }

/-- The body of `TextItem::toJson` (all members kept in the embedding; the `font` object is
left out). -/
def toJson (t : TextItem) : QJsonObject :=
  let json : QJsonObject := []
  let json := json.insert "type" (.string "text")
  let json := json.insert "id" (.string t.m_id)
  let json := json.insert "name" (.string t.m_name)
  let json := json.insert "x" (.double t.m_rect.xp)
  let json := json.insert "y" (.double t.m_rect.yp)
  let json := json.insert "width" (.double t.m_rect.w)
  let json := json.insert "height" (.double t.m_rect.h)
  let json := json.insert "rotation" (.double t.m_rotation)
  let json := json.insert "locked" (.bool t.m_locked)
  let json := json.insert "visible" (.bool t.m_visible)
  let json := json.insert "text" (.string t.m_text)
  let colorJson : QJsonObject := []
  let colorJson := colorJson.insert "text" (.string t.m_textColor.name)
  let colorJson := colorJson.insert "background" (.string t.m_backgroundColor.name)
  let colorJson := colorJson.insert "border" (.string t.m_borderColor.name)
  let json := json.insert "colors" (.object colorJson)
  let formatJson : QJsonObject := []
  let formatJson := formatJson.insert "alignment" (.double (t.m_alignment : ℚ))
  let formatJson := formatJson.insert "wordWrap" (.bool t.m_wordWrap)
  let formatJson := formatJson.insert "borderWidth" (.double (t.m_borderWidth : ℚ))
  let json := json.insert "format" (.object formatJson)
  json

/-- The body of `TextItem::fromJson` (all members kept in the embedding; the `font` object
is left out). -/
def fromJson (t : TextItem) (json : QJsonObject) : Bool × TextItem :=
  if (json.value "type").toString "" ≠ "text" then (false, t)
  else
    let x := (json.value "x").toDouble 0
    let y := (json.value "y").toDouble 0
    let width := (json.value "width").toDouble 100
    let height := (json.value "height").toDouble 50
    let t : TextItem :=
      { t with
        m_id := (json.value "id").toString ""
        m_name := (json.value "name").toString "文本"
        m_rect := ⟨x, y, width, height⟩
        m_rotation := (json.value "rotation").toDouble 0
        m_locked := (json.value "locked").toBool false
        m_visible := (json.value "visible").toBool true
        m_text := (json.value "text").toString "" }
    let colorJson := (json.value "colors").toObject
    let t : TextItem :=
      if colorJson.isEmpty = false then
        { t with
          m_textColor := QColor.fromString ((colorJson.value "text").toString "#000000")
          m_backgroundColor :=
            QColor.fromString ((colorJson.value "background").toString "transparent")
          m_borderColor := QColor.fromString ((colorJson.value "border").toString "#000000") }
      else t
    let formatJson := (json.value "format").toObject
    let t : TextItem :=
      if formatJson.isEmpty = false then
        { t with
          m_alignment := (formatJson.value "alignment").toInt 1
          m_wordWrap := (formatJson.value "wordWrap").toBool true
          m_borderWidth := (formatJson.value "borderWidth").toInt 0 }
      else t
    (true, t)

end TextItem

namespace ImageItem

/-- The constructor `ImageItem::ImageItem`. -/
def new (uuid : String) : ImageItem :=
  let i : ImageItem := { m_id := uuid }
  let i : ImageItem := { i with toLabelItem := i.toLabelItem.setName "图像" }
  { i with toLabelItem := i.toLabelItem.setSize ⟨100, 100⟩ }

/-- The body of `ImageItem::setImage`. -/
def setImage (i : ImageItem) (image : QImage) : Bool × ImageItem :=
  if image.isNull then (false, i)
  else (true, { i with m_originalImage := image, m_modified := true })

/-- The body of `ImageItem::setImagePath`: after a successful read, an item whose width or
height is at most 1 takes the size of the image (scaled into 300 x 300). -/
def setImagePath (srv : Services) (i : ImageItem) (path : String) : Bool × ImageItem :=
  if path = "" then (false, i)
  else
    let img := srv.readImage path
    if img.isNull then (false, i)
    else
      let i : ImageItem := { i with m_imagePath := path }
      let i := (i.setImage img).2
      let i : ImageItem :=
        if i.m_rect.w ≤ 1 ∨ i.m_rect.h ≤ 1 then
          let size := img.size
          let size := if size.wd > 300 ∨ size.ht > 300 then size.scaleKeepAspectRatio 300 300 else size
          { i with toLabelItem := i.toLabelItem.setSize size }
        else i
      (true, i)

/-- The body of `ImageItem::resize`, the override of the virtual `LabelItem::resize`: an item
that keeps its aspect ratio and holds an image first fits the request to the image's
proportions, computing a missing (non-positive) side from the other one. -/
def resize (i : ImageItem) (width height : ℚ) : ImageItem :=
  let request : ℚ × ℚ :=
    if i.m_keepAspectRatio = true ∧ i.m_originalImage.isNull = false then
      let imgSize := i.m_originalImage.size
      let ratio := imgSize.wd / imgSize.ht
      if width > 0 ∧ height > 0 then
        let widthRatio := width / imgSize.wd
        let heightRatio := height / imgSize.ht
        if widthRatio < heightRatio then (width, width / ratio) else (height * ratio, height)
      else if width > 0 then (width, width / ratio)
      else if height > 0 then (height * ratio, height)
      else (width, height)
    else (width, height)
  { i with toLabelItem := i.toLabelItem.resize request.1 request.2 }

/-- The body of `ImageItem::toJson` (base-class members, image path, aspect flag and embedded
data). -/
def toJson (srv : Services) (i : ImageItem) : QJsonObject :=
  let json : QJsonObject := []
  let json := json.insert "type" (.string "image")
  let json := json.insert "id" (.string i.m_id)
  let json := json.insert "name" (.string i.m_name)
  let json := json.insert "x" (.double i.m_rect.xp)
  let json := json.insert "y" (.double i.m_rect.yp)
  let json := json.insert "width" (.double i.m_rect.w)
  let json := json.insert "height" (.double i.m_rect.h)
  let json := json.insert "rotation" (.double i.m_rotation)
  let json := json.insert "locked" (.bool i.m_locked)
  let json := json.insert "visible" (.bool i.m_visible)
  let json := json.insert "imagePath" (.string i.m_imagePath)
  let json := json.insert "keepAspectRatio" (.bool i.m_keepAspectRatio)
  let json :=
    if i.m_imagePath = "" ∧ i.m_originalImage.isNull = false then
      json.insert "imageData" (.string (srv.savePng i.m_originalImage))
    else json
  json

/-- The body of `ImageItem::fromJson` (base-class members, image path and embedded data). -/
def fromJson (srv : Services) (i : ImageItem) (json : QJsonObject) : Bool × ImageItem :=
  if (json.value "type").toString "" ≠ "image" then (false, i)
  else
    let x := (json.value "x").toDouble 0
    let y := (json.value "y").toDouble 0
    let width := (json.value "width").toDouble 100
    let height := (json.value "height").toDouble 100
    let i : ImageItem :=
      { i with
        m_id := (json.value "id").toString ""
        m_name := (json.value "name").toString "图像"
        m_rect := ⟨x, y, width, height⟩
        m_rotation := (json.value "rotation").toDouble 0
        m_locked := (json.value "locked").toBool false
        m_visible := (json.value "visible").toBool true
        m_imagePath := (json.value "imagePath").toString ""
        m_keepAspectRatio := (json.value "keepAspectRatio").toBool true }
    let loaded : Bool × ImageItem :=
      if i.m_imagePath ≠ "" then i.setImagePath srv i.m_imagePath else (false, i)
    let i := loaded.2
    let i : ImageItem :=
      if loaded.1 = false then
        let imageDataBase64 := (json.value "imageData").toString ""
        if imageDataBase64 ≠ "" then
          let image := srv.loadFromData imageDataBase64
          if image.isNull = false then (i.setImage image).2 else i
        else i
      else i
    (true, i)

end ImageItem

namespace BarcodeItem

/-- The table `barcodeTypeNames`, in key order. -/
def barcodeTypeNames : List (BarcodeType × String) :=
  [(.Code128, "Code 128"), (.Code39, "Code 39"), (.Code93, "Code 93"), (.EAN8, "EAN-8"),
    (.EAN13, "EAN-13"), (.UPC_A, "UPC-A"), (.UPC_E, "UPC-E"), (.MSI, "MSI"),
    (.Interleaved2of5, "Interleaved 2 of 5"), (.ITF14, "ITF-14"), (.Codabar, "Codabar")]

/-- The body of `BarcodeItem::getTypeName`: `barcodeTypeNames.value(type, "Code 128")`. -/
def getTypeName (type : BarcodeType) : String :=
  match barcodeTypeNames.find? (fun entry => entry.1 = type) with
  | some entry => entry.2
  | none => "Code 128"

/-- The body of `BarcodeItem::getTypeFromName`: `barcodeTypeNames.key(name, Code128)`. -/
def getTypeFromName (name : String) : BarcodeType :=
  match barcodeTypeNames.find? (fun entry => entry.2 = name) with
  | some entry => entry.1
  | none => .Code128

/-- The keys of the table `code39Patterns`: digits, capital letters, `-`, `.`, blank and
`*`. -/
def code39Keys : List Char := "0123456789ABCDEFGHIJKLMNOPQRSTUVWXYZ-. *".toList

/-- The body of `BarcodeItem::validateData`. A `QString` is taken as the list of its
characters; `qIsDigit` stands for `QChar::isDigit`; character 42 is `*`. -/
def validateData (qIsDigit : Char → Bool) (data : String) (type : BarcodeType) : Bool :=
  if data.isEmpty then false
  else
    match type with
    | .Code128 => !data.isEmpty && decide (data.length ≤ 80)
    | .Code39 =>
      if data.toList.any (fun c => !code39Keys.contains c && c != Char.ofNat 42) then false
      else !data.isEmpty && decide (data.length ≤ 80)
    | .EAN8 =>
      if data.length ≠ 7 ∧ data.length ≠ 8 then false
      else if data.toList.any (fun c => !qIsDigit c) then false
      else true
    | .EAN13 =>
      if data.length ≠ 12 ∧ data.length ≠ 13 then false
      else if data.toList.any (fun c => !qIsDigit c) then false
      else true
    | .UPC_A =>
      if data.length ≠ 11 ∧ data.length ≠ 12 then false
      else if data.toList.any (fun c => !qIsDigit c) then false
      else true
    | .UPC_E =>
      if data.length ≠ 6 ∧ data.length ≠ 7 ∧ data.length ≠ 8 then false
      else if data.toList.any (fun c => !qIsDigit c) then false
      else true
    | _ => !data.isEmpty

/-- The body of `BarcodeItem::setData`. -/
def setData (qIsDigit : Char → Bool) (b : BarcodeItem) (data : String) : BarcodeItem :=
  if b.m_data = data then b
  else if validateData qIsDigit data b.m_type = false then b
  else { b with m_data := data, m_modified := true }

/-- The default data `BarcodeItem::setType` falls back to for a type. -/
def defaultData (type : BarcodeType) : String :=
  match type with
  | .EAN8 => "1234567"
  | .EAN13 => "123456789012"
  | .UPC_A => "12345678901"
  | .UPC_E => "123456"
  | _ => "12345678"

/-- The body of `BarcodeItem::setType`. -/
def setType (qIsDigit : Char → Bool) (b : BarcodeItem) (type : BarcodeType) : BarcodeItem :=
  if b.m_type = type then b
  else
    let b : BarcodeItem := { b with m_type := type }
    let b : BarcodeItem :=
      if validateData qIsDigit b.m_data b.m_type = false then
        { b with m_data := defaultData b.m_type }
      else b
    { b with m_modified := true }

/-- The constructor `BarcodeItem::BarcodeItem`. -/
def new (uuid : String) : BarcodeItem :=
  let b : BarcodeItem := { m_id := uuid }
  let b : BarcodeItem := { b with toLabelItem := b.toLabelItem.setName "条形码" }
  { b with toLabelItem := b.toLabelItem.setSize ⟨200, 100⟩ }

/-- The body of `BarcodeItem::toJson` (base-class members, data and barcode type). -/
def toJson (b : BarcodeItem) : QJsonObject :=
  let json : QJsonObject := []
  let json := json.insert "type" (.string "barcode")
  let json := json.insert "id" (.string b.m_id)
  let json := json.insert "name" (.string b.m_name)
  let json := json.insert "x" (.double b.m_rect.xp)
  let json := json.insert "y" (.double b.m_rect.yp)
  let json := json.insert "width" (.double b.m_rect.w)
  let json := json.insert "height" (.double b.m_rect.h)
  let json := json.insert "rotation" (.double b.m_rotation)
  let json := json.insert "locked" (.bool b.m_locked)
  let json := json.insert "visible" (.bool b.m_visible)
  let json := json.insert "data" (.string b.m_data)
  let json := json.insert "barcodeType" (.string (getTypeName b.m_type))
  json

/-- The body of `BarcodeItem::fromJson` (base-class members, data and barcode type). -/
def fromJson (b : BarcodeItem) (json : QJsonObject) : Bool × BarcodeItem :=
  if (json.value "type").toString "" ≠ "barcode" then (false, b)
  else
    let x := (json.value "x").toDouble 0
    let y := (json.value "y").toDouble 0
    let width := (json.value "width").toDouble 200
    let height := (json.value "height").toDouble 100
    (true,
      { b with
        m_id := (json.value "id").toString ""
        m_name := (json.value "name").toString "条形码"
        m_rect := ⟨x, y, width, height⟩
        m_rotation := (json.value "rotation").toDouble 0
        m_locked := (json.value "locked").toBool false
        m_visible := (json.value "visible").toBool true
        m_data := (json.value "data").toString "12345678"
        m_type := getTypeFromName ((json.value "barcodeType").toString "Code 128") })

end BarcodeItem

namespace QRCodeItem

/-- The constructor `QRCodeItem::QRCodeItem`. -/
def new (uuid : String) : QRCodeItem :=
  let q : QRCodeItem := { m_id := uuid }
  let q : QRCodeItem := { q with toLabelItem := q.toLabelItem.setName "二维码" }
  { q with toLabelItem := q.toLabelItem.setSize ⟨200, 200⟩ }

/-- The body of `QRCodeItem::toJson` (base-class members and the data). -/
def toJson (q : QRCodeItem) : QJsonObject :=
  let json : QJsonObject := []
  let json := json.insert "type" (.string "qrcode")
  let json := json.insert "id" (.string q.m_id)
  let json := json.insert "name" (.string q.m_name)
  let json := json.insert "x" (.double q.m_rect.xp)
  let json := json.insert "y" (.double q.m_rect.yp)
  let json := json.insert "width" (.double q.m_rect.w)
  let json := json.insert "height" (.double q.m_rect.h)
  let json := json.insert "rotation" (.double q.m_rotation)
  let json := json.insert "locked" (.bool q.m_locked)
  let json := json.insert "visible" (.bool q.m_visible)
  let json := json.insert "data" (.string q.m_data)
  json

/-- The body of `QRCodeItem::fromJson` (base-class members and the data). -/
def fromJson (q : QRCodeItem) (json : QJsonObject) : Bool × QRCodeItem :=
  if (json.value "type").toString "" ≠ "qrcode" then (false, q)
  else
    let x := (json.value "x").toDouble 0
    let y := (json.value "y").toDouble 0
    let width := (json.value "width").toDouble 200
    let height := (json.value "height").toDouble 200
    (true,
      { q with
        m_id := (json.value "id").toString ""
        m_name := (json.value "name").toString "二维码"
        m_rect := ⟨x, y, width, height⟩
        m_rotation := (json.value "rotation").toDouble 0
        m_locked := (json.value "locked").toBool false
        m_visible := (json.value "visible").toBool true
        m_data := (json.value "data").toString "https://example.com" })

end QRCodeItem

/-- Virtual dispatch of `LabelItem::resize`: only `ImageItem` overrides it. -/
def ItemObject.resize (o : ItemObject) (width height : ℚ) : ItemObject :=
  match o with
  | .image i => .image (i.resize width height)
  | other => other.mapBase (fun it => it.resize width height)

/-- Virtual dispatch of `LabelItem::toJson`. -/
def ItemObject.toJson (srv : Services) : ItemObject → QJsonObject
  | .text t => t.toJson
  | .image i => i.toJson srv
  | .barcode b => b.toJson
  | .qrcode q => q.toJson

/-- Virtual dispatch of `LabelItem::fromJson`. -/
def ItemObject.fromJson (srv : Services) : ItemObject → QJsonObject → Bool × ItemObject
  | .text t, json => ((t.fromJson json).1, .text (t.fromJson json).2)
  | .image i, json => ((i.fromJson srv json).1, .image (i.fromJson srv json).2)
  | .barcode b, json => ((b.fromJson json).1, .barcode (b.fromJson json).2)
  | .qrcode q, json => ((q.fromJson json).1, .qrcode (q.fromJson json).2)

/-- What the round-trip contract compares for one item: type discriminator, id, rect and
rotation. -/
def ItemObject.summary (o : ItemObject) : String × String × QRectF ℚ × ℚ :=
  (o.typeName, o.base.m_id, o.base.m_rect, o.base.m_rotation)

/-! ## XML elements (tree form) -/

/-- A `QDomElement`: tag name, attributes, text content and child elements. -/
inductive QDomElement where
  | mk (tagName : String) (attributes : List (String × String)) (text : String)
      (children : List QDomElement)

namespace QDomElement

/-- The tag name: `QDomElement::tagName`. -/
def tagName : QDomElement → String
  | .mk t _ _ _ => t

/-- The text content: `QDomElement::text`. -/
def text : QDomElement → String
  | .mk _ _ t _ => t

/-- The child elements, in document order. -/
def children : QDomElement → List QDomElement
  | .mk _ _ _ cs => cs

/-- Lookup in an attribute list. -/
def lookup : List (String × String) → String → Option String
  | [], _ => none
  | (k, v) :: rest, name => if k = name then some v else lookup rest name

/-- The attribute value, or the default when the attribute is absent:
`QDomElement::attribute`. -/
def attributeValue (e : QDomElement) (name defValue : String) : String :=
  match e with
  | .mk _ attrs _ _ => (lookup attrs name).getD defValue

/-- The child elements with the given tag, in document order: what the sequence
`firstChildElement(tag)`, `nextSiblingElement(tag)`, ... visits. -/
def childElements (e : QDomElement) (tag : String) : List QDomElement :=
  e.children.filter (fun c => decide (c.tagName = tag))

/-- The first child element with the given tag, `none` for a null element:
`QDomElement::firstChildElement`. -/
def firstChildElement (e : QDomElement) (tag : String) : Option QDomElement :=
  (e.childElements tag).head?

end QDomElement

/-- What `loadFromXml` finds on its device: whether the device is there, open and readable,
and the root element `QDomDocument::setContent` parses from it (`none` for a parse error). -/
structure XmlDevice where
  readable : Bool
  content : Option QDomElement

/-- The body of `TextItem::loadFromXml` (all members kept in the embedding; the `font`
element is left out). -/
def TextItem.loadFromXml (srv : Services) (t : TextItem) (element : QDomElement) :
    Bool × TextItem :=
  if element.attributeValue "type" "" ≠ "text" then (false, t)
  else
    let x := srv.toDouble (element.attributeValue "x" "0")
    let y := srv.toDouble (element.attributeValue "y" "0")
    let width := srv.toDouble (element.attributeValue "width" "100")
    let height := srv.toDouble (element.attributeValue "height" "50")
    let t : TextItem :=
      { t with
        m_id := element.attributeValue "id" ""
        m_name := element.attributeValue "name" "文本"
        m_rect := ⟨x, y, width, height⟩
        m_rotation := srv.toDouble (element.attributeValue "rotation" "0")
        m_locked := decide (element.attributeValue "locked" "" = "true")
        m_visible := decide (element.attributeValue "visible" "true" = "true") }
    let t : TextItem :=
      match element.firstChildElement "text" with
      | some textElement => { t with m_text := textElement.text }
      | none => t
    let t : TextItem :=
      match element.firstChildElement "colors" with
      | some colorElement =>
        { t with
          m_textColor := QColor.fromString (colorElement.attributeValue "text" "#000000")
          m_backgroundColor :=
            QColor.fromString (colorElement.attributeValue "background" "transparent")
          m_borderColor := QColor.fromString (colorElement.attributeValue "border" "#000000") }
      | none => t
    let t : TextItem :=
      match element.firstChildElement "format" with
      | some formatElement =>
        { t with
          m_alignment := srv.toInt (formatElement.attributeValue "alignment" "1")
          m_wordWrap := decide (formatElement.attributeValue "wordWrap" "true" = "true")
          m_borderWidth := srv.toInt (formatElement.attributeValue "borderWidth" "0") }
      | none => t
    (true, t)

/-- The body of `ImageItem::loadFromXml` (base-class members, image path, aspect flag and
embedded data). -/
def ImageItem.loadFromXml (srv : Services) (i : ImageItem) (element : QDomElement) :
    Bool × ImageItem :=
  if element.attributeValue "type" "" ≠ "image" then (false, i)
  else
    let x := srv.toDouble (element.attributeValue "x" "0")
    let y := srv.toDouble (element.attributeValue "y" "0")
    let width := srv.toDouble (element.attributeValue "width" "100")
    let height := srv.toDouble (element.attributeValue "height" "100")
    let i : ImageItem :=
      { i with
        m_id := element.attributeValue "id" ""
        m_name := element.attributeValue "name" "图像"
        m_rect := ⟨x, y, width, height⟩
        m_rotation := srv.toDouble (element.attributeValue "rotation" "0")
        m_locked := decide (element.attributeValue "locked" "" = "true")
        m_visible := decide (element.attributeValue "visible" "true" = "true")
        m_imagePath := element.attributeValue "imagePath" ""
        m_keepAspectRatio := decide (element.attributeValue "keepAspectRatio" "true" = "true") }
    let loaded : Bool × ImageItem :=
      if i.m_imagePath ≠ "" then i.setImagePath srv i.m_imagePath else (false, i)
    let i := loaded.2
    let i : ImageItem :=
      if loaded.1 = false then
        match element.firstChildElement "imageData" with
        | some dataElement =>
          let image := srv.loadFromData dataElement.text
          if image.isNull = false then (i.setImage image).2 else i
        | none => i
      else i
    (true, i)

/-- The body of `BarcodeItem::loadFromXml` (base-class members, data and barcode type). -/
def BarcodeItem.loadFromXml (srv : Services) (b : BarcodeItem) (element : QDomElement) :
    Bool × BarcodeItem :=
  if element.attributeValue "type" "" ≠ "barcode" then (false, b)
  else
    let x := srv.toDouble (element.attributeValue "x" "0")
    let y := srv.toDouble (element.attributeValue "y" "0")
    let width := srv.toDouble (element.attributeValue "width" "200")
    let height := srv.toDouble (element.attributeValue "height" "100")
    (true,
      { b with
        m_id := element.attributeValue "id" ""
        m_name := element.attributeValue "name" "条形码"
        m_rect := ⟨x, y, width, height⟩
        m_rotation := srv.toDouble (element.attributeValue "rotation" "0")
        m_locked := decide (element.attributeValue "locked" "" = "true")
        m_visible := decide (element.attributeValue "visible" "true" = "true")
        m_data := element.attributeValue "data" "12345678"
        m_type := BarcodeItem.getTypeFromName (element.attributeValue "barcodeType" "Code 128") })

/-- The body of `QRCodeItem::loadFromXml` (base-class members and the data). -/
def QRCodeItem.loadFromXml (srv : Services) (q : QRCodeItem) (element : QDomElement) :
    Bool × QRCodeItem :=
  if element.attributeValue "type" "" ≠ "qrcode" then (false, q)
  else
    let x := srv.toDouble (element.attributeValue "x" "0")
    let y := srv.toDouble (element.attributeValue "y" "0")
    let width := srv.toDouble (element.attributeValue "width" "200")
    let height := srv.toDouble (element.attributeValue "height" "200")
    (true,
      { q with
        m_id := element.attributeValue "id" ""
        m_name := element.attributeValue "name" "二维码"
        m_rect := ⟨x, y, width, height⟩
        m_rotation := srv.toDouble (element.attributeValue "rotation" "0")
        m_locked := decide (element.attributeValue "locked" "" = "true")
        m_visible := decide (element.attributeValue "visible" "true" = "true")
        m_data := element.attributeValue "data" "https://example.com" })

/-- Virtual dispatch of `LabelItem::loadFromXml`. -/
def ItemObject.loadFromXml (srv : Services) : ItemObject → QDomElement → Bool × ItemObject
  | .text t, e => ((t.loadFromXml srv e).1, .text (t.loadFromXml srv e).2)
  | .image i, e => ((i.loadFromXml srv e).1, .image (i.loadFromXml srv e).2)
  | .barcode b, e => ((b.loadFromXml srv e).1, .barcode (b.loadFromXml srv e).2)
  | .qrcode q, e => ((q.loadFromXml srv e).1, .qrcode (q.loadFromXml srv e).2)

/-! ## QList -/

namespace QList

variable {α : Type} [DecidableEq α]

/-- Index of the first occurrence, `-1` when there is none: `QList::indexOf`. -/
def indexOf (l : List α) (x : α) : Int :=
  if x ∈ l then (List.indexOf x l : Int) else -1

/-- Removes the element at position `i`; an index out of range changes nothing:
`QList::removeAt`. -/
def removeAt (l : List α) (i : Int) : List α :=
  if 0 ≤ i ∧ i < (l.length : Int) then l.eraseIdx i.toNat else l

/-- Inserts before position `i`; `i ≤ 0` prepends and `i ≥ size` appends: `QList::insert`. -/
def insert (l : List α) (i : Int) (v : α) : List α :=
  if i ≤ 0 then v :: l
  else if (l.length : Int) ≤ i then l ++ [v]
  else l.insertIdx i.toNat v

/-- Exchanges the elements at positions `i` and `j` (both in range): `QList::swap`. -/
def swap (l : List α) (i j : Int) : List α :=
  match l[i.toNat]?, l[j.toNat]? with
  | some a, some b => if 0 ≤ i ∧ 0 ≤ j then (l.set i.toNat b).set j.toNat a else l
  | _, _ => l

/-- Removes the first occurrence of `x`, if any: `QList::removeOne`. -/
def removeOne (l : List α) (x : α) : List α := l.erase x

end QList

/-! ## Document, undo stack and commands -/

/-- A `LabelItem*`: the address of an item object. -/
abbrev ItemPtr := Nat

/-- The null pointer. -/
def nullptr : ItemPtr := 0

/-- Members of `AddItemCommand` (the document pointer is the one document of the model). -/
structure AddItemCommand where
  m_item : ItemPtr
  m_ownsItem : Bool
deriving DecidableEq, Repr

/-- Members of `RemoveItemCommand`. -/
structure RemoveItemCommand where
  m_item : ItemPtr
  m_index : Int
  m_ownsItem : Bool
deriving DecidableEq, Repr

/-- Members of `ReorderItemCommand`. -/
structure ReorderItemCommand where
  m_item : ItemPtr
  m_oldIndex : Int
  m_newIndex : Int
deriving DecidableEq, Repr

/-- The `QUndoCommand` subclasses of `labelmodels.h`, and `composite`: an instance of
`QUndoCommand` itself, whose `redo` and `undo` run its child commands. -/
inductive UndoCommand where
  | add (c : AddItemCommand)
  | remove (c : RemoveItemCommand)
  | reorder (c : ReorderItemCommand)
  | composite (children : List UndoCommand)
deriving Repr

/-- State of a `QUndoStack`: the command list, the index of the next command to redo, and the
undo limit (`0` is unlimited). -/
structure QUndoStack where
  commands : List UndoCommand := []
  index : Nat := 0
  undoLimit : Nat := 0
deriving Repr

/-- Page margins in millimetres: `QMarginsF`. -/
structure QMarginsF where
  left : ℚ
  top : ℚ
  right : ℚ
  bottom : ℚ
deriving DecidableEq, Repr

/-- Members of `LabelDocument`; defaults are those of its constructor. The attached undo stack
is held by value, `none` standing for a null `m_undoStack`. -/
structure LabelDocument where
  m_items : List ItemPtr := []
  m_undoStack : Option QUndoStack := none
  m_pageSize : Int := 0
  m_orientation : Int := 0
  m_customSize : QSizeF ℚ := ⟨210, 297⟩
  m_dpi : Int := 300
  m_margins : QMarginsF := ⟨10, 10, 10, 10⟩
  m_modified : Bool := false
deriving Repr

/-- The item objects, by address. -/
abbrev Heap := ItemPtr → ItemObject

/-- The document, the item objects it points to, the number of addresses handed out by
`new` so far, and the addresses released by `delete`, in the order of their release. -/
structure World where
  doc : LabelDocument := {}
  heap : Heap := fun _ => .text {}
  allocated : Nat := 0
  freed : List ItemPtr := []

/-- The statement `delete item`. -/
def World.free (w : World) (item : ItemPtr) : World := { w with freed := w.freed ++ [item] }

namespace LabelDocument

/-- The body of `LabelDocument::setModified`. -/
def setModified (d : LabelDocument) : LabelDocument := { d with m_modified := true }

/-- The body of `LabelDocument::resetModified`. -/
def resetModified (d : LabelDocument) : LabelDocument := { d with m_modified := false }

/-- The body of `LabelDocument::isModified`. -/
def isModified (d : LabelDocument) : Bool := d.m_modified

/-- The body of `LabelDocument::items`: the list is returned by value. -/
def items (d : LabelDocument) : List ItemPtr := d.m_items

/-- The body of `LabelDocument::itemCount`. -/
def itemCount (d : LabelDocument) : Int := d.m_items.length

/-- The body of `LabelDocument::addItem`. -/
def addItem (d : LabelDocument) (item : ItemPtr) : LabelDocument :=
  if item = nullptr then d
  else if item ∈ d.m_items then d
  else ({ d with m_items := d.m_items ++ [item] } : LabelDocument).setModified

/-- The body of `LabelDocument::removeItem`. -/
def removeItem (d : LabelDocument) (item : ItemPtr) : LabelDocument :=
  if item = nullptr then d
  else if ¬ item ∈ d.m_items then d
  else ({ d with m_items := QList.removeOne d.m_items item } : LabelDocument).setModified

/-- The loop of `LabelDocument::updateItemIndexes`, from position `i` on. -/
def updateItemIndexesFrom : List ItemPtr → Nat → Heap → Heap
  | [], _, heap => heap
  | p :: ps, i, heap => updateItemIndexesFrom ps (i + 1) (Function.update heap p ((heap p).mapBase (fun it => it.setZValue i)))

/-- The body of `LabelDocument::updateItemIndexes`: `m_items[i]->setZValue(i)` for every `i`. -/
def updateItemIndexes (d : LabelDocument) (heap : Heap) : Heap :=
  updateItemIndexesFrom d.m_items 0 heap

end LabelDocument

/-- The z value of the item at an address. -/
def World.zValue (w : World) (p : ItemPtr) : ℚ := (w.heap p).base.zValue

namespace AddItemCommand

/-- The constructor `AddItemCommand::AddItemCommand`. -/
def new (item : ItemPtr) : AddItemCommand := { m_item := item, m_ownsItem := true }

/-- The body of `AddItemCommand::redo`. -/
def redo (c : AddItemCommand) (d : LabelDocument) : AddItemCommand × LabelDocument :=
  ({ c with m_ownsItem := false }, d.addItem c.m_item)

/-- The body of `AddItemCommand::undo`. -/
def undo (c : AddItemCommand) (d : LabelDocument) : AddItemCommand × LabelDocument :=
  ({ c with m_ownsItem := true }, d.removeItem c.m_item)

end AddItemCommand

namespace RemoveItemCommand

/-- The constructor `RemoveItemCommand::RemoveItemCommand`. -/
def new (d : LabelDocument) (item : ItemPtr) : RemoveItemCommand :=
  { m_item := item, m_index := QList.indexOf d.items item, m_ownsItem := false }

/-- The body of `RemoveItemCommand::redo`. -/
def redo (c : RemoveItemCommand) (d : LabelDocument) : RemoveItemCommand × LabelDocument :=
  ({ c with m_ownsItem := true }, d.removeItem c.m_item)

/-- The body of `RemoveItemCommand::undo`. -/
def undo (c : RemoveItemCommand) (d : LabelDocument) : RemoveItemCommand × LabelDocument :=
  ({ c with m_ownsItem := false }, d.addItem c.m_item)

end RemoveItemCommand

namespace ReorderItemCommand

/-- The constructor `ReorderItemCommand::ReorderItemCommand`. -/
def new (item : ItemPtr) (oldIndex newIndex : Int) : ReorderItemCommand :=
  { m_item := item, m_oldIndex := oldIndex, m_newIndex := newIndex }

/-- The body of `ReorderItemCommand::redo`. `m_document->items()` returns the list by value,
so `removeAt` and `insert` act on two temporaries that are dropped at the end of their
statements; `updateItemIndexes` and `setModified` act on the document. -/
def redo (c : ReorderItemCommand) (w : World) : World :=
  let _temporary1 := QList.removeAt w.doc.items c.m_oldIndex
  let _temporary2 := QList.insert w.doc.items c.m_newIndex c.m_item
  { w with heap := w.doc.updateItemIndexes w.heap, doc := w.doc.setModified }

/-- The body of `ReorderItemCommand::undo`, with the same two temporaries. -/
def undo (c : ReorderItemCommand) (w : World) : World :=
  let _temporary1 := QList.removeAt w.doc.items c.m_newIndex
  let _temporary2 := QList.insert w.doc.items c.m_oldIndex c.m_item
  { w with heap := w.doc.updateItemIndexes w.heap, doc := w.doc.setModified }

end ReorderItemCommand

mutual

/-- Virtual dispatch of `QUndoCommand::redo`; the base-class version runs the children in
order. -/
def UndoCommand.redo : UndoCommand → World → UndoCommand × World
  | .add c, w => (.add (c.redo w.doc).1, { w with doc := (c.redo w.doc).2 })
  | .remove c, w => (.remove (c.redo w.doc).1, { w with doc := (c.redo w.doc).2 })
  | .reorder c, w => (.reorder c, c.redo w)
  | .composite children, w =>
    (.composite (UndoCommand.redoAll children w).1, (UndoCommand.redoAll children w).2)

/-- The loop of `QUndoCommand::redo` over the child list, first child first. -/
def UndoCommand.redoAll : List UndoCommand → World → List UndoCommand × World
  | [], w => ([], w)
  | c :: cs, w =>
    ((c.redo w).1 :: (UndoCommand.redoAll cs (c.redo w).2).1,
      (UndoCommand.redoAll cs (c.redo w).2).2)

end

mutual

/-- Virtual dispatch of `QUndoCommand::undo`; the base-class version runs the children in
reverse order. -/
def UndoCommand.undo : UndoCommand → World → UndoCommand × World
  | .add c, w => (.add (c.undo w.doc).1, { w with doc := (c.undo w.doc).2 })
  | .remove c, w => (.remove (c.undo w.doc).1, { w with doc := (c.undo w.doc).2 })
  | .reorder c, w => (.reorder c, c.undo w)
  | .composite children, w =>
    (.composite (UndoCommand.undoAll children w).1, (UndoCommand.undoAll children w).2)

/-- The loop of `QUndoCommand::undo` over the child list, last child first. -/
def UndoCommand.undoAll : List UndoCommand → World → List UndoCommand × World
  | [], w => ([], w)
  | c :: cs, w =>
    ((c.undo (UndoCommand.undoAll cs w).2).1 :: (UndoCommand.undoAll cs w).1,
      (c.undo (UndoCommand.undoAll cs w).2).2)

end

mutual

/-- The destructors: `~AddItemCommand` and `~RemoveItemCommand` delete the item when the
command owns it; `~QUndoCommand` deletes the children. -/
def UndoCommand.destroy : UndoCommand → World → World
  | .add c, w => if c.m_ownsItem then w.free c.m_item else w
  | .remove c, w => if c.m_ownsItem then w.free c.m_item else w
  | .reorder _, w => w
  | .composite children, w => UndoCommand.destroyAll children w

/-- Deleting a list of commands, first one first. -/
def UndoCommand.destroyAll : List UndoCommand → World → World
  | [], w => w
  | c :: cs, w => UndoCommand.destroyAll cs (c.destroy w)

end

/-- Bookkeeping of `QUndoStack::push` after the command has run: commands beyond the current
index are discarded, the command is appended, and the oldest commands are dropped while the
list is longer than a positive undo limit. -/
def QUndoStack.record (st : QUndoStack) (cmd : UndoCommand) : QUndoStack :=
  let cmds := st.commands.take st.index ++ [cmd]
  let del := if 0 < st.undoLimit ∧ st.undoLimit < cmds.length then cmds.length - st.undoLimit else 0
  { st with commands := cmds.drop del, index := st.index + 1 - del }

/-- The commands `QUndoStack::push` deletes before appending: those beyond the current index,
last one first. -/
def QUndoStack.redoBranch (st : QUndoStack) : List UndoCommand :=
  (st.commands.drop st.index).reverse

/-- The commands `QUndoStack::push` deletes after appending `cmd`: the oldest ones, while the
list is longer than a positive undo limit. -/
def QUndoStack.evicted (st : QUndoStack) (cmd : UndoCommand) : List UndoCommand :=
  let cmds := st.commands.take st.index ++ [cmd]
  let del := if 0 < st.undoLimit ∧ st.undoLimit < cmds.length then cmds.length - st.undoLimit else 0
  cmds.take del

/-- The call `m_undoStack->push(cmd)`: `QUndoStack::push` runs `cmd->redo()`, deletes the
commands beyond the current index, appends the command and deletes the oldest commands beyond
the undo limit. -/
def World.push (w : World) (st : QUndoStack) (cmd : UndoCommand) : World :=
  let r := cmd.redo w
  let w1 := UndoCommand.destroyAll st.redoBranch r.2
  let w2 := UndoCommand.destroyAll (st.evicted r.1) w1
  { w2 with doc := { w2.doc with m_undoStack := some (st.record r.1) } }

/-- The call `m_undoStack->undo()`: the command below the index is undone and the index
steps back. -/
def World.undo (w : World) : World :=
  match w.doc.m_undoStack with
  | none => w
  | some st =>
    if st.index = 0 then w
    else
      match st.commands[st.index - 1]? with
      | none => w
      | some cmd =>
        let r := cmd.undo w
        let st' : QUndoStack :=
          { st with commands := st.commands.set (st.index - 1) r.1, index := st.index - 1 }
        { r.2 with doc := { r.2.doc with m_undoStack := some st' } }

namespace World

/-- The body of `LabelDocument::moveItemUp`. -/
def moveItemUp (w : World) (item : ItemPtr) : Bool × World :=
  let index := QList.indexOf w.doc.m_items item
  if index < 0 ∨ index ≥ (w.doc.m_items.length : Int) - 1 then (false, w)
  else
    let newIndex := index + 1
    match w.doc.m_undoStack with
    | some st => (true, w.push st (.reorder (ReorderItemCommand.new item index newIndex)))
    | none =>
      let d : LabelDocument := { w.doc with m_items := QList.swap w.doc.m_items index newIndex }
      (true, { w with heap := d.updateItemIndexes w.heap, doc := d.setModified })

/-- The body of `LabelDocument::moveItemDown`. -/
def moveItemDown (w : World) (item : ItemPtr) : Bool × World :=
  let index := QList.indexOf w.doc.m_items item
  if index ≤ 0 then (false, w)
  else
    let newIndex := index - 1
    match w.doc.m_undoStack with
    | some st => (true, w.push st (.reorder (ReorderItemCommand.new item index newIndex)))
    | none =>
      let d : LabelDocument := { w.doc with m_items := QList.swap w.doc.m_items index newIndex }
      (true, { w with heap := d.updateItemIndexes w.heap, doc := d.setModified })

/-- The body of `LabelDocument::moveItemToTop`. -/
def moveItemToTop (w : World) (item : ItemPtr) : Bool × World :=
  let index := QList.indexOf w.doc.m_items item
  if index < 0 ∨ index = (w.doc.m_items.length : Int) - 1 then (false, w)
  else
    let newIndex := (w.doc.m_items.length : Int) - 1
    match w.doc.m_undoStack with
    | some st => (true, w.push st (.reorder (ReorderItemCommand.new item index newIndex)))
    | none =>
      let d : LabelDocument :=
        { w.doc with m_items := QList.removeAt w.doc.m_items index ++ [item] }
      (true, { w with heap := d.updateItemIndexes w.heap, doc := d.setModified })

/-- The body of `LabelDocument::moveItemToBottom`. -/
def moveItemToBottom (w : World) (item : ItemPtr) : Bool × World :=
  let index := QList.indexOf w.doc.m_items item
  if index ≤ 0 then (false, w)
  else
    let newIndex : Int := 0
    match w.doc.m_undoStack with
    | some st => (true, w.push st (.reorder (ReorderItemCommand.new item index newIndex)))
    | none =>
      let d : LabelDocument :=
        { w.doc with m_items := item :: QList.removeAt w.doc.m_items index }
      (true, { w with heap := d.updateItemIndexes w.heap, doc := d.setModified })

/-- `LabelDocument::addItem` on the world (the item objects are not touched). -/
def addItem (w : World) (item : ItemPtr) : World := { w with doc := w.doc.addItem item }

/-- `LabelDocument::removeItem` on the world (the item objects are not touched). -/
def removeItem (w : World) (item : ItemPtr) : World := { w with doc := w.doc.removeItem item }

/-- The invariant of the data model: the z value of every item of the list is its index. -/
def ZOrderIsIndex (w : World) : Prop :=
  ∀ (i : Nat) (h : i < w.doc.m_items.length), w.zValue (w.doc.m_items.get ⟨i, h⟩) = (i : ℚ)

/-- The z-order invariant can be checked index by index. -/
instance decidableZOrderIsIndex (w : World) : Decidable w.ZOrderIsIndex :=
  Nat.decidableBallLT _ _

end World

/-! ## Document persistence (object form) -/

namespace World

/-- The body of `LabelDocument::clear`: the list is emptied, the item objects are deleted
(their addresses are not handed out again) and the document is marked modified. -/
def clear (w : World) : World :=
  { w with
    doc := ({ w.doc with m_items := [] } : LabelDocument).setModified
    freed := w.freed ++ w.doc.m_items }

/-- The body of `LabelDocument::toJson`. -/
def toJson (srv : Services) (w : World) : QJsonObject :=
  let json : QJsonObject := []
  let json := json.insert "version" (.string "1.0")
  let json := json.insert "pageSize" (.double w.doc.m_pageSize)
  let json := json.insert "orientation" (.double w.doc.m_orientation)
  let json := json.insert "customWidth" (.double w.doc.m_customSize.wd)
  let json := json.insert "customHeight" (.double w.doc.m_customSize.ht)
  let json := json.insert "dpi" (.double w.doc.m_dpi)
  let json := json.insert "marginLeft" (.double w.doc.m_margins.left)
  let json := json.insert "marginTop" (.double w.doc.m_margins.top)
  let json := json.insert "marginRight" (.double w.doc.m_margins.right)
  let json := json.insert "marginBottom" (.double w.doc.m_margins.bottom)
  let itemsArray : QJsonArray := w.doc.m_items.map (fun item => .object ((w.heap item).toJson srv))
  let json := json.insert "items" (.array itemsArray)
  json

/-- The class selection inside the item loop of `LabelDocument::fromJson`: the record's type
decides which class `new` constructs; an unknown type constructs nothing. -/
def createItemOfType (srv : Services) (address : ItemPtr) (itemType : String) :
    Option ItemObject :=
  if itemType = "text" then some (.text (TextItem.new (srv.createUuid address) srv.textSizeHint))
  else if itemType = "image" then some (.image (ImageItem.new (srv.createUuid address)))
  else if itemType = "barcode" then some (.barcode (BarcodeItem.new (srv.createUuid address)))
  else if itemType = "qrcode" then some (.qrcode (QRCodeItem.new (srv.createUuid address)))
  else none

/-- One pass of the item loop of `LabelDocument::fromJson`: an unknown type is skipped, the
new object reads the record (a failed read deletes the object), and the object is added to
the document. `new` hands out the next unused address. -/
def loadItem (srv : Services) (w : World) (value : QJsonValue) : World :=
  let itemJson := value.toObject
  let itemType := (itemJson.value "type").toString ""
  let address := w.allocated + 1
  match createItemOfType srv address itemType with
  | none => w
  | some object =>
    let r := object.fromJson srv itemJson
    if r.1 = false then World.free { w with allocated := address } address
    else
      World.addItem { w with allocated := address, heap := Function.update w.heap address r.2 }
        address

/-- The body of `LabelDocument::fromJson`. -/
def fromJson (srv : Services) (w : World) (json : QJsonObject) : Bool × World :=
  let version := (json.value "version").toString "1.0"
  if version ≠ "1.0" then (false, w)
  else
    let w := w.clear
    let marginLeft := (json.value "marginLeft").toDouble 10
    let marginTop := (json.value "marginTop").toDouble 10
    let marginRight := (json.value "marginRight").toDouble 10
    let marginBottom := (json.value "marginBottom").toDouble 10
    let d : LabelDocument :=
      { w.doc with
        m_pageSize := (json.value "pageSize").toInt 0
        m_orientation := (json.value "orientation").toInt 0
        m_customSize := ⟨(json.value "customWidth").toDouble 210,
          (json.value "customHeight").toDouble 297⟩
        m_dpi := (json.value "dpi").toInt 300
        m_margins := ⟨marginLeft, marginTop, marginRight, marginBottom⟩ }
    let w : World := { w with doc := d }
    let itemsArray := (json.value "items").toArray
    let w := itemsArray.foldl (loadItem srv) w
    (true, { w with doc := w.doc.resetModified })

/-- One pass of the item loop of `LabelDocument::loadItemsFromXml`, the tree-form twin of
`loadItem`. -/
def loadItemFromXml (srv : Services) (w : World) (itemElement : QDomElement) : World :=
  let itemType := itemElement.attributeValue "type" ""
  let address := w.allocated + 1
  match createItemOfType srv address itemType with
  | none => w
  | some object =>
    let r := object.loadFromXml srv itemElement
    if r.1 = false then World.free { w with allocated := address } address
    else
      World.addItem { w with allocated := address, heap := Function.update w.heap address r.2 }
        address

/-- The body of `LabelDocument::loadItemsFromXml`: fails when the parent has no `Items`
child. -/
def loadItemsFromXml (srv : Services) (w : World) (parent : QDomElement) : Bool × World :=
  match parent.firstChildElement "Items" with
  | none => (false, w)
  | some itemsElement => (true, (itemsElement.childElements "Item").foldl (loadItemFromXml srv) w)

/-- The body of `LabelDocument::loadFromXml`. -/
def loadFromXml (srv : Services) (w : World) (device : XmlDevice) : Bool × World :=
  if device.readable = false then (false, w)
  else
    match device.content with
    | none => (false, w)
    | some root =>
      if root.tagName ≠ "Label" then (false, w)
      else
        let w := w.clear
        let marginLeft := srv.toDouble (root.attributeValue "marginLeft" "10")
        let marginTop := srv.toDouble (root.attributeValue "marginTop" "10")
        let marginRight := srv.toDouble (root.attributeValue "marginRight" "10")
        let marginBottom := srv.toDouble (root.attributeValue "marginBottom" "10")
        let d : LabelDocument :=
          { w.doc with
            m_pageSize := srv.toInt (root.attributeValue "pageSize" "0")
            m_orientation := srv.toInt (root.attributeValue "orientation" "0")
            m_customSize := ⟨srv.toDouble (root.attributeValue "customWidth" "210"),
              srv.toDouble (root.attributeValue "customHeight" "297")⟩
            m_dpi := srv.toInt (root.attributeValue "dpi" "300")
            m_margins := ⟨marginLeft, marginTop, marginRight, marginBottom⟩ }
        let w : World := { w with doc := d }
        let r := loadItemsFromXml srv w root
        if r.1 = false then (false, r.2)
        else (true, { r.2 with doc := r.2.doc.resetModified })

/-- The return value of `LabelDocument::saveToXml`, a `const` method: it succeeds exactly when
the device is there, open and writable. The text it writes is outside the embedding. -/
def saveToXml (_w : World) (deviceWritable : Bool) : Bool := deviceWritable

/-- The per-item data compared by the round-trip contract, in list order. -/
def itemSummaries (w : World) : List (String × String × QRectF ℚ × ℚ) :=
  w.doc.m_items.map (fun item => (w.heap item).summary)

end World

/-! ## View and main window -/

/-- The body of `LabelEditView::deleteSelectedItems` for the selection `items`; `confirmed`
is the answer to the confirmation dialog. With an undo stack attached, a plain `QUndoCommand`
is created, one `RemoveItemCommand` per item is constructed (its constructor takes no parent,
so it is attached to nothing), and the plain command is pushed. -/
def LabelEditView.deleteSelectedItems (w : World) (items : List ItemPtr) (confirmed : Bool) :
    World :=
  if items = [] then w
  else if confirmed = false then w
  else
    match w.doc.m_undoStack with
    | some st =>
      let deleteCommand := UndoCommand.composite []
      let _detached := items.map (fun item => RemoveItemCommand.new w.doc item)
      w.push st deleteCommand
    | none => items.foldl (fun w item => w.removeItem item) w

/-- Members of `MainWindow` that the save path touches: the current document (`none` for a
null pointer), the current file path and the window-modified flag of `QWidget`. -/
structure MainWindow where
  m_currentDocument : Option World := none
  m_currentFilePath : String := ""
  windowModified : Bool := false

/-- The body of `MainWindow::setCurrentFile`. -/
def MainWindow.setCurrentFile (mw : MainWindow) (fileName : String) : MainWindow :=
  { mw with m_currentFilePath := fileName, windowModified := false }

/-- The body of `MainWindow::documentModified`, the slot connected to the document's
`documentModified` signal. -/
def MainWindow.documentModified (mw : MainWindow) : MainWindow :=
  { mw with windowModified := true }

/-- The body of `MainWindow::saveFile`; `fileOpens` tells whether the file opens for
writing. -/
def MainWindow.saveFile (mw : MainWindow) (fileName : String) (fileOpens : Bool) :
    Bool × MainWindow :=
  match mw.m_currentDocument with
  | none => (false, mw)
  | some w =>
    if fileOpens = false then (false, mw)
    else
      let success := w.saveToXml true
      if success then (true, mw.setCurrentFile fileName) else (false, mw)

/-- The state after `n` calls alternating `redo()`, `undo()`, `redo()`, ... of an
Add-command, starting from `s`. -/
def AddItemCommand.alternate : Nat → AddItemCommand × LabelDocument →
    AddItemCommand × LabelDocument
  | 0, s => s
  | n + 1, s =>
    if n % 2 = 0 then (alternate n s).1.redo (alternate n s).2
    else (alternate n s).1.undo (alternate n s).2

/-- The state after `n` calls alternating `redo()`, `undo()`, `redo()`, ... of a
Remove-command, starting from `s`. -/
def RemoveItemCommand.alternate : Nat → RemoveItemCommand × LabelDocument →
    RemoveItemCommand × LabelDocument
  | 0, s => s
  | n + 1, s =>
    if n % 2 = 0 then (alternate n s).1.redo (alternate n s).2
    else (alternate n s).1.undo (alternate n s).2

/-- Postcondition of a reorder call on `X` with result `r` from world `w`: the call returned
true, `X` is at index `t` of the new list, the other items are in their previous relative
order, and every item's z value is its index. -/
def World.ReorderedTo (w : World) (X : ItemPtr) (t : Int) (r : Bool × World) : Prop :=
  r.1 = true ∧ 0 ≤ t ∧ r.2.doc.m_items[t.toNat]? = some X ∧
    r.2.doc.m_items.filter (fun p => decide (p ≠ X))
      = w.doc.m_items.filter (fun p => decide (p ≠ X)) ∧
    r.2.ZOrderIsIndex

/-- The items on which `ImageItem::setImagePath`, called while loading, leaves the size alone:
an image item of width and height above 1, or whose image path is empty, or whose image file
does not read; and every item of another class. -/
def ItemObject.KeepsSizeOnLoad (srv : Services) : ItemObject → Prop
  | .image i =>
    (1 < i.m_rect.w ∧ 1 < i.m_rect.h) ∨ i.m_imagePath = "" ∨ (srv.readImage i.m_imagePath).isNull = true
  | _ => True

/-- The condition is a finite check. -/
instance ItemObject.decidableKeepsSizeOnLoad (srv : Services) (o : ItemObject) :
    Decidable (o.KeepsSizeOnLoad srv) := by
  cases o <;> unfold ItemObject.KeepsSizeOnLoad <;> infer_instance

/-! ## Concrete states used in the evaluations below -/

/-- A document listing the items at addresses 1 and 2, bottom to top. -/
def docAB : LabelDocument := { m_items := [1, 2] }

/-- A world whose document lists the items at addresses 1, 2, 3 (A, B, C), bottom to top,
with z values 0, 1, 2 and no undo stack attached. -/
def worldABC : World :=
  { doc := { m_items := [1, 2, 3] },
    heap := fun p => .text { zValue := if p = 2 then 1 else if p = 3 then 2 else 0 } }

/-- The world `worldABC` with an undo stack (limit 50) attached to the document. -/
def worldABCStack : World :=
  { worldABC with doc := { worldABC.doc with m_undoStack := some { undoLimit := 50 } } }

/-- Services in which every image path reads as a 64 x 64 image. -/
def srvLogo : Services :=
  { createUuid := fun _ => "fresh"
    textSizeHint := ⟨100, 50⟩
    readImage := fun _ => { isNull := false, width := 64, height := 64 }
    loadFromData := fun _ => {}
    savePng := fun _ => "" }

/-- A world whose document holds one image item of size 1 x 1 that shows the file
`logo.png`. -/
def worldSmallImage : World :=
  { doc := { m_items := [1] }
    heap := fun _ => .image { m_id := "logo", m_rect := ⟨0, 0, 1, 1⟩, m_imagePath := "logo.png" }
    allocated := 1 }

/-- A world whose document holds a text item, an image item of size 120 x 80 showing
`logo.png`, a barcode and a QR code, bottom to top. -/
def worldFourKinds : World :=
  { doc := { m_items := [1, 2, 3, 4] }
    heap := fun p =>
      if p = 1 then .text { m_id := "t", m_rect := ⟨5, 6, 100, 50⟩, m_rotation := 30 }
      else if p = 2 then
        .image { m_id := "i", m_rect := ⟨0, 0, 120, 80⟩, m_imagePath := "logo.png" }
      else if p = 3 then .barcode { m_id := "b", m_rect := ⟨1, 2, 200, 100⟩ }
      else .qrcode { m_id := "q", m_rect := ⟨3, 4, 200, 200⟩, m_rotation := 90 }
    allocated := 4 }

/-- Whether `ImageItem::resize` fits the request to the image's proportions: the item is an
image item that keeps its aspect ratio and holds an image. -/
def ItemObject.fitsAspectOnResize : ItemObject → Bool
  | .image i => i.m_keepAspectRatio && !i.m_originalImage.isNull
  | _ => false

/-- An image item of size 100 x 100 that holds a 100 x 100 picture and keeps its aspect
ratio. -/
def imageWithPicture : ImageItem :=
  { m_rect := ⟨0, 0, 100, 100⟩, m_originalImage := { isNull := false, width := 100, height := 100 } }

/-- An unlocked item with rect `(0, 0, 20, 20)` being dragged by its bottom-right handle; the
last pointer position is the bottom-right corner. -/
def draggedSquare : LabelItem ℚ :=
  { m_rect := ⟨0, 0, 20, 20⟩, m_dragging := true, m_activeHandle := HandleBottomRight,
    m_lastPos := ⟨20, 20⟩, m_dragStartPos := ⟨20, 20⟩, selected := true }

/-- A main window whose document has been changed by one `addItem` since it was created. -/
def mainWindowEdited : MainWindow :=
  { m_currentDocument := some (({} : World).addItem 1), windowModified := true }

/-- The item a command refers to, when it refers to one. -/
def UndoCommand.itemOf : UndoCommand → Option ItemPtr
  | .add c => some c.m_item
  | .remove c => some c.m_item
  | .reorder c => some c.m_item
  | .composite _ => none

/-- The number of child commands of a command (`QUndoCommand::childCount`); the subclasses of
`labelmodels.h` take no parent and are given no children. -/
def UndoCommand.childCount : UndoCommand → Nat
  | .composite children => children.length
  | _ => 0

/-- The call `undoStack->push(new RemoveItemCommand(document, item))` for each item of a list
in turn. -/
def World.pushRemoves (w : World) (items : List ItemPtr) : World :=
  items.foldl
    (fun w item =>
      match w.doc.m_undoStack with
      | some st => w.push st (.remove (RemoveItemCommand.new w.doc item))
      | none => w)
    w

/-- A world whose document lists the items at the addresses 1 to 51, with the undo stack of
`MainWindow` (undo limit 50) attached. -/
def worldFiftyOne : World :=
  { doc := { m_items := List.range' 1 51, m_undoStack := some { undoLimit := 50 } }
    allocated := 51 }

/-- Whether a type discriminator names one of the four item classes. -/
def isKnownType (itemType : String) : Bool :=
  itemType = "text" || itemType = "image" || itemType = "barcode" || itemType = "qrcode"

/-- The type discriminator and id of a record of the items array when its type is known,
`none` for a record of unknown type (or a value that is no object). -/
def recordTypeAndId (value : QJsonValue) : Option (String × String) :=
  let record := value.toObject
  let itemType := (record.value "type").toString ""
  if isKnownType itemType then some (itemType, (record.value "id").toString "") else none

/-- The type discriminator and id of every item of the document, in list order. -/
def World.itemTypesAndIds (w : World) : List (String × String) :=
  w.doc.m_items.map (fun item => ((w.heap item).typeName, (w.heap item).base.m_id))

/-- An items array that mixes records of the four known types with a record of the unknown
type `shape`, a record without type and a value that is no object. -/
def mixedItemsArray : QJsonArray :=
  [.object [("type", .string "text"), ("id", .string "t1")],
    .object [("type", .string "shape"), ("id", .string "s1")],
    .object [("type", .string "qrcode"), ("id", .string "q1")],
    .object [("id", .string "n1")],
    .double 3,
    .object [("type", .string "image"), ("id", .string "i1")],
    .object [("type", .string "barcode"), ("id", .string "b1")]]

/-- Services whose number readers know the numerals used below. -/
def srvXml : Services :=
  { createUuid := fun _ => "fresh"
    textSizeHint := ⟨100, 50⟩
    readImage := fun _ => {}
    loadFromData := fun _ => {}
    savePng := fun _ => ""
    toDouble := fun s => if s = "10" then 10 else if s = "210" then 210
      else if s = "297" then 297 else 0
    toInt := fun s => if s = "5" then 5 else if s = "300" then 300 else 0 }

/-- A readable device whose content is a `Label` root with page size 5 and no `Items`
child. -/
def deviceWithoutItems : XmlDevice :=
  { readable := true, content := some (.mk "Label" [("pageSize", "5")] "" []) }

/-- The calls of `LabelDocument` that change the item list. -/
inductive ListCall where
  | addItem (item : ItemPtr)
  | removeItem (item : ItemPtr)
  | clear
  | moveItemUp (item : ItemPtr)
  | moveItemDown (item : ItemPtr)
  | moveItemToTop (item : ItemPtr)
  | moveItemToBottom (item : ItemPtr)

/-- The world after one call that changes the item list. -/
def World.call (w : World) : ListCall → World
  | .addItem item => w.addItem item
  | .removeItem item => w.removeItem item
  | .clear => w.clear
  | .moveItemUp item => (w.moveItemUp item).2
  | .moveItemDown item => (w.moveItemDown item).2
  | .moveItemToTop item => (w.moveItemToTop item).2
  | .moveItemToBottom item => (w.moveItemToBottom item).2
/-- What a reorder call on a document without undo stack leaves alone: the new list is a
rearrangement of the old one, no undo stack appears, and every object keeps its id. -/
def World.Rearranged (w r : World) : Prop :=
  r.doc.m_items.Perm w.doc.m_items ∧ r.doc.m_undoStack = none ∧
    ∀ p, (r.heap p).base.m_id = (w.heap p).base.m_id

/-- The ids of the items of the document, in list order. -/
def World.itemIds (w : World) : List String :=
  w.doc.m_items.map (fun item => (w.heap item).base.m_id)

/-- The uniqueness property of the specification: no two distinct items of the list have the
same id. -/
def World.IdsUnique (w : World) : Prop :=
  ∀ p ∈ w.doc.m_items, ∀ q ∈ w.doc.m_items, p ≠ q → (w.heap p).base.m_id ≠ (w.heap q).base.m_id

/-- The call `item->setId(id)` on the item at address `item`. -/
def World.setId (w : World) (item : ItemPtr) (id : String) : World :=
  { w with heap := Function.update w.heap item ((w.heap item).mapBase (fun it => it.setId id)) }

/-- The type discriminator and id of an `Item` element when its type is known, `none` for an
element of unknown type. -/
def elementTypeAndId (element : QDomElement) : Option (String × String) :=
  let itemType := element.attributeValue "type" ""
  if isKnownType itemType then some (itemType, element.attributeValue "id" "") else none

/-- An items array with two text records that carry the same id. -/
def twinItemsArray : QJsonArray :=
  [.object [("type", .string "text"), ("id", .string "dup")],
    .object [("type", .string "text"), ("id", .string "dup")]]

/-- A pointer event that the scene hands to the item at address `item`: the item's handler
runs on that object. Scene, view and item coordinates are taken to coincide. -/
def World.deliver (w : World) (item : ItemPtr) (handler : LabelItem ℚ → LabelItem ℚ) : World :=
  { w with heap := Function.update w.heap item ((w.heap item).mapBase handler) }

/-- The members of `LabelEditView` that its pointer handlers use, with the defaults of the
constructor (`GRID_SIZE` is 10). -/
structure LabelEditView where
  m_lastMousePos : QPointF ℚ := ⟨0, 0⟩
  m_movingItems : Bool := false
  m_snapToGrid : Bool := true
  m_gridSize : Int := 10

/-- The body of `LabelEditView::selectedItems`: the selected items of the scene, which shows
the items of the document. -/
def LabelEditView.selectedItems (w : World) : List ItemPtr :=
  w.doc.m_items.filter (fun p => (w.heap p).base.selected)

/-- The body of `LabelEditView::mousePressEvent` for a left-button press at `pos` on the item
at address `item`: the view notes the position and that items are being moved, and the
base-class handler hands the press to the item. -/
def LabelEditView.mousePressEvent (qCos qSin : ℚ → ℚ) (M_PI : ℚ) (v : LabelEditView)
    (w : World) (item : ItemPtr) (pos : QPointF ℚ) : LabelEditView × World :=
  ({ v with m_lastMousePos := pos, m_movingItems := true },
    w.deliver item (fun it => it.mousePressEvent qCos qSin M_PI pos true))

/-- The body of `LabelEditView::mouseMoveEvent` for a move to `pos` while the item at address
`item` holds the pointer. With items being moved and grid snapping on, every selected item is
set to its position plus the pointer delta, rounded to the grid (`qRound` is a parameter), and
the event goes no further; otherwise the base-class handler hands the move to the item. -/
def LabelEditView.mouseMoveEvent (qRound : ℚ → Int) (qAtan2 : ℚ → ℚ → ℚ) (M_PI : ℚ)
    (v : LabelEditView) (w : World) (item : ItemPtr) (pos : QPointF ℚ) :
    LabelEditView × World :=
  if v.m_movingItems = true ∧ v.m_snapToGrid = true then
    let delta := pos.sub v.m_lastMousePos
    let w := (LabelEditView.selectedItems w).foldl
      (fun w p =>
        w.deliver p (fun it =>
          let pos := it.position.add delta
          it.setPosition ⟨((qRound (pos.xp / (v.m_gridSize : ℚ)) * v.m_gridSize : Int) : ℚ),
            ((qRound (pos.yp / (v.m_gridSize : ℚ)) * v.m_gridSize : Int) : ℚ)⟩))
      w
    ({ v with m_lastMousePos := pos }, w)
  else (v, w.deliver item (fun it => it.mouseMoveEvent qAtan2 M_PI pos))

/-- The body of `LabelEditView::mouseReleaseEvent` for a left-button release while the item at
address `item` holds the pointer: the view ends the move and the base-class handler hands the
release to the item. -/
def LabelEditView.mouseReleaseEvent (v : LabelEditView) (w : World) (item : ItemPtr) :
    LabelEditView × World :=
  ({ v with m_movingItems := false }, w.deliver item (fun it => it.mouseReleaseEvent true))

/-- A completed pointer gesture on the item at address `item`: a press at `pressPos`, a move
to each position of `moves` in turn, and the release. -/
def LabelEditView.pointerGesture (qCos qSin : ℚ → ℚ) (qRound : ℚ → Int) (qAtan2 : ℚ → ℚ → ℚ)
    (M_PI : ℚ) (v : LabelEditView) (w : World) (item : ItemPtr) (pressPos : QPointF ℚ)
    (moves : List (QPointF ℚ)) : LabelEditView × World :=
  let s := LabelEditView.mousePressEvent qCos qSin M_PI v w item pressPos
  let s := moves.foldl
    (fun s pos => LabelEditView.mouseMoveEvent qRound qAtan2 M_PI s.1 s.2 item pos) s
  LabelEditView.mouseReleaseEvent s.1 s.2 item

/-- A document with an undo stack (limit 50) that lists one item, at address 1: a selected,
unlocked text item with rect `(0, 0, 20, 20)`. -/
def worldSquare : World :=
  { doc := { m_items := [1], m_undoStack := some { undoLimit := 50 } }
    heap := fun _ => .text { m_rect := ⟨0, 0, 20, 20⟩, selected := true } }

/-- The handles that the specification names as moving the left edge: top-left, middle-left
and bottom-left. -/
def handleMovesLeft (handle : Int) : Bool :=
  handle = HandleTopLeft || handle = HandleMiddleLeft || handle = HandleBottomLeft

/-- The handles that the specification names as moving the right edge: top-right,
middle-right and bottom-right. -/
def handleMovesRight (handle : Int) : Bool :=
  handle = HandleTopRight || handle = HandleMiddleRight || handle = HandleBottomRight

/-- The handles that the specification names as moving the top edge: top-left, top-middle
and top-right. -/
def handleMovesTop (handle : Int) : Bool :=
  handle = HandleTopLeft || handle = HandleTopMiddle || handle = HandleTopRight

/-- The handles that the specification names as moving the bottom edge: bottom-left,
bottom-middle and bottom-right. -/
def handleMovesBottom (handle : Int) : Bool :=
  handle = HandleBottomLeft || handle = HandleBottomMiddle || handle = HandleBottomRight

section RotationFacts

variable {K : Type} [LinearOrderedField K] [FloorRing K]

theorem normalizeDown_of_lt {a : K} (h : a < 360) : normalizeDown a = a := by
  rw [normalizeDown, if_neg (not_le.mpr h)]

theorem normalizeDown_of_ge {a : K} (h : 360 ≤ a) : normalizeDown a = normalizeDown (a - 360) := by
  rw [normalizeDown, if_pos h]

theorem normalizeUp_of_nonneg {a : K} (h : 0 ≤ a) : normalizeUp a = a := by
  rw [normalizeUp, if_neg (not_lt.mpr h)]

theorem normalizeUp_of_neg {a : K} (h : a < 0) : normalizeUp a = normalizeUp (a + 360) := by
  rw [normalizeUp, if_pos h]

theorem normalizeDown_lt (a : K) : normalizeDown a < 360 := by
  induction a using normalizeDown.induct with
  | case1 a h ih => rw [normalizeDown_of_ge h]; exact ih
  | case2 a h => rw [normalizeDown_of_lt (not_le.mp h)]; exact not_le.mp h

theorem normalizeDown_nonneg (a : K) (h0 : 0 ≤ a) : 0 ≤ normalizeDown a := by
  induction a using normalizeDown.induct with
  | case1 a h ih => rw [normalizeDown_of_ge h]; exact ih (by linarith)
  | case2 a h => rw [normalizeDown_of_lt (not_le.mp h)]; exact h0

theorem normalizeDown_of_neg (a : K) (h0 : a < 0) : normalizeDown a = a :=
  normalizeDown_of_lt (by linarith)

theorem normalizeDown_shift (a : K) : ∃ k : ℤ, normalizeDown a = a + k * 360 := by
  induction a using normalizeDown.induct with
  | case1 a h ih =>
    obtain ⟨k, hk⟩ := ih
    refine ⟨k - 1, ?_⟩
    rw [normalizeDown_of_ge h, hk]; push_cast; ring
  | case2 a h => exact ⟨0, by rw [normalizeDown_of_lt (not_le.mp h)]; simp⟩

theorem normalizeUp_nonneg (a : K) : 0 ≤ normalizeUp a := by
  induction a using normalizeUp.induct with
  | case1 a h ih => rw [normalizeUp_of_neg h]; exact ih
  | case2 a h => rw [normalizeUp_of_nonneg (not_lt.mp h)]; exact not_lt.mp h

theorem normalizeUp_lt (a : K) (h360 : a < 360) : normalizeUp a < 360 := by
  induction a using normalizeUp.induct with
  | case1 a h ih => rw [normalizeUp_of_neg h]; exact ih (by linarith)
  | case2 a h => rw [normalizeUp_of_nonneg (not_lt.mp h)]; exact h360

theorem normalizeUp_shift (a : K) : ∃ k : ℤ, normalizeUp a = a + k * 360 := by
  induction a using normalizeUp.induct with
  | case1 a h ih =>
    obtain ⟨k, hk⟩ := ih
    refine ⟨k + 1, ?_⟩
    rw [normalizeUp_of_neg h, hk]; push_cast; ring
  | case2 a h => exact ⟨0, by rw [normalizeUp_of_nonneg (not_lt.mp h)]; simp⟩

/-- With exact scalars the two loops together land in `[0, 360)` and move the angle by whole
turns. -/
theorem normalize_spec (a : K) :
    0 ≤ normalizeUp (normalizeDown a) ∧ normalizeUp (normalizeDown a) < 360 ∧
      ∃ k : ℤ, normalizeUp (normalizeDown a) = a + k * 360 := by
  refine ⟨normalizeUp_nonneg _, normalizeUp_lt _ (normalizeDown_lt a), ?_⟩
  obtain ⟨k1, h1⟩ := normalizeDown_shift a
  obtain ⟨k2, h2⟩ := normalizeUp_shift (normalizeDown a)
  exact ⟨k1 + k2, by rw [h2, h1]; push_cast; ring⟩

/-- With exact scalars an angle already in `[0, 360)` plus one full turn is brought back by
the loops. -/
theorem normalize_add_turn (r : K) (h0 : 0 ≤ r) (h360 : r < 360) :
    normalizeUp (normalizeDown (r + 360)) = r := by
  rw [normalizeDown_of_ge (by linarith), add_sub_cancel_right, normalizeDown_of_lt h360,
    normalizeUp_of_nonneg h0]

end RotationFacts

section DoubleRotation

theorem roundHalfEven_intCast (n : Int) : roundHalfEven (n : ℚ) = n := by
  simp [roundHalfEven]

/-- A value just below an even integer `n`, at most one half away, rounds to `n`. -/
theorem roundHalfEven_of_below (q : ℚ) (n : Int) (heven : n % 2 = 0) (h1 : (n : ℚ) - 1 / 2 ≤ q)
    (h2 : q < n) : roundHalfEven q = n := by
  have hf : ⌊q⌋ = n - 1 := by
    rw [Int.floor_eq_iff]
    push_cast
    constructor <;> linarith
  have hodd : ¬ ((n - 1) % 2 = 0) := by omega
  unfold roundHalfEven
  simp only [hf]
  push_cast
  split_ifs <;> first | omega | (exfalso; linarith)

/-- A value at most one half above an even integer `n` rounds to `n`. -/
theorem roundHalfEven_of_above (q : ℚ) (n : Int) (heven : n % 2 = 0) (h1 : (n : ℚ) ≤ q)
    (h2 : q ≤ (n : ℚ) + 1 / 2) : roundHalfEven q = n := by
  have hf : ⌊q⌋ = n := by
    rw [Int.floor_eq_iff]
    constructor <;> linarith
  unfold roundHalfEven
  simp only [hf]
  split_ifs <;> first | omega | (exfalso; linarith)

theorem log_two_eq (x : ℚ) (e : Int) (h1 : (2 : ℚ) ^ e ≤ x) (h2 : x < (2 : ℚ) ^ (e + 1)) :
    Int.log 2 x = e := by
  have hpos : 0 < x := lt_of_lt_of_le (zpow_pos (by norm_num) e) h1
  have ha : e ≤ Int.log 2 x := by
    rw [← Int.zpow_le_iff_le_log (by norm_num) hpos]
    exact_mod_cast h1
  have hb : Int.log 2 x < e + 1 := by
    rw [← Int.lt_zpow_iff_log_lt (by norm_num) hpos]
    exact_mod_cast h2
  omega

theorem binary64_eq (x : ℚ) (e n : Int) (h1 : (2 : ℚ) ^ e ≤ |x|) (h2 : |x| < (2 : ℚ) ^ (e + 1))
    (he : -1022 ≤ e) (hn : roundHalfEven (x / 2 ^ (e - 52)) = n) :
    binary64 x = n * 2 ^ (e - 52) := by
  have hpos : 0 < |x| := lt_of_lt_of_le (zpow_pos (by norm_num) e) h1
  have hx : x ≠ 0 := abs_pos.mp hpos
  unfold binary64
  rw [if_neg hx]
  simp only [log_two_eq |x| e h1 h2, max_eq_left he, hn]

/-- A negative angle of at most `2 ^ (-45)` plus 360 rounds to exactly 360. -/
theorem binary64_add_360_of_tiny (θ : ℚ) (h1 : -(1 / 2 ^ 45) ≤ θ) (h2 : θ < 0) :
    binary64 (θ + 360) = 360 := by
  have habs : |θ + 360| = θ + 360 := abs_of_pos (by linarith)
  have hlow : -(1 : ℚ) ≤ θ := le_trans (by norm_num) h1
  rw [binary64_eq (θ + 360) 8 (360 * 2 ^ 44)
    (by rw [habs]; norm_num; linarith) (by rw [habs]; norm_num; linarith) (by norm_num)
    (roundHalfEven_of_below _ _ (by norm_num) (by
      norm_num
      rw [le_div_iff₀ (by positivity)]
      linarith) (by
      norm_num
      rw [div_lt_iff₀ (by positivity)]
      linarith))]
  norm_num

/-- The double `10 ^ 19` less 360 rounds back to `10 ^ 19`. -/
theorem binary64_sub_360_of_huge : binary64 (10 ^ 19 - 360) = 10 ^ 19 := by
  have habs : |(10 : ℚ) ^ 19 - 360| = 10 ^ 19 - 360 := abs_of_pos (by norm_num)
  rw [binary64_eq (10 ^ 19 - 360) 63 (10 ^ 19 / 2 ^ 11)
    (by rw [habs]; norm_num) (by rw [habs]; norm_num) (by norm_num)
    (roundHalfEven_of_below _ _ (by norm_num) (by norm_num) (by norm_num))]
  norm_num

/-- A value `m * 2 ^ j` with `|m| < 2 ^ 53` and `j` at least `-1074` is a double: rounding
leaves it as it is. -/
theorem binary64_of_representable (m j : Int) (hm : |m| < 2 ^ 53) (hj : -1074 ≤ j) :
    binary64 ((m : ℚ) * 2 ^ j) = (m : ℚ) * 2 ^ j := by
  by_cases h0 : m = 0
  · simp [h0, binary64]
  have h2 : (0 : ℚ) < 2 := by norm_num
  have hx : (m : ℚ) * 2 ^ j ≠ 0 :=
    mul_ne_zero (Int.cast_ne_zero.mpr h0) (zpow_ne_zero j (by norm_num))
  have hpos : 0 < |(m : ℚ) * 2 ^ j| := abs_pos.mpr hx
  have hlt : |(m : ℚ) * 2 ^ j| < (2 : ℚ) ^ (53 + j) := by
    rw [abs_mul, abs_of_pos (zpow_pos h2 j), zpow_add₀ (by norm_num)]
    apply mul_lt_mul_of_pos_right _ (zpow_pos h2 j)
    have : ((|m| : Int) : ℚ) < ((2 ^ 53 : Int) : ℚ) := Int.cast_lt.mpr hm
    rw [Int.cast_abs] at this
    exact_mod_cast this
  have hlog : Int.log 2 |(m : ℚ) * 2 ^ j| < 53 + j := by
    rw [← Int.lt_zpow_iff_log_lt (by norm_num) hpos]
    exact_mod_cast hlt
  unfold binary64
  rw [if_neg hx]
  simp only []
  generalize he : max (Int.log 2 |(m : ℚ) * 2 ^ j|) (-1022) = e
  have hle : e - 52 ≤ j := by
    rw [← he]
    have := max_le (a := Int.log 2 |(m : ℚ) * 2 ^ j|) (b := -1022) (c := j + 52)
      (by omega) (by omega)
    omega
  obtain ⟨k, hk⟩ : ∃ k : Nat, j = e - 52 + k := ⟨(j - (e - 52)).toNat, by omega⟩
  have hq : (m : ℚ) * 2 ^ j / 2 ^ (e - 52) = ((m * 2 ^ k : Int) : ℚ) := by
    rw [hk, zpow_add₀ (by norm_num), zpow_natCast]
    have hne : (2 : ℚ) ^ (e - 52) ≠ 0 := zpow_ne_zero _ (by norm_num)
    field_simp
    ring
  rw [hq, roundHalfEven_intCast, hk, zpow_add₀ (by norm_num), zpow_natCast]
  push_cast
  ring

theorem normalizeDownDouble_of_lt (fuel : Nat) (angle : ℚ) (h : angle < 360) :
    normalizeDownDouble (fuel + 1) angle = some angle := by
  simp [normalizeDownDouble, not_le.mpr h]

theorem normalizeDownDouble_of_ge (fuel : Nat) (angle : ℚ) (h : 360 ≤ angle) :
    normalizeDownDouble (fuel + 1) angle = normalizeDownDouble fuel (binary64 (angle - 360)) := by
  simp [normalizeDownDouble, h]

theorem normalizeUpDouble_of_nonneg (fuel : Nat) (angle : ℚ) (h : 0 ≤ angle) :
    normalizeUpDouble (fuel + 1) angle = some angle := by
  simp [normalizeUpDouble, not_lt.mpr h]

theorem normalizeUpDouble_of_neg (fuel : Nat) (angle : ℚ) (h : angle < 0) :
    normalizeUpDouble (fuel + 1) angle = normalizeUpDouble fuel (binary64 (angle + 360)) := by
  simp [normalizeUpDouble, h]

/-- The first loop never ends on `10 ^ 19`: every test finds the same value again. -/
theorem normalizeDownDouble_of_huge (fuel : Nat) : normalizeDownDouble fuel (10 ^ 19) = none := by
  induction fuel with
  | zero => rfl
  | succ n ih =>
    rw [normalizeDownDouble_of_ge n _ (by norm_num), binary64_sub_360_of_huge, ih]

theorem setRotationDouble_of_ne (fuel : Nat) (it : LabelItem ℚ) (θ a b : ℚ)
    (hne : it.m_rotation ≠ θ) (ha : normalizeDownDouble fuel θ = some a)
    (hb : normalizeUpDouble fuel a = some b) :
    (it.setRotationDouble fuel θ).map (fun r => r.m_rotation) = some b := by
  simp [LabelItem.setRotationDouble, hne, ha, hb]

theorem binary64_of_multiple (k : Int) (h0 : 0 ≤ k) (h1 : k < 2 ^ 53) :
    binary64 ((k : ℚ) / 2 ^ 43) = (k : ℚ) / 2 ^ 43 := by
  have e : (k : ℚ) / 2 ^ 43 = (k : ℚ) * 2 ^ (-43 : Int) := by
    rw [zpow_neg, div_eq_mul_inv]
    norm_cast
  rw [e]
  exact binary64_of_representable k (-43) (by rw [abs_of_nonneg h0]; exact h1) (by norm_num)

/-- C8, evaluated on doubles: `setRotation` stores an angle of `[0, 360)` as it is, but for
every negative angle of at most `2 ^ (-45)` (such as `-1e-20`) the sum with 360 rounds to 360
and the rotation stored is exactly 360, outside `[0, 360)`; and for the angle `10 ^ 19`, which
is a double, the first loop never ends, whatever the fuel, so the call does not return. -/
theorem setRotationDouble_leaves_range :
    (∀ (it : LabelItem ℚ) (θ : ℚ) (fuel : Nat), 0 ≤ θ → θ < 360 →
        (it.setRotationDouble (fuel + 1) θ).map (fun r => r.m_rotation) = some θ) ∧
      (∀ (it : LabelItem ℚ) (θ : ℚ) (fuel : Nat), it.m_rotation ≠ θ → -(1 / 2 ^ 45) ≤ θ →
        θ < 0 →
        (it.setRotationDouble (fuel + 2) θ).map (fun r => r.m_rotation) = some 360) ∧
      (({} : LabelItem ℚ).setRotationDouble 2 (-(1 / 2 ^ 70))).map (fun r => r.m_rotation)
        = some 360 ∧
      binary64 (10 ^ 19) = 10 ^ 19 ∧
      (∀ (it : LabelItem ℚ) (fuel : Nat), it.m_rotation ≠ 10 ^ 19 →
        it.setRotationDouble fuel (10 ^ 19) = none) := by
  have htiny : ∀ (it : LabelItem ℚ) (θ : ℚ) (fuel : Nat), it.m_rotation ≠ θ →
      -(1 / 2 ^ 45) ≤ θ → θ < 0 →
      (it.setRotationDouble (fuel + 2) θ).map (fun r => r.m_rotation) = some 360 := by
    intro it θ fuel hne h1 h2
    apply setRotationDouble_of_ne (fuel + 2) it θ θ 360 hne
      (normalizeDownDouble_of_lt _ _ (by linarith))
    rw [normalizeUpDouble_of_neg _ _ h2, binary64_add_360_of_tiny θ h1 h2,
      normalizeUpDouble_of_nonneg _ _ (by norm_num)]
  refine ⟨?_, htiny, htiny {} _ 0 (by norm_num) (by norm_num) (by norm_num), ?_, ?_⟩
  · intro it θ fuel h0 h1
    by_cases h : it.m_rotation = θ
    · simp [LabelItem.setRotationDouble, h]
    · exact setRotationDouble_of_ne (fuel + 1) it θ θ θ h (normalizeDownDouble_of_lt _ _ h1)
        (normalizeUpDouble_of_nonneg _ _ h0)
  · have e : (10 : ℚ) ^ 19 = ((5 ^ 19 : Int) : ℚ) * 2 ^ (19 : Int) := by norm_num
    rw [e]
    exact binary64_of_representable (5 ^ 19) 19 (by norm_num) (by norm_num)
  · intro it fuel hne
    simp [LabelItem.setRotationDouble, hne, normalizeDownDouble_of_huge]

/-- C9 as stated fails on doubles. From rotation 0, `setRotation` of `2 ^ (-45)` stores that
angle; the sum with 360 is half-way between two doubles and rounds to 360, and `setRotation(360)`
then leaves 0. And an item that holds the rotation 400 (as a loader stores it) keeps 400 on
`setRotation(400)` and ends at 40 after `setRotation(760)`. And from rotation 0,
`setRotation` of `-2 ^ (-70)` stores 360, and `setRotation(720)` then leaves 0. -/
theorem setRotationDouble_add_turn_counterexample :
    (({} : LabelItem ℚ).setRotationDouble 2 (1 / 2 ^ 45)).map (fun r => r.m_rotation)
        = some (1 / 2 ^ 45) ∧
      binary64 (1 / 2 ^ 45 + 360) = 360 ∧
      (({ m_rotation := 1 / 2 ^ 45 } : LabelItem ℚ).setRotationDouble 3 360).map
          (fun r => r.m_rotation) = some 0 ∧
      (0 : ℚ) ≠ 1 / 2 ^ 45 ∧
      (({ m_rotation := 400 } : LabelItem ℚ).setRotationDouble 1 400).map
          (fun r => r.m_rotation) = some 400 ∧
      binary64 (400 + 360) = 760 ∧
      (({ m_rotation := 400 } : LabelItem ℚ).setRotationDouble 4 760).map
          (fun r => r.m_rotation) = some 40 ∧
      (({} : LabelItem ℚ).setRotationDouble 2 (-(1 / 2 ^ 70))).map (fun r => r.m_rotation)
        = some 360 ∧
      binary64 (360 + 360) = 720 ∧
      (({ m_rotation := 360 } : LabelItem ℚ).setRotationDouble 4 720).map
          (fun r => r.m_rotation) = some 0 := by
  have hint : ∀ n : Int, 0 ≤ n → n < 1024 → binary64 (n : ℚ) = (n : ℚ) := by
    intro n h0 h1
    have := binary64_of_representable n 0 (by rw [abs_of_nonneg h0]; omega) (by norm_num)
    simpa using this
  have h400 : binary64 (760 - 360) = 400 := by
    have := hint 400 (by norm_num) (by norm_num)
    norm_num at this ⊢
    exact this
  have h40 : binary64 (400 - 360) = 40 := by
    have := hint 40 (by norm_num) (by norm_num)
    norm_num at this ⊢
    exact this
  have h0 : binary64 (360 - 360) = 0 := by
    norm_num [binary64]
  have h760 : binary64 (400 + 360) = 760 := by
    have := hint 760 (by norm_num) (by norm_num)
    norm_num at this ⊢
    exact this
  have hhalf : binary64 (1 / 2 ^ 45 + 360) = 360 := by
    have habs : |(1 : ℚ) / 2 ^ 45 + 360| = 1 / 2 ^ 45 + 360 := abs_of_pos (by norm_num)
    rw [binary64_eq (1 / 2 ^ 45 + 360) 8 (360 * 2 ^ 44)
      (by rw [habs]; norm_num) (by rw [habs]; norm_num) (by norm_num)
      (roundHalfEven_of_above _ _ (by norm_num) (by norm_num) (by norm_num))]
    norm_num
  have h360 : binary64 (720 - 360) = 360 := by
    have := hint 360 (by norm_num) (by norm_num)
    norm_num at this ⊢
    exact this
  have h720 : binary64 (360 + 360) = 720 := by
    have := hint 720 (by norm_num) (by norm_num)
    norm_num at this ⊢
    exact this
  refine ⟨?_, hhalf, ?_, by norm_num, ?_, h760, ?_, ?_, h720, ?_⟩
  · exact setRotationDouble_of_ne 2 {} _ _ _ (by norm_num)
      (normalizeDownDouble_of_lt _ _ (by norm_num)) (normalizeUpDouble_of_nonneg _ _ (by norm_num))
  · apply setRotationDouble_of_ne 3 _ 360 0 0 (by norm_num)
    · rw [normalizeDownDouble_of_ge _ _ (le_refl _), h0,
        normalizeDownDouble_of_lt _ _ (by norm_num)]
    · exact normalizeUpDouble_of_nonneg _ _ (le_refl _)
  · simp [LabelItem.setRotationDouble]
  · apply setRotationDouble_of_ne 4 _ 760 40 40 (by norm_num)
    · rw [normalizeDownDouble_of_ge _ _ (by norm_num), h400,
        normalizeDownDouble_of_ge _ _ (by norm_num), h40,
        normalizeDownDouble_of_lt _ _ (by norm_num)]
    · exact normalizeUpDouble_of_nonneg _ _ (by norm_num)
  · apply setRotationDouble_of_ne 2 {} _ (-(1 / 2 ^ 70)) 360 (by norm_num)
      (normalizeDownDouble_of_lt _ _ (by norm_num))
    rw [normalizeUpDouble_of_neg _ _ (by norm_num),
      binary64_add_360_of_tiny _ (by norm_num) (by norm_num),
      normalizeUpDouble_of_nonneg _ _ (by norm_num)]
  · apply setRotationDouble_of_ne 4 _ 720 0 0 (by norm_num)
    · rw [normalizeDownDouble_of_ge _ _ (by norm_num), h360,
        normalizeDownDouble_of_ge _ _ (le_refl _), h0,
        normalizeDownDouble_of_lt _ _ (by norm_num)]
    · exact normalizeUpDouble_of_nonneg _ _ (le_refl _)

/-- Every whole multiple `r` of `2 ^ (-43)` in `[0, 360)` is a double, and so is `r + 360`. -/
theorem binary64_add_360_of_multiple (r : ℚ) (k : Int) (hk : r = (k : ℚ) / 2 ^ 43)
    (h0 : 0 ≤ r) (h1 : r < 360) : binary64 r = r ∧ binary64 (r + 360) = r + 360 := by
  have hpow : (0 : ℚ) < 2 ^ 43 := by positivity
  have hk0 : 0 ≤ k := by
    rw [hk] at h0
    rcases div_nonneg_iff.mp h0 with h | h
    · exact_mod_cast h.1
    · exact absurd h.2 (not_le.mpr hpow)
  have hk1 : k < 360 * 2 ^ 43 := by
    rw [hk, div_lt_iff₀ hpow] at h1
    exact_mod_cast h1
  constructor
  · rw [hk]
    exact binary64_of_multiple k hk0 (by omega)
  · have e : r + 360 = ((k + 360 * 2 ^ 43 : Int) : ℚ) / 2 ^ 43 := by
      rw [hk]
      push_cast
      field_simp
      norm_num
    rw [e]
    exact binary64_of_multiple _ (by omega) (by omega)

/-- C9 (amended), on doubles: for an item whose rotation `r` is a double in `[0, 360)` such
that the sum `r + 360` is a double as well (nothing is rounded away), `setRotation(r + 360)`
returns and leaves the rotation equal to `r`. -/
theorem setRotationDouble_add_turn (it : LabelItem ℚ) (fuel : Nat)
    (hr : binary64 it.m_rotation = it.m_rotation) (h0 : 0 ≤ it.m_rotation)
    (h1 : it.m_rotation < 360)
    (hsum : binary64 (it.m_rotation + 360) = it.m_rotation + 360) :
    (it.setRotationDouble (fuel + 2) (binary64 (it.m_rotation + 360))).map
      (fun r => r.m_rotation) = some it.m_rotation := by
  rw [hsum]
  apply setRotationDouble_of_ne (fuel + 2) it _ it.m_rotation it.m_rotation (by linarith)
  · rw [normalizeDownDouble_of_ge _ _ (by linarith), add_sub_cancel_right, hr,
      normalizeDownDouble_of_lt _ _ h1]
  · exact normalizeUpDouble_of_nonneg _ _ h0

/-- C9 (amended) at a concrete input: an item with rotation 45, and `setRotation(405)`. -/
theorem setRotationDouble_add_turn_witness :
    (({ m_rotation := 45 } : LabelItem ℚ).setRotationDouble 2 (binary64 ((45 : ℚ) + 360))).map
      (fun r => r.m_rotation) = some 45 :=
  setRotationDouble_add_turn { m_rotation := 45 } 0
    (binary64_add_360_of_multiple 45 (45 * 2 ^ 43) (by norm_num) (by norm_num) (by norm_num)).1
    (by norm_num) (by norm_num)
    (binary64_add_360_of_multiple 45 (45 * 2 ^ 43) (by norm_num) (by norm_num) (by norm_num)).2

end DoubleRotation

section DoubleRotationExact

/-- The value 360 is a whole multiple of `2 ^ j` for every `j` up to 3. -/
theorem turn_multiple (j : Int) (hj : j ≤ 3) :
    ((45 * 2 ^ (3 - j).toNat : Int) : ℚ) * 2 ^ j = 360 := by
  have hn : (((3 - j).toNat : Nat) : Int) = 3 - j := Int.toNat_of_nonneg (by omega)
  push_cast
  rw [mul_assoc, ← zpow_natCast, ← zpow_add₀ (by norm_num), hn]
  norm_num

/-- On a non-negative double below `2 ^ 56`, held as `m * 2 ^ j` with `m < 2 ^ 53` and `j` at
most 3, no subtraction of the first loop rounds: with enough fuel the loop ends in `[0, 360)`,
a whole number of turns below where it started. -/
theorem normalizeDownDouble_of_moderate (j : Int) (hj1 : -1074 ≤ j) (hj2 : j ≤ 3) :
    ∀ (fuel : Nat) (m : Int), 0 ≤ m → m < 2 ^ 53 → (m : ℚ) * 2 ^ j < 360 * fuel →
      ∃ (r : ℚ) (k : Nat), normalizeDownDouble fuel ((m : ℚ) * 2 ^ j) = some r ∧ 0 ≤ r ∧
        r < 360 ∧ (m : ℚ) * 2 ^ j = r + k * 360 := by
  have hpow : (0 : ℚ) < 2 ^ j := zpow_pos (by norm_num) j
  intro fuel
  induction fuel with
  | zero =>
    intro m h0 _ h
    exfalso
    have : (0 : ℚ) ≤ (m : ℚ) * 2 ^ j := mul_nonneg (by exact_mod_cast h0) hpow.le
    simp at h
    linarith
  | succ n ih =>
    intro m h0 h1 h
    have hnn : (0 : ℚ) ≤ (m : ℚ) * 2 ^ j := mul_nonneg (by exact_mod_cast h0) hpow.le
    by_cases hlt : (m : ℚ) * 2 ^ j < 360
    · exact ⟨_, 0, normalizeDownDouble_of_lt n _ hlt, hnn, hlt, by simp⟩
    · have hge : (360 : ℚ) ≤ (m : ℚ) * 2 ^ j := not_lt.mp hlt
      have hc := turn_multiple j hj2
      generalize (45 * 2 ^ (3 - j).toNat : Int) = c at hc
      have hcpos : 0 < c := by
        have : (0 : ℚ) < (c : ℚ) * 2 ^ j := by rw [hc]; norm_num
        have := (mul_pos_iff_of_pos_right hpow).mp this
        exact_mod_cast this
      have e : (m : ℚ) * 2 ^ j - 360 = ((m - c : Int) : ℚ) * 2 ^ j := by
        push_cast
        rw [sub_mul, hc]
      have hm : 0 ≤ m - c := by
        have : (0 : ℚ) ≤ ((m - c : Int) : ℚ) * 2 ^ j := by rw [← e]; linarith
        have := (mul_nonneg_iff_of_pos_right hpow).mp this
        exact_mod_cast this
      obtain ⟨r, k, hr, h0r, h1r, hk⟩ := ih (m - c) hm (by omega) (by
        rw [← e]
        push_cast at h
        linarith)
      refine ⟨r, k + 1, ?_, h0r, h1r, ?_⟩
      · rw [normalizeDownDouble_of_ge n _ hge, e,
          binary64_of_representable (m - c) j (by rw [abs_of_nonneg hm]; omega) hj1]
        exact hr
      · rw [← e] at hk
        push_cast
        linarith

/-- On a negative double above `-2 ^ 56` that is a whole multiple of `2 ^ (-44)`, held as
`a * 2 ^ j` with `-2 ^ 53 < a` and `j` from -44 to 3, no addition of the second loop rounds:
with enough fuel the loop ends in `[0, 360)`, a whole number of turns above where it
started. -/
theorem normalizeUpDouble_of_moderate (j : Int) (hj1 : -44 ≤ j) (hj2 : j ≤ 3) :
    ∀ (fuel : Nat) (a : Int), a ≤ 0 → -2 ^ 53 < a → -((a : ℚ) * 2 ^ j) + 360 ≤ 360 * fuel →
      ∃ (r : ℚ) (k : Nat), normalizeUpDouble fuel ((a : ℚ) * 2 ^ j) = some r ∧ 0 ≤ r ∧
        r < 360 ∧ r = (a : ℚ) * 2 ^ j + k * 360 := by
  have hpow : (0 : ℚ) < 2 ^ j := zpow_pos (by norm_num) j
  have hc := turn_multiple j hj2
  have hcb : (45 * 2 ^ (3 - j).toNat : Int) ≤ 45 * 2 ^ 47 := by
    have : (3 - j).toNat ≤ 47 := by omega
    have := Nat.pow_le_pow_right (show 0 < 2 by norm_num) this
    have h2 : ((2 ^ (3 - j).toNat : Nat) : Int) ≤ ((2 ^ 47 : Nat) : Int) := by exact_mod_cast this
    push_cast at h2
    omega
  generalize (45 * 2 ^ (3 - j).toNat : Int) = c at hc hcb
  have hcpos : 0 < c := by
    have : (0 : ℚ) < (c : ℚ) * 2 ^ j := by rw [hc]; norm_num
    have := (mul_pos_iff_of_pos_right hpow).mp this
    exact_mod_cast this
  intro fuel
  induction fuel with
  | zero =>
    intro a h0 _ h
    exfalso
    have : (a : ℚ) * 2 ^ j ≤ 0 := mul_nonpos_of_nonpos_of_nonneg (by exact_mod_cast h0) hpow.le
    simp at h
    linarith
  | succ n ih =>
    intro a h0 h1 h
    have hnp : (a : ℚ) * 2 ^ j ≤ 0 :=
      mul_nonpos_of_nonpos_of_nonneg (by exact_mod_cast h0) hpow.le
    by_cases hz : a = 0
    · refine ⟨0, 0, ?_, le_refl _, by norm_num, by simp [hz]⟩
      rw [hz]
      simp [normalizeUpDouble]
    · have ha : a < 0 := lt_of_le_of_ne h0 hz
      have hneg : (a : ℚ) * 2 ^ j < 0 := mul_neg_of_neg_of_pos (by exact_mod_cast ha) hpow
      have e : (a : ℚ) * 2 ^ j + 360 = ((a + c : Int) : ℚ) * 2 ^ j := by
        push_cast
        rw [add_mul, hc]
      have hrep : binary64 (((a + c : Int) : ℚ) * 2 ^ j) = ((a + c : Int) : ℚ) * 2 ^ j :=
        binary64_of_representable (a + c) j (by rw [abs_lt]; constructor <;> omega) (by omega)
      have hstep : normalizeUpDouble (n + 1) ((a : ℚ) * 2 ^ j)
          = normalizeUpDouble n (((a + c : Int) : ℚ) * 2 ^ j) := by
        rw [normalizeUpDouble_of_neg n _ hneg, e, hrep]
      by_cases hs : a + c ≤ 0
      · obtain ⟨r, k, hr, h0r, h1r, hk⟩ := ih (a + c) hs (by omega) (by
          rw [← e]
          push_cast at h
          linarith)
        refine ⟨r, k + 1, hstep.trans hr, h0r, h1r, ?_⟩
        rw [← e] at hk
        push_cast
        linarith
      · have hs1 : 0 < a + c := not_le.mp hs
        have hpos : (0 : ℚ) < ((a + c : Int) : ℚ) * 2 ^ j :=
          mul_pos (by exact_mod_cast hs1) hpow
        have hn : 1 ≤ n := by
          by_contra hn0
          have : n = 0 := by omega
          rw [this] at h
          rw [← e] at hpos
          norm_num at h
          linarith
        obtain ⟨n1, rfl⟩ : ∃ n1, n = n1 + 1 := ⟨n - 1, by omega⟩
        refine ⟨((a + c : Int) : ℚ) * 2 ^ j, 1,
          hstep.trans (normalizeUpDouble_of_nonneg n1 _ hpos.le), hpos.le, ?_, ?_⟩
        · rw [← e]
          linarith
        · rw [← e]
          norm_num

/-- Where `setRotation` keeps its range on doubles: for a double angle `a * 2 ^ j` of magnitude
below `2 ^ 56` (`|a| < 2 ^ 53`, `j` at most 3) that is non-negative, or negative and a whole
multiple of `2 ^ (-44)`, and an item that holds another rotation, the call returns once the
fuel covers the turns to take off, and the rotation stored lies in `[0, 360)` and is a whole
number of turns away from the angle. -/
theorem setRotationDouble_of_moderate (it : LabelItem ℚ) (a j : Int) (fuel : Nat)
    (hne : it.m_rotation ≠ (a : ℚ) * 2 ^ j) (ha : |a| < 2 ^ 53) (hj1 : -1074 ≤ j)
    (hj2 : j ≤ 3) (hneg : a < 0 → -44 ≤ j)
    (hfuel : |(a : ℚ) * 2 ^ j| + 360 ≤ 360 * fuel) :
    ∃ (r : ℚ) (k : Int),
      (it.setRotationDouble fuel ((a : ℚ) * 2 ^ j)).map (fun r => r.m_rotation) = some r ∧
        0 ≤ r ∧ r < 360 ∧ r = (a : ℚ) * 2 ^ j + k * 360 := by
  have hpow : (0 : ℚ) < 2 ^ j := zpow_pos (by norm_num) j
  obtain ⟨n, rfl⟩ : ∃ n, fuel = n + 1 := by
    refine ⟨fuel - 1, ?_⟩
    have : fuel ≠ 0 := by
      intro h0
      rw [h0] at hfuel
      have := abs_nonneg ((a : ℚ) * 2 ^ j)
      norm_num at hfuel
      linarith
    omega
  rw [abs_lt] at ha
  by_cases h0 : 0 ≤ a
  · have hnn : (0 : ℚ) ≤ (a : ℚ) * 2 ^ j := mul_nonneg (by exact_mod_cast h0) hpow.le
    rw [abs_of_nonneg hnn] at hfuel
    obtain ⟨r, k, hr, h0r, h1r, hk⟩ :=
      normalizeDownDouble_of_moderate j hj1 hj2 (n + 1) a h0 ha.2 (by linarith)
    refine ⟨r, -(k : Int), setRotationDouble_of_ne (n + 1) it _ _ r hne hr
      (normalizeUpDouble_of_nonneg n r h0r), h0r, h1r, ?_⟩
    push_cast
    linarith
  · have ha0 : a < 0 := not_le.mp h0
    have hlt : (a : ℚ) * 2 ^ j < 0 := mul_neg_of_neg_of_pos (by exact_mod_cast ha0) hpow
    rw [abs_of_neg hlt] at hfuel
    obtain ⟨r, k, hr, h0r, h1r, hk⟩ :=
      normalizeUpDouble_of_moderate j (hneg ha0) hj2 (n + 1) a ha0.le ha.1 hfuel
    exact ⟨r, (k : Int), setRotationDouble_of_ne (n + 1) it _ _ r hne
      (normalizeDownDouble_of_lt n _ (by linarith)) hr, h0r, h1r, by push_cast; exact hk⟩

/-- The same at concrete inputs: `setRotation(765)` on a fresh item, and `setRotation(-750)`. -/
theorem setRotationDouble_of_moderate_examples :
    (({} : LabelItem ℚ).setRotationDouble 4 765).map (fun r => r.m_rotation) = some 45 ∧
      (({} : LabelItem ℚ).setRotationDouble 4 (-750)).map (fun r => r.m_rotation)
        = some 330 := by
  have hint : ∀ n : Int, -1024 < n → n < 1024 → binary64 (n : ℚ) = (n : ℚ) := by
    intro n h0 h1
    have := binary64_of_representable n 0 (by rw [abs_lt]; constructor <;> omega) (by norm_num)
    simpa using this
  have e1 : binary64 (765 - 360) = 405 := by
    have := hint 405 (by norm_num) (by norm_num)
    norm_num at this ⊢
    exact this
  have e2 : binary64 (405 - 360) = 45 := by
    have := hint 45 (by norm_num) (by norm_num)
    norm_num at this ⊢
    exact this
  have e3 : binary64 (-750 + 360) = -390 := by
    have := hint (-390) (by norm_num) (by norm_num)
    norm_num at this ⊢
    exact this
  have e4 : binary64 (-390 + 360) = -30 := by
    have := hint (-30) (by norm_num) (by norm_num)
    norm_num at this ⊢
    exact this
  have e5 : binary64 (-30 + 360) = 330 := by
    have := hint 330 (by norm_num) (by norm_num)
    norm_num at this ⊢
    exact this
  constructor
  · apply setRotationDouble_of_ne 4 {} 765 45 45 (by norm_num)
    · rw [normalizeDownDouble_of_ge _ _ (by norm_num), e1,
        normalizeDownDouble_of_ge _ _ (by norm_num), e2,
        normalizeDownDouble_of_lt _ _ (by norm_num)]
    · exact normalizeUpDouble_of_nonneg _ _ (by norm_num)
  · apply setRotationDouble_of_ne 4 {} (-750) (-750) 330 (by norm_num)
      (normalizeDownDouble_of_lt _ _ (by norm_num))
    rw [normalizeUpDouble_of_neg _ _ (by norm_num), e3,
      normalizeUpDouble_of_neg _ _ (by norm_num), e4,
      normalizeUpDouble_of_neg _ _ (by norm_num), e5,
      normalizeUpDouble_of_nonneg _ _ (by norm_num)]

end DoubleRotationExact

section HitTest

variable {K : Type} [LinearOrderedField K]

/-- The inverse turn computed inside `LabelItem::contains` undoes the forward turn of the
reference, for any `qCos`/`qSin` obeying the circle identity and the parity laws. -/
theorem inverse_of_forward (qCos qSin : K → K) (M_PI r : K) (c q : QPointF K)
    (hsq : ∀ a, qCos a ^ 2 + qSin a ^ 2 = 1) (hc : ∀ a, qCos (-a) = qCos a)
    (hs : ∀ a, qSin (-a) = -qSin a) :
    (QPointF.mk
        (((rotateForward qCos qSin M_PI r c q).sub c).xp * qCos (-r * M_PI / 180)
          - ((rotateForward qCos qSin M_PI r c q).sub c).yp * qSin (-r * M_PI / 180))
        (((rotateForward qCos qSin M_PI r c q).sub c).xp * qSin (-r * M_PI / 180)
          + ((rotateForward qCos qSin M_PI r c q).sub c).yp * qCos (-r * M_PI / 180))).add c
      = q := by
  have ha : -r * M_PI / 180 = -(r * M_PI / 180) := by ring
  rw [ha, hc, hs]
  have h1 := hsq (r * M_PI / 180)
  cases q with
  | mk qx qy =>
    simp only [rotateForward, QPointF.sub, QPointF.add, QPointF.mk.injEq]
    constructor
    · linear_combination (qx - c.xp) * h1
    · linear_combination (qy - c.yp) * h1

/-- The forward turn of the reference undoes the inverse turn computed inside
`LabelItem::contains`. -/
theorem forward_of_inverse (qCos qSin : K → K) (M_PI r : K) (c p : QPointF K)
    (hsq : ∀ a, qCos a ^ 2 + qSin a ^ 2 = 1) (hc : ∀ a, qCos (-a) = qCos a)
    (hs : ∀ a, qSin (-a) = -qSin a) :
    rotateForward qCos qSin M_PI r c
        ((QPointF.mk
          ((p.sub c).xp * qCos (-r * M_PI / 180) - (p.sub c).yp * qSin (-r * M_PI / 180))
          ((p.sub c).xp * qSin (-r * M_PI / 180) + (p.sub c).yp * qCos (-r * M_PI / 180))).add c)
      = p := by
  have ha : -r * M_PI / 180 = -(r * M_PI / 180) := by ring
  rw [ha, hc, hs]
  have h1 := hsq (r * M_PI / 180)
  cases p with
  | mk px py =>
    simp only [rotateForward, QPointF.sub, QPointF.add, QPointF.mk.injEq]
    constructor
    · linear_combination (px - c.xp) * h1
    · linear_combination (py - c.yp) * h1

/-- With rotation 0 the reference turn is the identity. -/
theorem rotateForward_zero (qCos qSin : K → K) (M_PI : K) (c q : QPointF K)
    (hc0 : qCos 0 = 1) (hs0 : qSin 0 = 0) : rotateForward qCos qSin M_PI 0 c q = q := by
  cases q with
  | mk qx qy =>
    simp [rotateForward, QPointF.sub, QPointF.add, hc0, hs0]

/-- The hit test of the code agrees with the forward-rotation reference, for any
`qCos`/`qSin` obeying the circle identity, the parity laws and the values at 0. -/
theorem contains_iff_reference_of (qCos qSin : K → K) (M_PI : K)
    (hsq : ∀ a, qCos a ^ 2 + qSin a ^ 2 = 1) (hc : ∀ a, qCos (-a) = qCos a)
    (hs : ∀ a, qSin (-a) = -qSin a) (hc0 : qCos 0 = 1) (hs0 : qSin 0 = 0)
    (it : LabelItem K) (p : QPointF K) :
    it.contains qCos qSin M_PI p = true ↔ containsReference qCos qSin M_PI it p := by
  unfold LabelItem.contains containsReference
  by_cases hr : it.m_rotation = 0
  · rw [if_neg (not_not.mpr hr), hr]
    constructor
    · intro h
      exact ⟨p, h, rotateForward_zero qCos qSin M_PI _ p hc0 hs0⟩
    · rintro ⟨q, hq, hqp⟩
      rw [rotateForward_zero qCos qSin M_PI _ q hc0 hs0] at hqp
      rw [← hqp]; exact hq
  · rw [if_pos hr]
    constructor
    · intro h
      exact ⟨_, h, forward_of_inverse qCos qSin M_PI _ _ p hsq hc hs⟩
    · rintro ⟨q, hq, hqp⟩
      rw [← hqp]
      simp only []
      rw [inverse_of_forward qCos qSin M_PI _ _ q hsq hc hs]
      exact hq

end HitTest

/-- C10: with the real cosine, sine and pi, `contains(p)` is true exactly when `p` lies in the
image of the item's rect turned forward by its rotation about the rect's centre; and for rect
`(0,0,100,50)` with rotation 90, `(60,10)` tests inside and `(10,60)` outside. -/
theorem contains_agrees_with_forward_rotation :
    (∀ (it : LabelItem ℝ) (p : QPointF ℝ),
        it.contains Real.cos Real.sin Real.pi p = true ↔
          containsReference Real.cos Real.sin Real.pi it p) ∧
      ({ m_rect := ⟨0, 0, 100, 50⟩, m_rotation := 90 } : LabelItem ℝ).contains
          Real.cos Real.sin Real.pi ⟨60, 10⟩ = true ∧
      ({ m_rect := ⟨0, 0, 100, 50⟩, m_rotation := 90 } : LabelItem ℝ).contains
          Real.cos Real.sin Real.pi ⟨10, 60⟩ = false := by
  have ha : -(90 : ℝ) * Real.pi / 180 = -(Real.pi / 2) := by ring
  have hcos : Real.cos (-(90 : ℝ) * Real.pi / 180) = 0 := by
    rw [ha, Real.cos_neg, Real.cos_pi_div_two]
  have hsin : Real.sin (-(90 : ℝ) * Real.pi / 180) = -1 := by
    rw [ha, Real.sin_neg, Real.sin_pi_div_two]
  refine ⟨fun it p => contains_iff_reference_of Real.cos Real.sin Real.pi
    Real.cos_sq_add_sin_sq Real.cos_neg Real.sin_neg Real.cos_zero Real.sin_zero it p, ?_, ?_⟩
  · simp only [LabelItem.contains, QRectF.center, QPointF.sub, QPointF.add, hcos, hsin]
    norm_num [QRectF.contains]
  · simp only [LabelItem.contains, QRectF.center, QPointF.sub, QPointF.add, hcos, hsin]
    norm_num [QRectF.contains]

/-! ### Commands on the item list -/

section Commands

theorem addItem_items_of_fresh (d : LabelDocument) (X : ItemPtr) (hX : X ≠ nullptr)
    (hnot : X ∉ d.m_items) : (d.addItem X).m_items = d.m_items ++ [X] := by
  simp [LabelDocument.addItem, LabelDocument.setModified, hX, hnot]

theorem removeItem_items_of_mem (d : LabelDocument) (X : ItemPtr) (hX : X ≠ nullptr)
    (hmem : X ∈ d.m_items) : (d.removeItem X).m_items = d.m_items.erase X := by
  simp [LabelDocument.removeItem, LabelDocument.setModified, QList.removeOne, hX, hmem]

theorem erase_append_fresh (l : List ItemPtr) (X : ItemPtr) (hnot : X ∉ l) :
    (l ++ [X]).erase X = l := by
  rw [List.erase_append_right _ hnot]
  simp

/-- C2, evaluated: on the document `[A, B]` the Remove-command for `A` records index 0, its
`redo` leaves `[B]`, and its `undo` leaves `[B, A]`: `A` comes back at index 1, not at 0. -/
theorem removeItemCommand_undo_appends :
    (RemoveItemCommand.new docAB 1).m_index = 0 ∧
      ((RemoveItemCommand.new docAB 1).redo docAB).2.m_items = [2] ∧
      ((((RemoveItemCommand.new docAB 1).redo docAB).1).undo
          ((RemoveItemCommand.new docAB 1).redo docAB).2).2.m_items = [2, 1] ∧
      ((((RemoveItemCommand.new docAB 1).redo docAB).1).undo
          ((RemoveItemCommand.new docAB 1).redo docAB).2).2.m_items ≠ docAB.m_items := by
  decide

/-- C3: for an item `X` that is not in the document, an Add-command's `redo` followed by
`undo` leaves the item list as it was, and a further `redo` gives again the list with `X`
appended as its last element. -/
theorem addItemCommand_undo_redo (d : LabelDocument) (X : ItemPtr) (hX : X ≠ nullptr)
    (hnot : X ∉ d.m_items) :
    ((AddItemCommand.new X).redo d).2.m_items = d.m_items ++ [X] ∧
      ((((AddItemCommand.new X).redo d).1).undo ((AddItemCommand.new X).redo d).2).2.m_items
        = d.m_items ∧
      ((((((AddItemCommand.new X).redo d).1).undo ((AddItemCommand.new X).redo d).2).1).redo
          ((((AddItemCommand.new X).redo d).1).undo ((AddItemCommand.new X).redo d).2).2).2.m_items
        = d.m_items ++ [X] := by
  have h1 : ((AddItemCommand.new X).redo d).2.m_items = d.m_items ++ [X] := by
    simp [AddItemCommand.redo, AddItemCommand.new, addItem_items_of_fresh d X hX hnot]
  have h2 : ((((AddItemCommand.new X).redo d).1).undo ((AddItemCommand.new X).redo d).2).2.m_items
      = d.m_items := by
    simp only [AddItemCommand.undo, AddItemCommand.redo, AddItemCommand.new]
    rw [removeItem_items_of_mem _ X hX (by rw [addItem_items_of_fresh d X hX hnot]; simp),
      addItem_items_of_fresh d X hX hnot, erase_append_fresh _ _ hnot]
  refine ⟨h1, h2, ?_⟩
  simp only [AddItemCommand.undo, AddItemCommand.redo, AddItemCommand.new] at h2 ⊢
  rw [addItem_items_of_fresh _ X hX (by rw [h2]; exact hnot), h2]

/-- C3 at a concrete input: adding the item at address 3 to the document `[1, 2]`. -/
theorem addItemCommand_undo_redo_witness :
    ((AddItemCommand.new 3).redo docAB).2.m_items = docAB.m_items ++ [3] ∧
      ((((AddItemCommand.new 3).redo docAB).1).undo
          ((AddItemCommand.new 3).redo docAB).2).2.m_items = docAB.m_items ∧
      ((((((AddItemCommand.new 3).redo docAB).1).undo
          ((AddItemCommand.new 3).redo docAB).2).1).redo
          ((((AddItemCommand.new 3).redo docAB).1).undo
            ((AddItemCommand.new 3).redo docAB).2).2).2.m_items = docAB.m_items ++ [3] :=
  addItemCommand_undo_redo docAB 3 (by decide) (by decide)

/-- C4, evaluated: on the document `[A, B, C]`, `ReorderItemCommand(A, 0, 2).redo()` leaves
the list `[A, B, C]`, with `A` still at index 0 rather than at index 2. -/
theorem reorderItemCommand_redo_keeps_list :
    ((ReorderItemCommand.new 1 0 2).redo worldABC).doc.m_items = [1, 2, 3] ∧
      ((ReorderItemCommand.new 1 0 2).redo worldABC).doc.m_items ≠ [2, 3, 1] ∧
      ((ReorderItemCommand.new 1 0 2).undo
          ((ReorderItemCommand.new 1 0 2).redo worldABC)).doc.m_items = [1, 2, 3] := by
  decide

/-- C5, evaluated: starting from the empty document, `addItem(A)` satisfies the z-order
invariant but the following `addItem(B)` leaves `B` at index 1 with z value 0; and
`removeItem(A)` on `[A, B, C]` with z values 0, 1, 2 leaves `B` at index 0 with z value 1. -/
theorem addItem_removeItem_keep_zValues :
    (({} : World).addItem 1).ZOrderIsIndex ∧
      ((({} : World).addItem 1).addItem 2).doc.m_items = [1, 2] ∧
      ((({} : World).addItem 1).addItem 2).zValue 2 = 0 ∧
      ¬ ((({} : World).addItem 1).addItem 2).ZOrderIsIndex ∧
      worldABC.ZOrderIsIndex ∧
      (worldABC.removeItem 1).doc.m_items = [2, 3] ∧
      (worldABC.removeItem 1).zValue 2 = 1 ∧
      ¬ (worldABC.removeItem 1).ZOrderIsIndex := by
  refine ⟨by decide, by decide, by decide, by decide, by decide, by decide, by decide, by decide⟩

end Commands

/-! ### Reordering -/

section Reorder

theorem indexOf_of_mem {l : List ItemPtr} {X : ItemPtr} (h : X ∈ l) :
    QList.indexOf l X = (List.indexOf X l : Int) := by
  simp [QList.indexOf, h]

theorem indexOf_of_not_mem {l : List ItemPtr} {X : ItemPtr} (h : X ∉ l) :
    QList.indexOf l X = -1 := by
  simp [QList.indexOf, h]

theorem mem_of_indexOf_nonneg {l : List ItemPtr} {X : ItemPtr} (h : 0 ≤ QList.indexOf l X) :
    X ∈ l := by
  by_contra hX
  rw [indexOf_of_not_mem hX] at h
  omega

theorem getElem?_indexOf {l : List ItemPtr} {X : ItemPtr} (h : X ∈ l) :
    l[List.indexOf X l]? = some X := by
  have hlt : List.indexOf X l < l.length := List.indexOf_lt_length.mpr h
  rw [List.getElem?_eq_getElem hlt, List.getElem_indexOf hlt]

theorem base_mapBase (f : LabelItem ℚ → LabelItem ℚ) (o : ItemObject) :
    (o.mapBase f).base = f o.base := by
  cases o <;> rfl

theorem typeName_mapBase (f : LabelItem ℚ → LabelItem ℚ) (o : ItemObject) :
    (o.mapBase f).typeName = o.typeName := by
  cases o <;> rfl

/-- Writing `z := index` down the list leaves the items outside the list alone. -/
theorem updateItemIndexesFrom_of_not_mem (l : List ItemPtr) (i : Nat) (heap : Heap)
    (p : ItemPtr) (hp : p ∉ l) : LabelDocument.updateItemIndexesFrom l i heap p = heap p := by
  induction l generalizing i heap with
  | nil => rfl
  | cons q qs ih =>
    simp only [List.mem_cons, not_or] at hp
    rw [LabelDocument.updateItemIndexesFrom, ih _ _ hp.2, Function.update_noteq hp.1]

/-- Writing `z := index` down a duplicate-free list gives every item its position. -/
theorem updateItemIndexesFrom_zValue (l : List ItemPtr) (i : Nat) (heap : Heap)
    (hnodup : l.Nodup) (k : Nat) (hk : k < l.length) :
    (LabelDocument.updateItemIndexesFrom l i heap (l.get ⟨k, hk⟩)).base.zValue
      = ((i + k : Nat) : ℚ) := by
  induction l generalizing i heap k with
  | nil => simp at hk
  | cons q qs ih =>
    rw [List.nodup_cons] at hnodup
    cases k with
    | zero =>
      show (LabelDocument.updateItemIndexesFrom qs (i + 1)
        (Function.update heap q ((heap q).mapBase (fun it => it.setZValue ↑i))) q).base.zValue
          = ↑(i + 0)
      rw [updateItemIndexesFrom_of_not_mem _ _ _ _ hnodup.1, Function.update_same, base_mapBase]
      simp [LabelItem.setZValue]
    | succ k =>
      show (LabelDocument.updateItemIndexesFrom qs (i + 1)
        (Function.update heap q ((heap q).mapBase (fun it => it.setZValue ↑i)))
        (qs.get ⟨k, by simpa using hk⟩)).base.zValue = ↑(i + (k + 1))
      rw [ih (i + 1) _ hnodup.2 k (by simpa using hk)]
      congr 1
      omega

/-- After `updateItemIndexes` on a duplicate-free list the z-order invariant holds. -/
theorem zOrderIsIndex_of_update (d : LabelDocument) (heap : Heap) (n : Nat)
    (f : List ItemPtr) (hnodup : d.m_items.Nodup) :
    World.ZOrderIsIndex
      { doc := d.setModified, heap := d.updateItemIndexes heap, allocated := n, freed := f } := by
  intro i h
  have := updateItemIndexesFrom_zValue d.m_items 0 heap hnodup i h
  simpa [World.zValue, LabelDocument.updateItemIndexes, LabelDocument.setModified] using this

theorem split_adjacent (l : List ItemPtr) (i : Nat) (a b : ItemPtr) (ha : l[i]? = some a)
    (hb : l[i + 1]? = some b) : ∃ p s, l = p ++ a :: b :: s ∧ p.length = i := by
  induction l generalizing i with
  | nil => simp at ha
  | cons q qs ih =>
    cases i with
    | zero =>
      cases qs with
      | nil => simp at hb
      | cons q2 qs2 =>
        simp only [List.getElem?_cons_zero, Option.some.injEq, zero_add, List.getElem?_cons_succ]
          at ha hb
        exact ⟨[], qs2, by simp [ha, hb], rfl⟩
    | succ i =>
      simp only [List.getElem?_cons_succ] at ha hb
      obtain ⟨p, s, hl, hp⟩ := ih i ha hb
      exact ⟨q :: p, s, by simp [hl], by simp [hp]⟩

theorem set_set_adjacent (p s : List ItemPtr) (a b : ItemPtr) :
    ((p ++ a :: b :: s).set p.length b).set (p.length + 1) a = p ++ b :: a :: s := by
  induction p with
  | nil => simp
  | cons q p ih => simp [ih]

theorem set_set_adjacent_rev (p s : List ItemPtr) (a b : ItemPtr) :
    ((p ++ a :: b :: s).set (p.length + 1) a).set p.length b = p ++ b :: a :: s := by
  induction p with
  | nil => simp
  | cons q p ih => simp [ih]

theorem filter_ne_swap (p s : List ItemPtr) (X y : ItemPtr) :
    (p ++ y :: X :: s).filter (fun q => decide (q ≠ X))
      = (p ++ X :: y :: s).filter (fun q => decide (q ≠ X)) := by
  by_cases h : y = X <;> simp [List.filter_cons, h]

theorem nodup_swap (p s : List ItemPtr) (a b : ItemPtr) (h : (p ++ a :: b :: s).Nodup) :
    (p ++ b :: a :: s).Nodup :=
  (List.Perm.append_left p (List.Perm.swap a b s)).nodup_iff.mpr h

theorem filter_ne_erase (l : List ItemPtr) (X : ItemPtr) (hnodup : l.Nodup) :
    (l.erase X).filter (fun q => decide (q ≠ X)) = l.filter (fun q => decide (q ≠ X)) := by
  rw [hnodup.erase_eq_filter X, List.filter_filter]
  congr 1
  funext a
  by_cases h : a = X <;> simp [h]

theorem removeAt_indexOf (l : List ItemPtr) (X : ItemPtr) (h : X ∈ l) :
    QList.removeAt l (QList.indexOf l X) = l.erase X := by
  have hlt : List.indexOf X l < l.length := List.indexOf_lt_length.mpr h
  rw [indexOf_of_mem h]
  simp [QList.removeAt, hlt, List.eraseIdx_indexOf_eq_erase]

theorem swap_adjacent (p s : List ItemPtr) (a b : ItemPtr) (i j : Int) (hi : i = p.length)
    (hj : j = (p.length : Int) + 1) :
    QList.swap (p ++ a :: b :: s) i j = p ++ b :: a :: s ∧
      QList.swap (p ++ a :: b :: s) j i = p ++ b :: a :: s := by
  have hi' : i.toNat = p.length := by omega
  have hj' : j.toNat = p.length + 1 := by omega
  have ha : (p ++ a :: b :: s)[p.length]? = some a := by
    rw [List.getElem?_append_right (le_refl _)]
    simp
  have hb : (p ++ a :: b :: s)[p.length + 1]? = some b := by
    rw [List.getElem?_append_right (by omega)]
    simp
  have hnn : 0 ≤ i ∧ 0 ≤ j := by omega
  constructor
  · simp only [QList.swap, hi', hj', ha, hb, if_pos hnn]
    exact set_set_adjacent p s a b
  · simp only [QList.swap, hi', hj', ha, hb, if_pos hnn.symm]
    exact set_set_adjacent_rev p s a b

theorem moveItemUp_spec (w : World) (X : ItemPtr) (hstack : w.doc.m_undoStack = none)
    (hnodup : w.doc.m_items.Nodup) (h0 : 0 ≤ QList.indexOf w.doc.m_items X)
    (h1 : QList.indexOf w.doc.m_items X < (w.doc.m_items.length : Int) - 1) :
    w.ReorderedTo X (QList.indexOf w.doc.m_items X + 1) (w.moveItemUp X) := by
  have hmem := mem_of_indexOf_nonneg h0
  have hidx := indexOf_of_mem hmem
  have hX := getElem?_indexOf hmem
  have hlt : List.indexOf X w.doc.m_items + 1 < w.doc.m_items.length := by omega
  obtain ⟨p, s, hl, hp⟩ := split_adjacent w.doc.m_items _ X _ hX (List.getElem?_eq_getElem hlt)
  generalize w.doc.m_items[List.indexOf X w.doc.m_items + 1] = b at hl
  have hsw := (swap_adjacent p s X b (QList.indexOf w.doc.m_items X)
    (QList.indexOf w.doc.m_items X + 1) (by omega) (by omega)).1
  rw [← hl] at hsw
  have hres : w.moveItemUp X = (true,
      { w with heap := LabelDocument.updateItemIndexes { w.doc with m_items := p ++ b :: X :: s } w.heap,
               doc := LabelDocument.setModified { w.doc with m_items := p ++ b :: X :: s } }) := by
    unfold World.moveItemUp
    simp only [ge_iff_le, hstack]
    rw [if_neg (by omega), hsw]
  rw [hres]
  refine ⟨rfl, by omega, ?_, ?_, ?_⟩
  · have : (QList.indexOf w.doc.m_items X + 1).toNat = p.length + 1 := by omega
    rw [this]
    show (p ++ b :: X :: s)[p.length + 1]? = some X
    rw [List.getElem?_append_right (by omega)]
    simp
  · show (p ++ b :: X :: s).filter _ = w.doc.m_items.filter _
    rw [hl]
    exact filter_ne_swap p s X b
  · exact zOrderIsIndex_of_update _ _ _ _ (nodup_swap p s X b (hl ▸ hnodup))

theorem moveItemDown_spec (w : World) (X : ItemPtr) (hstack : w.doc.m_undoStack = none)
    (hnodup : w.doc.m_items.Nodup) (h0 : 0 < QList.indexOf w.doc.m_items X) :
    w.ReorderedTo X (QList.indexOf w.doc.m_items X - 1) (w.moveItemDown X) := by
  have hmem := mem_of_indexOf_nonneg (le_of_lt h0)
  have hidx := indexOf_of_mem hmem
  have hX := getElem?_indexOf hmem
  have hlt : List.indexOf X w.doc.m_items < w.doc.m_items.length := List.indexOf_lt_length.mpr hmem
  have hpos : 0 < List.indexOf X w.doc.m_items := by omega
  have hlt' : List.indexOf X w.doc.m_items - 1 < w.doc.m_items.length := by omega
  have hX' : w.doc.m_items[List.indexOf X w.doc.m_items - 1 + 1]? = some X := by
    rw [Nat.sub_add_cancel hpos]; exact hX
  obtain ⟨p, s, hl, hp⟩ := split_adjacent w.doc.m_items _ _ X (List.getElem?_eq_getElem hlt') hX'
  generalize w.doc.m_items[List.indexOf X w.doc.m_items - 1] = b at hl
  have hsw := (swap_adjacent p s b X (QList.indexOf w.doc.m_items X - 1)
    (QList.indexOf w.doc.m_items X) (by omega) (by omega)).2
  rw [← hl] at hsw
  have hres : w.moveItemDown X = (true,
      { w with heap := LabelDocument.updateItemIndexes { w.doc with m_items := p ++ X :: b :: s } w.heap,
               doc := LabelDocument.setModified { w.doc with m_items := p ++ X :: b :: s } }) := by
    unfold World.moveItemDown
    simp only [hstack]
    rw [if_neg (by omega), hsw]
  rw [hres]
  refine ⟨rfl, by omega, ?_, ?_, ?_⟩
  · have : (QList.indexOf w.doc.m_items X - 1).toNat = p.length := by omega
    rw [this]
    show (p ++ X :: b :: s)[p.length]? = some X
    rw [List.getElem?_append_right (le_refl _)]
    simp
  · show (p ++ X :: b :: s).filter _ = w.doc.m_items.filter _
    rw [hl]
    exact (filter_ne_swap p s X b).symm
  · exact zOrderIsIndex_of_update _ _ _ _ (nodup_swap p s b X (hl ▸ hnodup))

theorem moveItemToTop_spec (w : World) (X : ItemPtr) (hstack : w.doc.m_undoStack = none)
    (hnodup : w.doc.m_items.Nodup) (h0 : 0 ≤ QList.indexOf w.doc.m_items X)
    (h1 : QList.indexOf w.doc.m_items X ≠ (w.doc.m_items.length : Int) - 1) :
    w.ReorderedTo X ((w.doc.m_items.length : Int) - 1) (w.moveItemToTop X) := by
  have hmem := mem_of_indexOf_nonneg h0
  have hlen : 0 < w.doc.m_items.length := List.length_pos_of_mem hmem
  have hres : w.moveItemToTop X = (true,
      { w with heap := LabelDocument.updateItemIndexes
                  { w.doc with m_items := w.doc.m_items.erase X ++ [X] } w.heap,
               doc := LabelDocument.setModified
                  { w.doc with m_items := w.doc.m_items.erase X ++ [X] } }) := by
    unfold World.moveItemToTop
    simp only [hstack]
    rw [if_neg (by omega), removeAt_indexOf _ _ hmem]
  rw [hres]
  refine ⟨rfl, by omega, ?_, ?_, ?_⟩
  · have : ((w.doc.m_items.length : Int) - 1).toNat = (w.doc.m_items.erase X).length := by
      rw [List.length_erase_of_mem hmem]; omega
    rw [this]
    show (w.doc.m_items.erase X ++ [X])[(w.doc.m_items.erase X).length]? = some X
    simp
  · show (w.doc.m_items.erase X ++ [X]).filter _ = w.doc.m_items.filter _
    rw [List.filter_append, filter_ne_erase _ _ hnodup]
    simp
  · apply zOrderIsIndex_of_update
    show (w.doc.m_items.erase X ++ [X]).Nodup
    rw [List.nodup_append]
    refine ⟨hnodup.erase X, List.nodup_singleton X, ?_⟩
    intro a ha hb
    rw [List.mem_singleton] at hb
    rw [hb] at ha
    exact hnodup.not_mem_erase ha

theorem moveItemToBottom_spec (w : World) (X : ItemPtr) (hstack : w.doc.m_undoStack = none)
    (hnodup : w.doc.m_items.Nodup) (h0 : 0 < QList.indexOf w.doc.m_items X) :
    w.ReorderedTo X 0 (w.moveItemToBottom X) := by
  have hmem := mem_of_indexOf_nonneg (le_of_lt h0)
  have hres : w.moveItemToBottom X = (true,
      { w with heap := LabelDocument.updateItemIndexes
                  { w.doc with m_items := X :: w.doc.m_items.erase X } w.heap,
               doc := LabelDocument.setModified
                  { w.doc with m_items := X :: w.doc.m_items.erase X } }) := by
    unfold World.moveItemToBottom
    simp only [hstack]
    rw [if_neg (by omega), removeAt_indexOf _ _ hmem]
  rw [hres]
  refine ⟨rfl, le_refl _, ?_, ?_, ?_⟩
  · show (X :: w.doc.m_items.erase X)[0]? = some X
    simp
  · show (X :: w.doc.m_items.erase X).filter _ = w.doc.m_items.filter _
    rw [List.filter_cons, filter_ne_erase _ _ hnodup]
    simp
  · apply zOrderIsIndex_of_update
    show (X :: w.doc.m_items.erase X).Nodup
    rw [List.nodup_cons]
    exact ⟨hnodup.not_mem_erase, hnodup.erase X⟩

/-- C6: in a document without an undo stack whose list holds `X` (once, as every instance),
each reorder call away from its boundary returns true, puts `X` at its target index
(`moveItemUp`: `i+1`, `moveItemDown`: `i-1`, `moveItemToTop`: last, `moveItemToBottom`: 0),
keeps the other items in their relative order and leaves every z value equal to the index;
`moveItemToTop(A)` on `[A, B, C]` gives `[B, C, A]` with z values 0, 1, 2. -/
theorem reorder_without_undoStack (w : World) (X : ItemPtr)
    (hstack : w.doc.m_undoStack = none) (hnodup : w.doc.m_items.Nodup)
    (hX : X ∈ w.doc.m_items) :
    (QList.indexOf w.doc.m_items X < (w.doc.m_items.length : Int) - 1 →
        w.ReorderedTo X (QList.indexOf w.doc.m_items X + 1) (w.moveItemUp X)) ∧
      (0 < QList.indexOf w.doc.m_items X →
        w.ReorderedTo X (QList.indexOf w.doc.m_items X - 1) (w.moveItemDown X)) ∧
      (QList.indexOf w.doc.m_items X ≠ (w.doc.m_items.length : Int) - 1 →
        w.ReorderedTo X ((w.doc.m_items.length : Int) - 1) (w.moveItemToTop X)) ∧
      (0 < QList.indexOf w.doc.m_items X →
        w.ReorderedTo X 0 (w.moveItemToBottom X)) ∧
      ((worldABC.moveItemToTop 1).1 = true ∧
        (worldABC.moveItemToTop 1).2.doc.m_items = [2, 3, 1] ∧
        (worldABC.moveItemToTop 1).2.zValue 2 = 0 ∧
        (worldABC.moveItemToTop 1).2.zValue 3 = 1 ∧
        (worldABC.moveItemToTop 1).2.zValue 1 = 2) := by
  have h0 : 0 ≤ QList.indexOf w.doc.m_items X := by
    rw [indexOf_of_mem hX]; omega
  refine ⟨fun h => moveItemUp_spec w X hstack hnodup h0 h,
    fun h => moveItemDown_spec w X hstack hnodup h,
    fun h => moveItemToTop_spec w X hstack hnodup h0 h,
    fun h => moveItemToBottom_spec w X hstack hnodup h, ?_⟩
  have hz := (moveItemToTop_spec worldABC 1 rfl (by decide) (by decide) (by decide)).2.2.2.2
  have hl : (worldABC.moveItemToTop 1).2.doc.m_items = [2, 3, 1] := by decide
  refine ⟨by decide, hl, ?_, ?_, ?_⟩
  · have := hz 0 (by rw [hl]; decide)
    simpa [hl] using this
  · have := hz 1 (by rw [hl]; decide)
    simpa [hl] using this
  · have := hz 2 (by rw [hl]; decide)
    simpa [hl] using this

/-- C6 at a concrete input: the middle item `B` of `[A, B, C]` moved up and moved down. -/
theorem reorder_without_undoStack_witness :
    worldABC.ReorderedTo 2 2 (worldABC.moveItemUp 2) ∧
      worldABC.ReorderedTo 2 0 (worldABC.moveItemDown 2) ∧
      (worldABC.moveItemUp 2).2.doc.m_items = [1, 3, 2] ∧
      (worldABC.moveItemDown 2).2.doc.m_items = [2, 1, 3] :=
  ⟨(reorder_without_undoStack worldABC 2 rfl (by decide) (by decide)).1 (by decide),
    (reorder_without_undoStack worldABC 2 rfl (by decide) (by decide)).2.1 (by decide),
    by decide, by decide⟩

theorem indexOf_of_getLast? (l : List ItemPtr) (X : ItemPtr) (hnodup : l.Nodup)
    (hlast : l.getLast? = some X) : QList.indexOf l X = (l.length : Int) - 1 := by
  obtain ⟨ys, rfl⟩ := List.getLast?_eq_some_iff.mp hlast
  have hnot : X ∉ ys := by
    intro h
    have := (List.nodup_append.mp hnodup).2.2 h (List.mem_singleton_self X)
    exact this
  rw [indexOf_of_mem (by simp), List.indexOf_append_of_not_mem hnot]
  simp

theorem indexOf_of_head? (l : List ItemPtr) (X : ItemPtr) (hhead : l.head? = some X) :
    QList.indexOf l X = 0 := by
  obtain ⟨ys, rfl⟩ := List.head?_eq_some_iff.mp hhead
  rw [indexOf_of_mem (by simp)]
  simp

/-- C7: with or without an undo stack, `moveItemUp` and `moveItemToTop` on the top-most item,
`moveItemDown` and `moveItemToBottom` on the bottom-most item, and every reorder call on an
item that is not in the list return false and leave the whole state (item list, modified
flag, undo stack, item objects) as it was. -/
theorem reorder_rejected_at_boundary (w : World) (X : ItemPtr) :
    (w.doc.m_items.Nodup → w.doc.m_items.getLast? = some X →
        w.moveItemUp X = (false, w) ∧ w.moveItemToTop X = (false, w)) ∧
      (w.doc.m_items.head? = some X →
        w.moveItemDown X = (false, w) ∧ w.moveItemToBottom X = (false, w)) ∧
      (X ∉ w.doc.m_items →
        w.moveItemUp X = (false, w) ∧ w.moveItemDown X = (false, w) ∧
          w.moveItemToTop X = (false, w) ∧ w.moveItemToBottom X = (false, w)) := by
  refine ⟨fun hnodup hlast => ?_, fun hhead => ?_, fun hnot => ?_⟩
  · have h := indexOf_of_getLast? _ _ hnodup hlast
    constructor
    · unfold World.moveItemUp
      simp only [ge_iff_le]
      rw [if_pos (by omega)]
    · unfold World.moveItemToTop
      simp only []
      rw [if_pos (by omega)]
  · have h := indexOf_of_head? _ _ hhead
    constructor
    · unfold World.moveItemDown
      simp only []
      rw [if_pos (by omega)]
    · unfold World.moveItemToBottom
      simp only []
      rw [if_pos (by omega)]
  · have h := indexOf_of_not_mem hnot
    refine ⟨?_, ?_, ?_, ?_⟩
    · unfold World.moveItemUp
      simp only [ge_iff_le]
      rw [if_pos (by omega)]
    · unfold World.moveItemDown
      simp only []
      rw [if_pos (by omega)]
    · unfold World.moveItemToTop
      simp only []
      rw [if_pos (by omega)]
    · unfold World.moveItemToBottom
      simp only []
      rw [if_pos (by omega)]

/-- C7 at concrete inputs, with an undo stack attached: `C` is top-most and `A` bottom-most in
`[A, B, C]`, and the item at address 9 is not in the list. -/
theorem reorder_rejected_at_boundary_witness :
    (worldABCStack.moveItemUp 3 = (false, worldABCStack) ∧
        worldABCStack.moveItemToTop 3 = (false, worldABCStack)) ∧
      (worldABCStack.moveItemDown 1 = (false, worldABCStack) ∧
        worldABCStack.moveItemToBottom 1 = (false, worldABCStack)) ∧
      (worldABCStack.moveItemUp 9 = (false, worldABCStack) ∧
        worldABCStack.moveItemDown 9 = (false, worldABCStack) ∧
        worldABCStack.moveItemToTop 9 = (false, worldABCStack) ∧
        worldABCStack.moveItemToBottom 9 = (false, worldABCStack)) :=
  ⟨(reorder_rejected_at_boundary worldABCStack 3).1 (by decide) (by decide),
    (reorder_rejected_at_boundary worldABCStack 1).2.1 (by decide),
    (reorder_rejected_at_boundary worldABCStack 9).2.2 (by decide)⟩

end Reorder

/-! ### Object-form round trip -/

section RoundTrip

/-- C1 as stated fails: a document with one image item of size 1 x 1 (positive width and
height) whose image file reads as 64 x 64 reloads with the item's size 64 x 64. -/
theorem fromJson_toJson_counterexample :
    (worldSmallImage.fromJson srvLogo (worldSmallImage.toJson srvLogo)).1 = true ∧
      worldSmallImage.itemSummaries = [("image", "logo", ⟨0, 0, 1, 1⟩, 0)] ∧
      (worldSmallImage.fromJson srvLogo (worldSmallImage.toJson srvLogo)).2.itemSummaries
        = [("image", "logo", ⟨0, 0, 64, 64⟩, 0)] ∧
      (worldSmallImage.fromJson srvLogo (worldSmallImage.toJson srvLogo)).2.itemSummaries
        ≠ worldSmallImage.itemSummaries := by
  decide

theorem value_insert_same (o : QJsonObject) (k : String) (v : QJsonValue) :
    (o.insert k v).value k = v := by
  induction o with
  | nil => simp [QJsonObject.insert, QJsonObject.value]
  | cons kv rest ih =>
    obtain ⟨k', x⟩ := kv
    by_cases h : k' = k
    · simp [QJsonObject.insert, QJsonObject.value, h]
    · simp [QJsonObject.insert, QJsonObject.value, h, ih]

theorem value_insert_ne (o : QJsonObject) (k k' : String) (v : QJsonValue) (hne : k ≠ k') :
    (o.insert k v).value k' = o.value k' := by
  induction o with
  | nil => simp [QJsonObject.insert, QJsonObject.value, hne]
  | cons kv rest ih =>
    obtain ⟨k₀, x⟩ := kv
    by_cases h : k₀ = k
    · subst h
      simp [QJsonObject.insert, QJsonObject.value, hne]
    · by_cases h' : k₀ = k'
      · subst h'
        simp [QJsonObject.insert, QJsonObject.value, h]
      · simp [QJsonObject.insert, QJsonObject.value, h, h', ih]

/-- What `TextItem::fromJson` returns and stores in the base-class members for a record of
type `text`. -/
theorem text_fromJson_base (t : TextItem) (json : QJsonObject)
    (htype : (json.value "type").toString "" = "text") :
    (TextItem.fromJson t json).1 = true ∧
      (TextItem.fromJson t json).2.m_id = (json.value "id").toString "" ∧
      (TextItem.fromJson t json).2.m_rect
        = ⟨(json.value "x").toDouble 0, (json.value "y").toDouble 0,
          (json.value "width").toDouble 100, (json.value "height").toDouble 50⟩ ∧
      (TextItem.fromJson t json).2.m_rotation = (json.value "rotation").toDouble 0 := by
  have h : ¬ ((json.value "type").toString "" ≠ "text") := not_not.mpr htype
  unfold TextItem.fromJson
  simp only [h, if_false]
  split_ifs <;> exact ⟨trivial, rfl, rfl, rfl⟩

theorem text_fromJson_toJson (t₀ t : TextItem) :
    (TextItem.fromJson t₀ t.toJson).1 = true ∧
      (TextItem.fromJson t₀ t.toJson).2.m_id = t.m_id ∧
      (TextItem.fromJson t₀ t.toJson).2.m_rect = t.m_rect ∧
      (TextItem.fromJson t₀ t.toJson).2.m_rotation = t.m_rotation := by
  have htype : (t.toJson.value "type").toString "" = "text" := by
    simp [TextItem.toJson, value_insert_same, value_insert_ne, QJsonValue.toString]
  obtain ⟨h1, h2, h3, h4⟩ := text_fromJson_base t₀ t.toJson htype
  rw [h1, h2, h3, h4]
  simp [TextItem.toJson, value_insert_same, value_insert_ne,
    QJsonValue.toString, QJsonValue.toDouble]

theorem barcode_fromJson_toJson (b₀ b : BarcodeItem) :
    (BarcodeItem.fromJson b₀ b.toJson).1 = true ∧
      (BarcodeItem.fromJson b₀ b.toJson).2.m_id = b.m_id ∧
      (BarcodeItem.fromJson b₀ b.toJson).2.m_rect = b.m_rect ∧
      (BarcodeItem.fromJson b₀ b.toJson).2.m_rotation = b.m_rotation := by
  simp [BarcodeItem.fromJson, BarcodeItem.toJson, value_insert_same, value_insert_ne,
    QJsonObject.value, QJsonValue.toString, QJsonValue.toDouble]

theorem qrcode_fromJson_toJson (q₀ q : QRCodeItem) :
    (QRCodeItem.fromJson q₀ q.toJson).1 = true ∧
      (QRCodeItem.fromJson q₀ q.toJson).2.m_id = q.m_id ∧
      (QRCodeItem.fromJson q₀ q.toJson).2.m_rect = q.m_rect ∧
      (QRCodeItem.fromJson q₀ q.toJson).2.m_rotation = q.m_rotation := by
  simp [QRCodeItem.fromJson, QRCodeItem.toJson, value_insert_same, value_insert_ne,
    QJsonObject.value, QJsonValue.toString, QJsonValue.toDouble]

theorem setImage_base (i : ImageItem) (image : QImage) :
    (i.setImage image).2.m_id = i.m_id ∧ (i.setImage image).2.m_rect = i.m_rect ∧
      (i.setImage image).2.m_rotation = i.m_rotation ∧
      (i.setImage image).2.m_imagePath = i.m_imagePath := by
  unfold ImageItem.setImage
  split <;> simp

theorem setImagePath_base (srv : Services) (i : ImageItem) (path : String)
    (hkeep : (1 < i.m_rect.w ∧ 1 < i.m_rect.h) ∨ path = "" ∨ (srv.readImage path).isNull = true) :
    (i.setImagePath srv path).2.m_id = i.m_id ∧ (i.setImagePath srv path).2.m_rect = i.m_rect ∧
      (i.setImagePath srv path).2.m_rotation = i.m_rotation := by
  unfold ImageItem.setImagePath
  by_cases hp : path = ""
  · simp [hp]
  · by_cases hn : (srv.readImage path).isNull = true
    · simp [hp, hn]
    · have hsz : 1 < i.m_rect.w ∧ 1 < i.m_rect.h := by
        rcases hkeep with h | h | h
        · exact h
        · exact absurd h hp
        · exact absurd h hn
      have h1 := setImage_base { i with m_imagePath := path } (srv.readImage path)
      simp only [] at h1
      have hg : ¬ ((({ i with m_imagePath := path } : ImageItem).setImage
          (srv.readImage path)).2.m_rect.w ≤ 1 ∨
          (({ i with m_imagePath := path } : ImageItem).setImage
          (srv.readImage path)).2.m_rect.h ≤ 1) := by
        rw [h1.2.1, not_or]; exact ⟨not_le.mpr hsz.1, not_le.mpr hsz.2⟩
      simp only [hp, hn, if_false, hg]
      exact ⟨h1.1, h1.2.1, h1.2.2.1⟩

/-- The part of `ImageItem::fromJson` after the base-class members are read keeps them. -/
theorem image_fromJson_base (srv : Services) (i₀ : ImageItem) (json : QJsonObject)
    (htype : (json.value "type").toString "" = "image")
    (hkeep : (1 < (json.value "width").toDouble 100 ∧ 1 < (json.value "height").toDouble 100) ∨
      (json.value "imagePath").toString "" = "" ∨
      (srv.readImage ((json.value "imagePath").toString "")).isNull = true) :
    (ImageItem.fromJson srv i₀ json).1 = true ∧
      (ImageItem.fromJson srv i₀ json).2.m_id = (json.value "id").toString "" ∧
      (ImageItem.fromJson srv i₀ json).2.m_rect =
        ⟨(json.value "x").toDouble 0, (json.value "y").toDouble 0,
          (json.value "width").toDouble 100, (json.value "height").toDouble 100⟩ ∧
      (ImageItem.fromJson srv i₀ json).2.m_rotation = (json.value "rotation").toDouble 0 := by
  unfold ImageItem.fromJson
  rw [if_neg (not_not.mpr htype)]
  simp only []
  generalize hi : ({ i₀ with
        m_id := (json.value "id").toString ""
        m_name := (json.value "name").toString "图像"
        m_rect := ⟨(json.value "x").toDouble 0, (json.value "y").toDouble 0,
          (json.value "width").toDouble 100, (json.value "height").toDouble 100⟩
        m_rotation := (json.value "rotation").toDouble 0
        m_locked := (json.value "locked").toBool false
        m_visible := (json.value "visible").toBool true
        m_imagePath := (json.value "imagePath").toString ""
        m_keepAspectRatio := (json.value "keepAspectRatio").toBool true } : ImageItem) = i
  have hid : i.m_id = (json.value "id").toString "" := by rw [← hi]
  have hrect : i.m_rect = ⟨(json.value "x").toDouble 0, (json.value "y").toDouble 0,
          (json.value "width").toDouble 100, (json.value "height").toDouble 100⟩ := by rw [← hi]
  have hrot : i.m_rotation = (json.value "rotation").toDouble 0 := by rw [← hi]
  have hpath : i.m_imagePath = (json.value "imagePath").toString "" := by rw [← hi]
  have hk : (1 < i.m_rect.w ∧ 1 < i.m_rect.h) ∨ i.m_imagePath = "" ∨
      (srv.readImage i.m_imagePath).isNull = true := by
    rw [hrect, hpath]; exact hkeep
  have hsp := setImagePath_base srv i i.m_imagePath hk
  rw [hpath] at hsp
  rw [← hid, ← hrect, ← hrot]
  refine ⟨trivial, ?_⟩
  split_ifs
  · have h2 := setImage_base (ImageItem.setImagePath srv i ((json.value "imagePath").toString "")).2
      (srv.loadFromData ((json.value "imageData").toString ""))
    exact ⟨h2.1.trans hsp.1, h2.2.1.trans hsp.2.1, h2.2.2.1.trans hsp.2.2⟩
  all_goals first
    | exact hsp
    | exact ⟨rfl, rfl, rfl⟩
    | (have h2 := setImage_base i (srv.loadFromData ((json.value "imageData").toString ""))
       exact ⟨h2.1, h2.2.1, h2.2.2.1⟩)

set_option maxHeartbeats 1600000 in
theorem image_fromJson_toJson (srv : Services) (i₀ i : ImageItem)
    (hkeep : (ItemObject.image i).KeepsSizeOnLoad srv) :
    (ImageItem.fromJson srv i₀ (i.toJson srv)).1 = true ∧
      (ImageItem.fromJson srv i₀ (i.toJson srv)).2.m_id = i.m_id ∧
      (ImageItem.fromJson srv i₀ (i.toJson srv)).2.m_rect = i.m_rect ∧
      (ImageItem.fromJson srv i₀ (i.toJson srv)).2.m_rotation = i.m_rotation := by
  have hval : ((i.toJson srv).value "type").toString "" = "image" ∧
      ((i.toJson srv).value "id").toString "" = i.m_id ∧
      ((i.toJson srv).value "x").toDouble 0 = i.m_rect.xp ∧
      ((i.toJson srv).value "y").toDouble 0 = i.m_rect.yp ∧
      ((i.toJson srv).value "width").toDouble 100 = i.m_rect.w ∧
      ((i.toJson srv).value "height").toDouble 100 = i.m_rect.h ∧
      ((i.toJson srv).value "rotation").toDouble 0 = i.m_rotation ∧
      ((i.toJson srv).value "imagePath").toString "" = i.m_imagePath := by
    unfold ImageItem.toJson
    simp only []
    split <;>
      simp [value_insert_same, value_insert_ne, QJsonObject.value, QJsonValue.toString,
        QJsonValue.toDouble]
  obtain ⟨h1, h2, h3, h4, h5, h6, h7, h8⟩ := hval
  have hb := image_fromJson_base srv i₀ (i.toJson srv) h1 (by rw [h5, h6, h8]; exact hkeep)
  rw [h2, h3, h4, h5, h6, h7] at hb
  exact hb

theorem summary_fromJson_toJson (srv : Services) (o₀ o : ItemObject)
    (hclass : o₀.typeName = o.typeName) (hkeep : o.KeepsSizeOnLoad srv) :
    (o₀.fromJson srv (o.toJson srv)).1 = true ∧
      (o₀.fromJson srv (o.toJson srv)).2.summary = o.summary := by
  cases o <;> cases o₀ <;> simp [ItemObject.typeName] at hclass
  · rename_i t t₀
    have h := text_fromJson_toJson t₀ t
    simp [ItemObject.fromJson, ItemObject.toJson, ItemObject.summary, ItemObject.typeName,
      ItemObject.base, h]
  · rename_i i i₀
    have h := image_fromJson_toJson srv i₀ i hkeep
    simp [ItemObject.fromJson, ItemObject.toJson, ItemObject.summary, ItemObject.typeName,
      ItemObject.base, h]
  · rename_i b b₀
    have h := barcode_fromJson_toJson b₀ b
    simp [ItemObject.fromJson, ItemObject.toJson, ItemObject.summary, ItemObject.typeName,
      ItemObject.base, h]
  · rename_i q q₀
    have h := qrcode_fromJson_toJson q₀ q
    simp [ItemObject.fromJson, ItemObject.toJson, ItemObject.summary, ItemObject.typeName,
      ItemObject.base, h]

theorem type_toJson (srv : Services) (o : ItemObject) :
    (((o.toJson srv).value "type").toString "") = o.typeName := by
  cases o with
  | image i =>
    simp only [ItemObject.toJson, ItemObject.typeName, ImageItem.toJson]
    split <;>
      simp [value_insert_same, value_insert_ne, QJsonObject.value, QJsonValue.toString]
  | _ =>
    simp [ItemObject.toJson, ItemObject.typeName, TextItem.toJson, BarcodeItem.toJson,
      QRCodeItem.toJson, value_insert_same, value_insert_ne, QJsonObject.value,
      QJsonValue.toString]

theorem createItemOfType_typeName (srv : Services) (a : ItemPtr) (o : ItemObject) :
    ∃ o₀, World.createItemOfType srv a o.typeName = some o₀ ∧ o₀.typeName = o.typeName := by
  cases o <;> simp [World.createItemOfType, ItemObject.typeName]

/-- One pass of the load loop on the record written for `o`: a new object with the summary
of `o` is stored at the next address and appended to the list. -/
theorem loadItem_toJson (srv : Services) (w : World) (o : ItemObject)
    (hkeep : o.KeepsSizeOnLoad srv) (hfresh : ∀ p ∈ w.doc.m_items, p ≤ w.allocated) :
    ∃ o' : ItemObject, o'.summary = o.summary ∧
      (w.loadItem srv (.object (o.toJson srv))).doc.m_items = w.doc.m_items ++ [w.allocated + 1] ∧
      (w.loadItem srv (.object (o.toJson srv))).heap = Function.update w.heap (w.allocated + 1) o' ∧
      (w.loadItem srv (.object (o.toJson srv))).allocated = w.allocated + 1 := by
  have hnot : w.allocated + 1 ∉ w.doc.m_items := by
    intro h
    exact Nat.not_succ_le_self _ (hfresh _ h)
  obtain ⟨o₀, hcreate, hclass⟩ := createItemOfType_typeName srv (w.allocated + 1) o
  have h := summary_fromJson_toJson srv o₀ o hclass hkeep
  have hres : w.loadItem srv (.object (o.toJson srv)) =
      World.addItem { w with allocated := w.allocated + 1,
                             heap := Function.update w.heap (w.allocated + 1)
                               (o₀.fromJson srv (o.toJson srv)).2 } (w.allocated + 1) := by
    unfold World.loadItem
    simp only [QJsonValue.toObject, type_toJson, hcreate]
    rw [if_neg (by simp [h.1])]
  rw [hres]
  refine ⟨_, h.2, ?_, rfl, rfl⟩
  simp [World.addItem, LabelDocument.addItem, LabelDocument.setModified, nullptr, hnot]

/-- The load loop over the records written for the objects `os` appends one object per
record, with the same summaries, in the same order. -/
theorem foldl_loadItem_toJson (srv : Services) (os : List ItemObject)
    (hkeep : ∀ o ∈ os, o.KeepsSizeOnLoad srv) (w : World)
    (hfresh : ∀ p ∈ w.doc.m_items, p ≤ w.allocated) :
    ((os.map (fun o => QJsonValue.object (o.toJson srv))).foldl (World.loadItem srv) w).itemSummaries
      = w.itemSummaries ++ os.map ItemObject.summary := by
  induction os generalizing w with
  | nil => simp
  | cons o os ih =>
    obtain ⟨o', hsum, hitems, hheap, halloc⟩ :=
      loadItem_toJson srv w o (hkeep o (List.mem_cons_self _ _)) hfresh
    have hfresh' : ∀ p ∈ (w.loadItem srv (.object (o.toJson srv))).doc.m_items,
        p ≤ (w.loadItem srv (.object (o.toJson srv))).allocated := by
      intro p hp
      rw [hitems] at hp
      rw [halloc]
      rcases List.mem_append.mp hp with hp | hp
      · exact Nat.le_succ_of_le (hfresh p hp)
      · rw [List.mem_singleton] at hp
        exact le_of_eq hp
    have hstep : (w.loadItem srv (.object (o.toJson srv))).itemSummaries
        = w.itemSummaries ++ [o.summary] := by
      unfold World.itemSummaries
      rw [hitems, hheap, List.map_append]
      congr 1
      · apply List.map_congr_left
        intro p hp
        have := hfresh p hp
        rw [Function.update_noteq (Nat.ne_of_lt (Nat.lt_succ_of_le this))]
      · simp [hsum]
    rw [List.map_cons, List.foldl_cons,
      ih (fun o ho => hkeep o (List.mem_cons_of_mem _ ho)) _ hfresh', hstep]
    simp

theorem items_toJson (srv : Services) (w : World) :
    ((w.toJson srv).value "items").toArray
      = (w.doc.m_items.map w.heap).map (fun o => QJsonValue.object (o.toJson srv)) := by
  simp [World.toJson, value_insert_same, QJsonValue.toArray, List.map_map, Function.comp_def]

theorem version_toJson (srv : Services) (w : World) :
    ((w.toJson srv).value "version").toString "1.0" = "1.0" := by
  simp [World.toJson, value_insert_same, value_insert_ne, QJsonObject.value, QJsonValue.toString]

/-- C1 (amended): for a document whose items have positive width and height and whose image
items keep their size on load (width and height above 1, or an empty image path, or an image
file that does not read), `fromJson(toJson(d))` returns true and the reloaded document has the
same number of items, in the same order, with the same type discriminator, id, rect and
rotation at every index. -/
theorem fromJson_toJson_items (srv : Services) (w : World)
    (_hpos : ∀ p ∈ w.doc.m_items, 0 < (w.heap p).base.m_rect.w ∧ 0 < (w.heap p).base.m_rect.h)
    (hkeep : ∀ p ∈ w.doc.m_items, (w.heap p).KeepsSizeOnLoad srv) :
    (w.fromJson srv (w.toJson srv)).1 = true ∧
      (w.fromJson srv (w.toJson srv)).2.itemSummaries = w.itemSummaries := by
  have hk : ∀ o ∈ w.doc.m_items.map w.heap, o.KeepsSizeOnLoad srv := by
    intro o ho
    obtain ⟨p, hp, rfl⟩ := List.mem_map.mp ho
    exact hkeep p hp
  unfold World.fromJson
  simp only [version_toJson, ne_eq, not_true_eq_false, if_false, items_toJson]
  refine ⟨trivial, ?_⟩
  have h := foldl_loadItem_toJson srv (w.doc.m_items.map w.heap) hk
  simp only [World.itemSummaries] at h ⊢
  simp only [LabelDocument.resetModified]
  rw [h _ (by simp [World.clear, LabelDocument.setModified])]
  simp [World.clear, LabelDocument.setModified, List.map_map, Function.comp_def]

/-- C1 (amended) at a concrete input: a document with one item of each class. -/
theorem fromJson_toJson_items_witness :
    (worldFourKinds.fromJson srvLogo (worldFourKinds.toJson srvLogo)).1 = true ∧
      (worldFourKinds.fromJson srvLogo (worldFourKinds.toJson srvLogo)).2.itemSummaries
        = worldFourKinds.itemSummaries :=
  fromJson_toJson_items srvLogo worldFourKinds (by decide) (by decide)

end RoundTrip

section Sizing
variable {K : Type} [LinearOrderedField K]

theorem setSize_of_nonpositive (it : LabelItem K) (size : QSizeF K)
    (h : size.wd ≤ 0 ∨ size.ht ≤ 0) : it.setSize size = it := by
  simp [LabelItem.setSize, h]

theorem setSize_of_positive (it : LabelItem K) (size : QSizeF K)
    (hw : 0 < size.wd) (hh : 0 < size.ht) :
    it.setSize size = { it with m_rect := it.m_rect.setSize size, m_modified := true } := by
  have : ¬ (size.wd ≤ 0 ∨ size.ht ≤ 0) := by
    rw [not_or]; exact ⟨not_le.mpr hw, not_le.mpr hh⟩
  simp [LabelItem.setSize, this]

end Sizing

theorem mapBase_id (o : ItemObject) (f : LabelItem ℚ → LabelItem ℚ) (h : f o.base = o.base) :
    o.mapBase f = o := by
  cases o <;> simp only [ItemObject.mapBase, ItemObject.base] at h ⊢ <;> rw [h]

theorem resize_of_nonpositive (o : ItemObject) (width height : ℚ)
    (hsize : width ≤ 0 ∨ height ≤ 0)
    (hfit : o.fitsAspectOnResize = false ∨ (width ≤ 0 ∧ height ≤ 0)) :
    o.resize width height = o := by
  cases o with
  | image i =>
    have hreq : (if i.m_keepAspectRatio = true ∧ i.m_originalImage.isNull = false then
          (if width > 0 ∧ height > 0 then
            (if width / i.m_originalImage.size.wd < height / i.m_originalImage.size.ht then
              (width, width / (i.m_originalImage.size.wd / i.m_originalImage.size.ht))
            else (height * (i.m_originalImage.size.wd / i.m_originalImage.size.ht), height))
          else if width > 0 then
            (width, width / (i.m_originalImage.size.wd / i.m_originalImage.size.ht))
          else if height > 0 then
            (height * (i.m_originalImage.size.wd / i.m_originalImage.size.ht), height)
          else (width, height))
        else (width, height)) = (width, height) := by
      rcases hfit with hfit | ⟨hw, hh⟩
      · have : ¬ (i.m_keepAspectRatio = true ∧ i.m_originalImage.isNull = false) := by
          simp only [ItemObject.fitsAspectOnResize, Bool.and_eq_false_iff,
            Bool.not_eq_false'] at hfit
          rintro ⟨h1, h2⟩
          rcases hfit with h | h
          · rw [h1] at h; exact Bool.noConfusion h
          · rw [h2] at h; exact Bool.noConfusion h
        rw [if_neg this]
      · have h1 : ¬ (width > 0 ∧ height > 0) := fun h => absurd h.1 (not_lt.mpr hw)
        have h2 : ¬ (width > 0) := not_lt.mpr hw
        have h3 : ¬ (height > 0) := not_lt.mpr hh
        simp only [h2, h3, false_and, if_false, ite_self]
    simp only [ItemObject.resize, ImageItem.resize, hreq, LabelItem.resize]
    rw [setSize_of_nonpositive _ _ hsize]
  | text t =>
    exact mapBase_id (.text t) (fun it => it.resize width height)
      (setSize_of_nonpositive _ ⟨width, height⟩ hsize)
  | barcode b =>
    exact mapBase_id (.barcode b) (fun it => it.resize width height)
      (setSize_of_nonpositive _ ⟨width, height⟩ hsize)
  | qrcode q =>
    exact mapBase_id (.qrcode q) (fun it => it.resize width height)
      (setSize_of_nonpositive _ ⟨width, height⟩ hsize)

/-- C11 as stated fails: an image item that keeps its aspect ratio and holds a 100 x 100
picture, asked to `resize(50, 0)`, takes the size 50 x 50. -/
theorem resize_nonpositive_counterexample :
    ((ItemObject.image imageWithPicture).resize 50 0).base.m_rect = ⟨0, 0, 50, 50⟩ ∧
      ((ItemObject.image imageWithPicture).resize 50 0).base.m_rect
        ≠ (ItemObject.image imageWithPicture).base.m_rect ∧
      ((ItemObject.image imageWithPicture).resize 50 0).base.m_modified = true ∧
      (ItemObject.image imageWithPicture).base.m_modified = false := by
  have h : ((ItemObject.image imageWithPicture).resize 50 0).base.m_rect = ⟨0, 0, 50, 50⟩ := by
    norm_num [ItemObject.resize, ItemObject.base, ImageItem.resize, imageWithPicture,
      QImage.size, LabelItem.resize, LabelItem.setSize, QRectF.setSize]
  refine ⟨h, ?_, ?_, by decide⟩
  · rw [h]
    simp [ItemObject.base, imageWithPicture]
  · norm_num [ItemObject.resize, ItemObject.base, ImageItem.resize, imageWithPicture,
      QImage.size, LabelItem.resize, LabelItem.setSize, QRectF.setSize]

/-- C11 (amended): `setSize` with a non-positive width or height changes nothing, and neither
does `resize` unless the item is an image item that keeps its aspect ratio, holds an image
and gets one positive side; `setSize` with positive width and height sets the rect's size to
the given one and keeps the top-left corner. -/
theorem setSize_contract :
    (∀ (it : LabelItem ℚ) (size : QSizeF ℚ), (size.wd ≤ 0 ∨ size.ht ≤ 0) →
        it.setSize size = it ∧ it.resize size.wd size.ht = it) ∧
      (∀ (o : ItemObject) (width height : ℚ), (width ≤ 0 ∨ height ≤ 0) →
        (o.fitsAspectOnResize = false ∨ (width ≤ 0 ∧ height ≤ 0)) →
        o.resize width height = o) ∧
      (∀ (it : LabelItem ℚ) (size : QSizeF ℚ), 0 < size.wd → 0 < size.ht →
        (it.setSize size).m_rect.size = size ∧
          (it.setSize size).m_rect.topLeft = it.m_rect.topLeft ∧
          (it.resize size.wd size.ht).m_rect.size = size ∧
          (it.resize size.wd size.ht).m_rect.topLeft = it.m_rect.topLeft) := by
  refine ⟨fun it size h => ⟨setSize_of_nonpositive it size h, setSize_of_nonpositive it _ h⟩,
    fun o width height h hfit => resize_of_nonpositive o width height h hfit, ?_⟩
  intro it size hw hh
  have h1 := setSize_of_positive it size hw hh
  have h2 : it.resize size.wd size.ht = it.setSize size := rfl
  rw [h2, h1]
  simp [QRectF.setSize, QRectF.size, QRectF.topLeft]

/-- C11 (amended) at concrete inputs: a text item asked for the size 0 x 40, and the same item
given the size 30 x 40. -/
theorem setSize_contract_witness :
    (({} : LabelItem ℚ).setSize ⟨0, 40⟩ = {} ∧ ({} : LabelItem ℚ).resize 0 40 = {}) ∧
      ((({} : LabelItem ℚ).setSize ⟨30, 40⟩).m_rect.size = ⟨30, 40⟩ ∧
        (({} : LabelItem ℚ).setSize ⟨30, 40⟩).m_rect.topLeft = ({} : LabelItem ℚ).m_rect.topLeft ∧
        (({} : LabelItem ℚ).resize 30 40).m_rect.size = ⟨30, 40⟩ ∧
        (({} : LabelItem ℚ).resize 30 40).m_rect.topLeft = ({} : LabelItem ℚ).m_rect.topLeft) :=
  ⟨setSize_contract.1 {} ⟨0, 40⟩ (Or.inl (le_refl _)),
    setSize_contract.2.2 {} ⟨30, 40⟩ (by norm_num) (by norm_num)⟩

section Gestures

variable {K : Type} [LinearOrderedField K] [FloorRing K]

/-- What `mouseMoveEvent` does to an unlocked item that is being dragged by a resize
handle. -/
theorem mouseMoveEvent_resize (qAtan2 : K → K → K) (M_PI : K) (it : LabelItem K)
    (pos : QPointF K) (hunlocked : it.m_locked = false) (hdrag : it.m_dragging = true)
    (hhandle : 0 ≤ it.m_activeHandle ∧ it.m_activeHandle ≤ 7) :
    (it.mouseMoveEvent qAtan2 M_PI pos).m_rect =
        (if 10 ≤ (resizeCandidate it.m_activeHandle it.m_rect (pos.sub it.m_lastPos)).w ∧
            10 ≤ (resizeCandidate it.m_activeHandle it.m_rect (pos.sub it.m_lastPos)).h
          then resizeCandidate it.m_activeHandle it.m_rect (pos.sub it.m_lastPos)
          else it.m_rect) ∧
      (it.mouseMoveEvent qAtan2 M_PI pos).m_rotation = it.m_rotation := by
  have h1 : ¬ (it.m_dragging = false ∨ it.m_locked = true) := by
    rw [hdrag, hunlocked]; simp
  have h2 : ¬ (it.m_activeHandle = -1) := by omega
  have h3 : ¬ (it.m_activeHandle = HandleRotate) := by
    unfold HandleRotate; omega
  unfold LabelItem.mouseMoveEvent
  simp only [h1, h2, h3, if_false]
  split <;> exact ⟨rfl, rfl⟩

end Gestures

/-- C12: for an unlocked item being dragged by one of the eight resize handles, a pointer move
whose candidate rect has width below 10 or height below 10 leaves the rect as it was; dragging
the bottom-right handle of a 20 x 20 rect by (-16, -16) gives the candidate 4 x 4 and leaves
the rect 20 x 20. -/
theorem resize_below_minimum_rejected {K : Type} [LinearOrderedField K] [FloorRing K]
    (qAtan2 : K → K → K) (M_PI : K) (it : LabelItem K) (pos : QPointF K)
    (hunlocked : it.m_locked = false) (hdrag : it.m_dragging = true)
    (hhandle : 0 ≤ it.m_activeHandle ∧ it.m_activeHandle ≤ 7)
    (hsmall : (resizeCandidate it.m_activeHandle it.m_rect (pos.sub it.m_lastPos)).w < 10 ∨
      (resizeCandidate it.m_activeHandle it.m_rect (pos.sub it.m_lastPos)).h < 10) :
    (it.mouseMoveEvent qAtan2 M_PI pos).m_rect = it.m_rect ∧
      (resizeCandidate HandleBottomRight (⟨0, 0, 20, 20⟩ : QRectF ℚ) ⟨-16, -16⟩
          = ⟨0, 0, 4, 4⟩ ∧
        (draggedSquare.mouseMoveEvent (fun _ _ => 0) 1 ⟨4, 4⟩).m_rect = ⟨0, 0, 20, 20⟩) := by
  constructor
  · rw [(mouseMoveEvent_resize qAtan2 M_PI it pos hunlocked hdrag hhandle).1]
    have : ¬ (10 ≤ (resizeCandidate it.m_activeHandle it.m_rect (pos.sub it.m_lastPos)).w ∧
        10 ≤ (resizeCandidate it.m_activeHandle it.m_rect (pos.sub it.m_lastPos)).h) := by
      rintro ⟨h1, h2⟩
      rcases hsmall with h | h
      · exact absurd h1 (not_le.mpr h)
      · exact absurd h2 (not_le.mpr h)
    rw [if_neg this]
  · constructor
    · norm_num [resizeCandidate, HandleBottomRight, HandleTopLeft, HandleTopMiddle,
        HandleTopRight, HandleMiddleLeft, HandleMiddleRight, HandleBottomLeft,
        HandleBottomMiddle, QRectF.setBottomRight, QRectF.setRight, QRectF.setBottom,
        QRectF.bottomRight, QPointF.add]
    · rw [(mouseMoveEvent_resize (fun _ _ => 0) 1 draggedSquare ⟨4, 4⟩ rfl rfl
        (by decide)).1]
      norm_num [draggedSquare, resizeCandidate, HandleBottomRight, HandleTopLeft,
        HandleTopMiddle, HandleTopRight, HandleMiddleLeft, HandleMiddleRight, HandleBottomLeft,
        HandleBottomMiddle, QRectF.setBottomRight, QRectF.setRight, QRectF.setBottom,
        QRectF.bottomRight, QPointF.add, QPointF.sub]

/-- C12 at a concrete input: the 20 x 20 item dragged by its bottom-right handle from
(20, 20) to (4, 4). -/
theorem resize_below_minimum_rejected_witness :
    (draggedSquare.mouseMoveEvent (fun _ _ => 0) 1 ⟨4, 4⟩).m_rect = draggedSquare.m_rect :=
  (resize_below_minimum_rejected (fun _ _ => 0) 1 draggedSquare ⟨4, 4⟩ rfl rfl (by decide)
    (Or.inl (by
      norm_num [draggedSquare, resizeCandidate, HandleBottomRight, HandleTopLeft,
        HandleTopMiddle, HandleTopRight, HandleMiddleLeft, HandleMiddleRight, HandleBottomLeft,
        HandleBottomMiddle, QRectF.setBottomRight, QRectF.setRight, QRectF.setBottom,
        QRectF.bottomRight, QPointF.add, QPointF.sub]))).1

section DocumentContract

/-- C14: `addItem` of null or of an item already in the list, and `removeItem` of null or of
an item not in the list, leave the document (item list, modified flag and all) as it was;
`addItem` of a new item appends it; `removeItem` of a present item deletes that element and
keeps the others in order. -/
theorem addItem_removeItem_contract (d : LabelDocument) (item : ItemPtr) :
    ((item = nullptr ∨ item ∈ d.m_items) → d.addItem item = d) ∧
      ((item = nullptr ∨ item ∉ d.m_items) → d.removeItem item = d) ∧
      (item ≠ nullptr → item ∉ d.m_items →
        (d.addItem item).m_items = d.m_items ++ [item] ∧ (d.addItem item).m_modified = true) ∧
      (item ≠ nullptr → item ∈ d.m_items →
        (∃ p s, d.m_items = p ++ item :: s ∧ item ∉ p ∧ (d.removeItem item).m_items = p ++ s) ∧
          (d.removeItem item).m_modified = true) := by
  refine ⟨?_, ?_, ?_, ?_⟩
  · rintro (h | h)
    · simp [LabelDocument.addItem, h]
    · simp [LabelDocument.addItem, h]
  · rintro (h | h)
    · simp [LabelDocument.removeItem, h]
    · simp [LabelDocument.removeItem, h]
  · intro hX hnot
    exact ⟨addItem_items_of_fresh d item hX hnot,
      by simp [LabelDocument.addItem, LabelDocument.setModified, hX, hnot]⟩
  · intro hX hmem
    refine ⟨?_, by simp [LabelDocument.removeItem, LabelDocument.setModified, hX, hmem]⟩
    obtain ⟨p, s, hnp, hl, he⟩ := List.exists_erase_eq hmem
    exact ⟨p, s, hl, hnp, by rw [removeItem_items_of_mem d item hX hmem, he]⟩

/-- C14 at concrete inputs on the document `[1, 2]`. -/
theorem addItem_removeItem_contract_witness :
    docAB.addItem 2 = docAB ∧ docAB.removeItem 7 = docAB ∧
      (docAB.addItem 7).m_items = [1, 2, 7] ∧ (docAB.removeItem 1).m_items = [2] :=
  ⟨(addItem_removeItem_contract docAB 2).1 (Or.inr (by decide)),
    (addItem_removeItem_contract docAB 7).2.1 (Or.inr (by decide)),
    ((addItem_removeItem_contract docAB 7).2.2.1 (by decide) (by decide)).1,
    by decide⟩

/-- C15, evaluated: a document changed by one `addItem` is saved successfully; `saveFile`
returns true and clears the window's modified flag, and the document's `isModified()` is still
true although nothing has changed it since the save. -/
theorem saveFile_keeps_modified :
    (mainWindowEdited.saveFile "label.lbl" true).1 = true ∧
      (mainWindowEdited.saveFile "label.lbl" true).2.windowModified = false ∧
      (mainWindowEdited.saveFile "label.lbl" true).2.m_currentDocument.map
          (fun w => w.doc.isModified) = some true := by
  decide

end DocumentContract

section Ownership

theorem add_alternate_invariant (d : LabelDocument) (X : ItemPtr) (hX : X ≠ nullptr)
    (hnot : X ∉ d.m_items) (n : Nat) :
    (n % 2 = 0 → (AddItemCommand.alternate n (AddItemCommand.new X, d)).1.m_ownsItem = true ∧
        (AddItemCommand.alternate n (AddItemCommand.new X, d)).2.m_items = d.m_items) ∧
      (n % 2 = 1 → (AddItemCommand.alternate n (AddItemCommand.new X, d)).1.m_ownsItem = false ∧
        (AddItemCommand.alternate n (AddItemCommand.new X, d)).2.m_items = d.m_items ++ [X]) ∧
      (AddItemCommand.alternate n (AddItemCommand.new X, d)).1.m_item = X := by
  induction n with
  | zero => simp [AddItemCommand.alternate, AddItemCommand.new]
  | succ n ih =>
    obtain ⟨he, ho, hi⟩ := ih
    rcases Nat.mod_two_eq_zero_or_one n with hn | hn
    · obtain ⟨_, hl⟩ := he hn
      have h1 : (n + 1) % 2 = 1 := by omega
      refine ⟨fun h => by omega, fun _ => ?_, ?_⟩
      · simp only [AddItemCommand.alternate, hn, if_true, AddItemCommand.redo, hi]
        exact ⟨trivial, by rw [addItem_items_of_fresh _ X hX (by rw [hl]; exact hnot), hl]⟩
      · simp only [AddItemCommand.alternate, hn, if_true, AddItemCommand.redo, hi]
    · obtain ⟨_, hl⟩ := ho hn
      have h1 : (n + 1) % 2 = 0 := by omega
      have hn0 : ¬ n % 2 = 0 := by omega
      refine ⟨fun _ => ?_, fun h => by omega, ?_⟩
      · simp only [AddItemCommand.alternate, hn0, if_false, AddItemCommand.undo, hi]
        exact ⟨trivial, by
          rw [removeItem_items_of_mem _ X hX (by rw [hl]; simp), hl,
            erase_append_fresh _ _ hnot]⟩
      · simp only [AddItemCommand.alternate, hn0, if_false, AddItemCommand.undo, hi]

theorem remove_alternate_invariant (d : LabelDocument) (X : ItemPtr) (hX : X ≠ nullptr)
    (hmem : X ∈ d.m_items) (hnodup : d.m_items.Nodup) (n : Nat) :
    (n % 2 = 0 → (RemoveItemCommand.alternate n (RemoveItemCommand.new d X, d)).1.m_ownsItem
          = false ∧
        X ∈ (RemoveItemCommand.alternate n (RemoveItemCommand.new d X, d)).2.m_items) ∧
      (n % 2 = 1 → (RemoveItemCommand.alternate n (RemoveItemCommand.new d X, d)).1.m_ownsItem
          = true ∧
        X ∉ (RemoveItemCommand.alternate n (RemoveItemCommand.new d X, d)).2.m_items) ∧
      (RemoveItemCommand.alternate n (RemoveItemCommand.new d X, d)).1.m_item = X ∧
      (RemoveItemCommand.alternate n (RemoveItemCommand.new d X, d)).2.m_items.Nodup := by
  induction n with
  | zero => simp [RemoveItemCommand.alternate, RemoveItemCommand.new, hmem, hnodup]
  | succ n ih =>
    obtain ⟨he, ho, hi, hnd⟩ := ih
    rcases Nat.mod_two_eq_zero_or_one n with hn | hn
    · obtain ⟨_, hl⟩ := he hn
      have hitems : ((RemoveItemCommand.alternate (n + 1) (RemoveItemCommand.new d X, d)).2.m_items)
          = (RemoveItemCommand.alternate n (RemoveItemCommand.new d X, d)).2.m_items.erase X := by
        simp only [RemoveItemCommand.alternate, hn, if_true, RemoveItemCommand.redo, hi]
        exact removeItem_items_of_mem _ X hX hl
      refine ⟨fun h => by omega, fun _ => ⟨?_, ?_⟩, ?_, ?_⟩
      · simp only [RemoveItemCommand.alternate, hn, if_true, RemoveItemCommand.redo]
      · rw [hitems]; exact hnd.not_mem_erase
      · simp only [RemoveItemCommand.alternate, hn, if_true, RemoveItemCommand.redo, hi]
      · rw [hitems]; exact hnd.erase X
    · obtain ⟨_, hl⟩ := ho hn
      have hn0 : ¬ n % 2 = 0 := by omega
      have hitems : ((RemoveItemCommand.alternate (n + 1) (RemoveItemCommand.new d X, d)).2.m_items)
          = (RemoveItemCommand.alternate n (RemoveItemCommand.new d X, d)).2.m_items ++ [X] := by
        simp only [RemoveItemCommand.alternate, hn0, if_false, RemoveItemCommand.undo, hi]
        exact addItem_items_of_fresh _ X hX hl
      refine ⟨fun _ => ⟨?_, ?_⟩, fun h => by omega, ?_, ?_⟩
      · simp only [RemoveItemCommand.alternate, hn0, if_false, RemoveItemCommand.undo]
      · rw [hitems]; simp
      · simp only [RemoveItemCommand.alternate, hn0, if_false, RemoveItemCommand.undo, hi]
      · rw [hitems, List.nodup_append]
        refine ⟨hnd, List.nodup_singleton X, ?_⟩
        intro a ha hb
        rw [List.mem_singleton] at hb
        rw [hb] at ha
        exact hl ha

/-- C16: after any number `n` of calls alternating `redo()`, `undo()`, ... from construction,
the ownership flag is true exactly when `X` is not in the document's list. An Add-command
(for a non-null `X` not yet in the list) owns `X` after an even number of calls and not after
an odd number; a Remove-command (for an `X` that the list holds once) owns `X` after an odd
number of calls and not after an even number. -/
theorem ownership_flag_tracks_list (d : LabelDocument) (X : ItemPtr) (n : Nat)
    (hX : X ≠ nullptr) :
    (X ∉ d.m_items →
        ((AddItemCommand.alternate n (AddItemCommand.new X, d)).1.m_ownsItem = true ↔
          X ∉ (AddItemCommand.alternate n (AddItemCommand.new X, d)).2.m_items) ∧
        ((AddItemCommand.alternate n (AddItemCommand.new X, d)).1.m_ownsItem = true ↔
          n % 2 = 0)) ∧
      (X ∈ d.m_items → d.m_items.Nodup →
        ((RemoveItemCommand.alternate n (RemoveItemCommand.new d X, d)).1.m_ownsItem = true ↔
          X ∉ (RemoveItemCommand.alternate n (RemoveItemCommand.new d X, d)).2.m_items) ∧
        ((RemoveItemCommand.alternate n (RemoveItemCommand.new d X, d)).1.m_ownsItem = true ↔
          n % 2 = 1)) := by
  constructor
  · intro hnot
    obtain ⟨he, ho, _⟩ := add_alternate_invariant d X hX hnot n
    rcases Nat.mod_two_eq_zero_or_one n with hn | hn
    · obtain ⟨h1, h2⟩ := he hn
      rw [h1, h2]
      exact ⟨⟨fun _ => hnot, fun _ => rfl⟩, ⟨fun _ => hn, fun _ => rfl⟩⟩
    · obtain ⟨h1, h2⟩ := ho hn
      rw [h1, h2]
      refine ⟨⟨fun h => Bool.noConfusion h, fun h => absurd (by simp) h⟩,
        ⟨fun h => Bool.noConfusion h, fun h => by omega⟩⟩
  · intro hmem hnodup
    obtain ⟨he, ho, _, _⟩ := remove_alternate_invariant d X hX hmem hnodup n
    rcases Nat.mod_two_eq_zero_or_one n with hn | hn
    · obtain ⟨h1, h2⟩ := he hn
      rw [h1]
      exact ⟨⟨fun h => Bool.noConfusion h, fun h => absurd h2 h⟩,
        ⟨fun h => Bool.noConfusion h, fun h => by omega⟩⟩
    · obtain ⟨h1, h2⟩ := ho hn
      rw [h1]
      exact ⟨⟨fun _ => h2, fun _ => rfl⟩, ⟨fun _ => hn, fun _ => rfl⟩⟩

/-- C16 at concrete inputs: an Add-command for the item at address 3 and a Remove-command for
the item at address 1 on the document `[1, 2]`, after three calls (`redo`, `undo`, `redo`). -/
theorem ownership_flag_tracks_list_witness :
    (AddItemCommand.alternate 3 (AddItemCommand.new 3, docAB)).1.m_ownsItem = false ∧
      (AddItemCommand.alternate 3 (AddItemCommand.new 3, docAB)).2.m_items = [1, 2, 3] ∧
      (RemoveItemCommand.alternate 3 (RemoveItemCommand.new docAB 1, docAB)).1.m_ownsItem = true ∧
      (RemoveItemCommand.alternate 3 (RemoveItemCommand.new docAB 1, docAB)).2.m_items = [2] ∧
      (((AddItemCommand.alternate 3 (AddItemCommand.new 3, docAB)).1.m_ownsItem = true ↔
          3 ∉ (AddItemCommand.alternate 3 (AddItemCommand.new 3, docAB)).2.m_items)) :=
  ⟨by decide, by decide, by decide, by decide,
    ((ownership_flag_tracks_list docAB 3 3 (by decide)).1 (by decide)).1⟩

end Ownership

section History

theorem record_length_le (st : QUndoStack) (cmd : UndoCommand) (hlimit : 0 < st.undoLimit) :
    (st.record cmd).commands.length ≤ st.undoLimit ∧ (st.record cmd).undoLimit = st.undoLimit := by
  unfold QUndoStack.record
  simp only [List.length_drop, List.length_append, List.length_take, List.length_singleton]
  refine ⟨?_, trivial⟩
  split <;> omega

theorem push_undoStack (w : World) (st : QUndoStack) (cmd : UndoCommand) :
    (w.push st cmd).doc.m_undoStack = some (st.record (cmd.redo w).1) := rfl

set_option maxRecDepth 100000 in
/-- C17: with the undo limit 50 that `MainWindow` sets, the history holds at most 50 commands
after every push; after pushing 51 Remove-commands (items 1 to 51) it holds 50, the oldest
(for item 1) is gone, and item 1, which that command owned, has been deleted, while no other
item has. -/
theorem undo_history_bounded :
    (∀ (w : World) (st : QUndoStack) (cmd : UndoCommand), st.undoLimit = 50 →
        ∃ st', (w.push st cmd).doc.m_undoStack = some st' ∧ st'.commands.length ≤ 50 ∧
          st'.undoLimit = 50) ∧
      ((worldFiftyOne.pushRemoves (List.range' 1 51)).doc.m_undoStack.map
          (fun st => (st.commands.length, st.index)) = some (50, 50) ∧
        (worldFiftyOne.pushRemoves (List.range' 1 51)).doc.m_undoStack.map
          (fun st => st.commands.map UndoCommand.itemOf)
            = some ((List.range' 2 50).map some) ∧
        (worldFiftyOne.pushRemoves (List.range' 1 51)).freed = [1] ∧
        (worldFiftyOne.pushRemoves (List.range' 1 51)).doc.m_items = []) := by
  constructor
  · intro w st cmd hlimit
    have h := record_length_le st (cmd.redo w).1 (by omega)
    exact ⟨_, push_undoStack w st cmd, by omega, by omega⟩
  · decide

/-- C18, evaluated: with an undo stack attached, a confirmed `deleteSelectedItems` for the
selection `[A, B]` of the document `[A, B, C]` pushes one command without any child and leaves
the list `[A, B, C]`; without an undo stack the same call leaves `[C]`. -/
theorem deleteSelectedItems_removes_nothing :
    (LabelEditView.deleteSelectedItems worldABCStack [1, 2] true).doc.m_items = [1, 2, 3] ∧
      (LabelEditView.deleteSelectedItems worldABCStack [1, 2] true).doc.m_undoStack.map
          (fun st => st.commands.map UndoCommand.childCount) = some [0] ∧
      (LabelEditView.deleteSelectedItems worldABCStack [1, 2] true).undo.doc.m_items
        = [1, 2, 3] ∧
      (LabelEditView.deleteSelectedItems worldABC [1, 2] true).doc.m_items = [3] := by
  decide

end History

section Loading

theorem setImage_id (i : ImageItem) (image : QImage) : (i.setImage image).2.m_id = i.m_id :=
  (setImage_base i image).1

theorem setSize_id {K : Type} [LinearOrderedField K] (it : LabelItem K) (size : QSizeF K) :
    (it.setSize size).m_id = it.m_id := by
  unfold LabelItem.setSize
  split <;> rfl

theorem setImagePath_id (srv : Services) (i : ImageItem) (path : String) :
    (i.setImagePath srv path).2.m_id = i.m_id := by
  unfold ImageItem.setImagePath
  split
  · rfl
  · simp only []
    split
    · rfl
    · simp only []
      split
      · show (LabelItem.setSize _ _).m_id = _
        rw [setSize_id]
        exact (setImage_base _ _).1
      · exact (setImage_base _ _).1

/-- Reading a record whose type names the class of the object succeeds and takes the id of
the record. -/
theorem fromJson_of_type (srv : Services) (o : ItemObject) (json : QJsonObject)
    (htype : (json.value "type").toString "" = o.typeName) :
    (o.fromJson srv json).1 = true ∧
      (o.fromJson srv json).2.typeName = o.typeName ∧
      (o.fromJson srv json).2.base.m_id = (json.value "id").toString "" := by
  cases o with
  | text t =>
    simp only [ItemObject.typeName] at htype
    obtain ⟨h1, h2, _, _⟩ := text_fromJson_base t json htype
    exact ⟨h1, rfl, h2⟩
  | image i =>
    simp only [ItemObject.typeName] at htype
    simp only [ItemObject.fromJson, ImageItem.fromJson, ItemObject.typeName, ItemObject.base,
      htype, ne_eq, not_true_eq_false, if_false]
    refine ⟨trivial, trivial, ?_⟩
    split_ifs <;> simp only [setImage_id, setImagePath_id]
  | barcode b =>
    simp [ItemObject.fromJson, BarcodeItem.fromJson, ItemObject.typeName, ItemObject.base] at htype ⊢
    simp [htype]
  | qrcode q =>
    simp [ItemObject.fromJson, QRCodeItem.fromJson, ItemObject.typeName, ItemObject.base] at htype ⊢
    simp [htype]

theorem createItemOfType_known (srv : Services) (a : ItemPtr) (itemType : String) :
    (isKnownType itemType = true →
        ∃ o, World.createItemOfType srv a itemType = some o ∧ o.typeName = itemType) ∧
      (isKnownType itemType = false → World.createItemOfType srv a itemType = none) := by
  unfold World.createItemOfType isKnownType
  by_cases h1 : itemType = "text"
  · simp [h1, ItemObject.typeName]
  · by_cases h2 : itemType = "image"
    · simp [h2, ItemObject.typeName]
    · by_cases h3 : itemType = "barcode"
      · simp [h3, ItemObject.typeName]
      · by_cases h4 : itemType = "qrcode"
        · simp [h4, ItemObject.typeName]
        · simp [h1, h2, h3, h4]

/-- One pass of the load loop: a record of known type adds one item with the record's type and
id at the end of the list; any other value adds nothing. -/
theorem loadItem_typesAndIds (srv : Services) (w : World) (value : QJsonValue)
    (hfresh : ∀ p ∈ w.doc.m_items, p ≤ w.allocated) :
    (w.loadItem srv value).itemTypesAndIds
        = w.itemTypesAndIds ++ (recordTypeAndId value).toList ∧
      (∀ p ∈ (w.loadItem srv value).doc.m_items, p ≤ (w.loadItem srv value).allocated) := by
  have hnot : w.allocated + 1 ∉ w.doc.m_items := by
    intro h
    exact Nat.not_succ_le_self _ (hfresh _ h)
  cases hk : isKnownType ((value.toObject.value "type").toString "") with
  | false =>
    have hnone := (createItemOfType_known srv (w.allocated + 1) _).2 hk
    have hres : w.loadItem srv value = w := by
      unfold World.loadItem
      simp only [hnone]
    rw [hres]
    exact ⟨by simp [recordTypeAndId, hk], hfresh⟩
  | true =>
    obtain ⟨o, hcreate, htype⟩ := (createItemOfType_known srv (w.allocated + 1) _).1 hk
    have h := fromJson_of_type srv o value.toObject htype.symm
    have hres : w.loadItem srv value =
        World.addItem { w with allocated := w.allocated + 1,
                               heap := Function.update w.heap (w.allocated + 1)
                                 (o.fromJson srv value.toObject).2 } (w.allocated + 1) := by
      unfold World.loadItem
      simp only [hcreate]
      rw [if_neg (by simp [h.1])]
    have hitems : (w.loadItem srv value).doc.m_items = w.doc.m_items ++ [w.allocated + 1] := by
      rw [hres]
      simp [World.addItem, LabelDocument.addItem, LabelDocument.setModified, nullptr, hnot]
    have hheap : (w.loadItem srv value).heap = Function.update w.heap (w.allocated + 1)
        (o.fromJson srv value.toObject).2 := by
      rw [hres]; rfl
    have halloc : (w.loadItem srv value).allocated = w.allocated + 1 := by
      rw [hres]; rfl
    constructor
    · unfold World.itemTypesAndIds
      rw [hitems, hheap, List.map_append]
      congr 1
      · apply List.map_congr_left
        intro p hp
        have := hfresh p hp
        rw [Function.update_noteq (Nat.ne_of_lt (Nat.lt_succ_of_le this))]
      · simp [recordTypeAndId, hk, h.2.1, h.2.2, htype]
    · intro p hp
      rw [hitems] at hp
      rw [halloc]
      rcases List.mem_append.mp hp with hp | hp
      · exact Nat.le_succ_of_le (hfresh p hp)
      · rw [List.mem_singleton] at hp
        exact le_of_eq hp

theorem foldl_loadItem_typesAndIds (srv : Services) (values : List QJsonValue) (w : World)
    (hfresh : ∀ p ∈ w.doc.m_items, p ≤ w.allocated) :
    (values.foldl (World.loadItem srv) w).itemTypesAndIds
      = w.itemTypesAndIds ++ values.filterMap recordTypeAndId := by
  induction values generalizing w with
  | nil => simp
  | cons v vs ih =>
    obtain ⟨h1, h2⟩ := loadItem_typesAndIds srv w v hfresh
    rw [List.foldl_cons, ih _ h2, h1]
    cases hr : recordTypeAndId v <;> simp [List.filterMap_cons, hr]

/-- C19: for an object-form document of version 1.0, `fromJson` returns true and the loaded
items are, in order, exactly the records of the items array whose type is one of `text`,
`image`, `barcode`, `qrcode`: one item per such record, with the record's type and id. -/
theorem fromJson_skips_unknown_types (srv : Services) (w : World) (json : QJsonObject)
    (hversion : (json.value "version").toString "1.0" = "1.0") :
    (w.fromJson srv json).1 = true ∧
      (w.fromJson srv json).2.itemTypesAndIds
        = ((json.value "items").toArray).filterMap recordTypeAndId := by
  unfold World.fromJson
  simp only [hversion, ne_eq, not_true_eq_false, if_false]
  refine ⟨trivial, ?_⟩
  have h := foldl_loadItem_typesAndIds srv ((json.value "items").toArray)
  simp only [World.itemTypesAndIds] at h ⊢
  simp only [LabelDocument.resetModified]
  rw [h _ (by simp [World.clear, LabelDocument.setModified])]
  simp [World.clear, LabelDocument.setModified]

/-- C19 at a concrete input: seven values, four of them records of known type. -/
theorem fromJson_skips_unknown_types_witness :
    (worldABC.fromJson srvLogo
          [("version", .string "1.0"), ("items", .array mixedItemsArray)]).1 = true ∧
      (worldABC.fromJson srvLogo
          [("version", .string "1.0"), ("items", .array mixedItemsArray)]).2.itemTypesAndIds
        = [("text", "t1"), ("qrcode", "q1"), ("image", "i1"), ("barcode", "b1")] :=
  fromJson_skips_unknown_types srvLogo worldABC
    [("version", .string "1.0"), ("items", .array mixedItemsArray)] (by decide)

end Loading

section FailedLoad

/-- The states after a failed load: when `fromJson` returns false the state is as it was before
the call; when `loadFromXml` returns false the state is either as it was before the call, or
the root was a `Label` element without an `Items` child and the document has no items, the
modified flag set and the page settings read from that root. -/
theorem failed_load_state (srv : Services) (w : World) :
    (∀ json : QJsonObject, (w.fromJson srv json).1 = false → (w.fromJson srv json).2 = w) ∧
      (∀ device : XmlDevice, (w.loadFromXml srv device).1 = false →
        (w.loadFromXml srv device).2 = w ∨
          ∃ root, device.content = some root ∧ root.tagName = "Label" ∧
            root.firstChildElement "Items" = none ∧
            (w.loadFromXml srv device).2.doc.m_items = [] ∧
            (w.loadFromXml srv device).2.doc.m_modified = true ∧
            (w.loadFromXml srv device).2.doc.m_pageSize
              = srv.toInt (root.attributeValue "pageSize" "0") ∧
            (w.loadFromXml srv device).2.doc.m_orientation
              = srv.toInt (root.attributeValue "orientation" "0") ∧
            (w.loadFromXml srv device).2.doc.m_dpi
              = srv.toInt (root.attributeValue "dpi" "300") ∧
            (w.loadFromXml srv device).2.doc.m_customSize
              = ⟨srv.toDouble (root.attributeValue "customWidth" "210"),
                srv.toDouble (root.attributeValue "customHeight" "297")⟩ ∧
            (w.loadFromXml srv device).2.doc.m_margins
              = ⟨srv.toDouble (root.attributeValue "marginLeft" "10"),
                srv.toDouble (root.attributeValue "marginTop" "10"),
                srv.toDouble (root.attributeValue "marginRight" "10"),
                srv.toDouble (root.attributeValue "marginBottom" "10")⟩) := by
  constructor
  · intro json h
    unfold World.fromJson at h ⊢
    by_cases hv : (json.value "version").toString "1.0" ≠ "1.0"
    · simp only [if_pos hv]
    · simp only [if_neg hv] at h
      exact absurd h (by simp)
  · intro device h
    unfold World.loadFromXml at h ⊢
    by_cases hr : device.readable = false
    · left
      rw [if_pos hr]
    · rw [if_neg hr] at h ⊢
      cases hc : device.content with
      | none => left; rfl
      | some root =>
        rw [hc] at h
        simp only [] at h ⊢
        by_cases ht : root.tagName ≠ "Label"
        · left
          rw [if_pos ht]
        · rw [if_neg ht] at h ⊢
          right
          refine ⟨root, rfl, not_not.mp ht, ?_⟩
          cases hi : root.firstChildElement "Items" with
          | some itemsElement =>
            simp [World.loadItemsFromXml, hi] at h
          | none =>
            simp [World.loadItemsFromXml, hi, World.clear, LabelDocument.setModified]

/-- C20, evaluated: when `fromJson` returns false, and when `loadFromXml` returns false for an
unreadable device, unparsed content or a root that is not `Label`, the state is as it was
before the call; but `loadFromXml` on a `Label` root without an `Items` child returns false
after `clear()` and the page-setting writes: the document `[A, B, C]` (page size 0, not
modified) is left with no items, page size 5 and the modified flag set. -/
theorem loadFromXml_failure_partly_updated :
    (∀ (srv : Services) (w : World) (json : QJsonObject),
        (w.fromJson srv json).1 = false → (w.fromJson srv json).2 = w) ∧
      (∀ (srv : Services) (w : World) (device : XmlDevice),
        (w.loadFromXml srv device).1 = false →
        (device.readable = false ∨ device.content = none ∨
          ∃ root, device.content = some root ∧ root.tagName ≠ "Label") →
        (w.loadFromXml srv device).2 = w) ∧
      ((worldABC.loadFromXml srvXml deviceWithoutItems).1 = false ∧
        worldABC.doc.m_items = [1, 2, 3] ∧ worldABC.doc.m_pageSize = 0 ∧
        worldABC.doc.m_modified = false ∧
        (worldABC.loadFromXml srvXml deviceWithoutItems).2.doc.m_items = [] ∧
        (worldABC.loadFromXml srvXml deviceWithoutItems).2.doc.m_pageSize = 5 ∧
        (worldABC.loadFromXml srvXml deviceWithoutItems).2.doc.m_modified = true) := by
  refine ⟨fun srv w json h => (failed_load_state srv w).1 json h, ?_, by decide⟩
  intro srv w device _ hcase
  unfold World.loadFromXml
  by_cases hr : device.readable = false
  · rw [if_pos hr]
  · rw [if_neg hr]
    rcases hcase with h | h | ⟨root, hc, ht⟩
    · exact absurd h hr
    · rw [h]
    · rw [hc]
      show (if root.tagName ≠ "Label" then (false, w) else _).2 = w
      rw [if_pos ht]

end FailedLoad

section MissingContainer

/-- C21, evaluated: `loadFromXml` on a readable device whose `Label` root has no `Items`
child returns false, whereas `fromJson` on an object of version 1.0 (or without version) that
has no `items` entry returns true and leaves a document without items; the empty object is
such an input. -/
theorem fromJson_accepts_missing_items :
    (∀ (srv : Services) (w : World) (root : QDomElement), root.tagName = "Label" →
        root.firstChildElement "Items" = none →
        (w.loadFromXml srv { readable := true, content := some root }).1 = false) ∧
      (∀ (srv : Services) (w : World) (json : QJsonObject),
        (json.value "version").toString "1.0" = "1.0" → json.value "items" = .undefined →
        (w.fromJson srv json).1 = true ∧ (w.fromJson srv json).2.doc.m_items = []) ∧
      (worldABC.fromJson srvLogo []).1 = true ∧
      (worldABC.fromJson srvLogo []).2.doc.m_items = [] ∧
      (worldABC.loadFromXml srvLogo deviceWithoutItems).1 = false := by
  refine ⟨?_, ?_, by decide, by decide, by decide⟩
  · intro srv w root htag hitems
    have ht : ¬ (root.tagName ≠ "Label") := not_not.mpr htag
    simp [World.loadFromXml, ht, World.loadItemsFromXml, hitems]
  · intro srv w json hversion hitems
    have hv : ¬ ((json.value "version").toString "1.0" ≠ "1.0") := not_not.mpr hversion
    simp [World.fromJson, hv, hitems, QJsonValue.toArray, World.clear,
      LabelDocument.resetModified, LabelDocument.setModified]

end MissingContainer

section ListInvariant

theorem updateItemIndexesFrom_id (l : List ItemPtr) (i : Nat) (heap : Heap) (p : ItemPtr) :
    (LabelDocument.updateItemIndexesFrom l i heap p).base.m_id = (heap p).base.m_id := by
  induction l generalizing i heap with
  | nil => rfl
  | cons q qs ih =>
    rw [LabelDocument.updateItemIndexesFrom, ih]
    by_cases h : p = q
    · subst h
      rw [Function.update_same, base_mapBase]
      rfl
    · rw [Function.update_noteq h]

theorem rearranged_refl (w : World) (hstack : w.doc.m_undoStack = none) : w.Rearranged w :=
  ⟨List.Perm.refl _, hstack, fun _ => rfl⟩

theorem rearranged_of_items (w : World) (l : List ItemPtr) (hstack : w.doc.m_undoStack = none)
    (hperm : l.Perm w.doc.m_items) :
    w.Rearranged
      { w with heap := LabelDocument.updateItemIndexes { w.doc with m_items := l } w.heap,
               doc := LabelDocument.setModified { w.doc with m_items := l } } :=
  ⟨hperm, hstack, fun p => updateItemIndexesFrom_id l 0 w.heap p⟩

theorem moveItemUp_rearranged (w : World) (X : ItemPtr) (hstack : w.doc.m_undoStack = none) :
    w.Rearranged (w.moveItemUp X).2 := by
  by_cases hg : QList.indexOf w.doc.m_items X < 0 ∨
      QList.indexOf w.doc.m_items X ≥ (w.doc.m_items.length : Int) - 1
  · have hres : w.moveItemUp X = (false, w) := by
      unfold World.moveItemUp
      simp only [hg, if_true]
    rw [hres]
    exact rearranged_refl w hstack
  · rw [not_or, not_lt, not_le] at hg
    obtain ⟨h0, h1⟩ := hg
    have hmem := mem_of_indexOf_nonneg h0
    have hidx := indexOf_of_mem hmem
    have hX := getElem?_indexOf hmem
    have hlt : List.indexOf X w.doc.m_items + 1 < w.doc.m_items.length := by omega
    obtain ⟨p, s, hl, hp⟩ :=
      split_adjacent w.doc.m_items _ X _ hX (List.getElem?_eq_getElem hlt)
    generalize w.doc.m_items[List.indexOf X w.doc.m_items + 1] = b at hl
    have hsw := (swap_adjacent p s X b (QList.indexOf w.doc.m_items X)
      (QList.indexOf w.doc.m_items X + 1) (by omega) (by omega)).1
    rw [← hl] at hsw
    have hres : w.moveItemUp X = (true,
        { w with heap := LabelDocument.updateItemIndexes
                    { w.doc with m_items := p ++ b :: X :: s } w.heap,
                 doc := LabelDocument.setModified { w.doc with m_items := p ++ b :: X :: s } }) := by
      unfold World.moveItemUp
      simp only [ge_iff_le, hstack]
      rw [if_neg (by omega), hsw]
    rw [hres]
    apply rearranged_of_items w _ hstack
    rw [hl]
    exact List.Perm.append_left p (List.Perm.swap X b s)

theorem moveItemDown_rearranged (w : World) (X : ItemPtr) (hstack : w.doc.m_undoStack = none) :
    w.Rearranged (w.moveItemDown X).2 := by
  by_cases hg : QList.indexOf w.doc.m_items X ≤ 0
  · have hres : w.moveItemDown X = (false, w) := by
      unfold World.moveItemDown
      simp only [hg, if_true]
    rw [hres]
    exact rearranged_refl w hstack
  · rw [not_le] at hg
    have hmem := mem_of_indexOf_nonneg (le_of_lt hg)
    have hidx := indexOf_of_mem hmem
    have hX := getElem?_indexOf hmem
    have hlt : List.indexOf X w.doc.m_items < w.doc.m_items.length :=
      List.indexOf_lt_length.mpr hmem
    have hpos : 0 < List.indexOf X w.doc.m_items := by omega
    have hlt' : List.indexOf X w.doc.m_items - 1 < w.doc.m_items.length := by omega
    have hX' : w.doc.m_items[List.indexOf X w.doc.m_items - 1 + 1]? = some X := by
      rw [Nat.sub_add_cancel hpos]; exact hX
    obtain ⟨p, s, hl, hp⟩ :=
      split_adjacent w.doc.m_items _ _ X (List.getElem?_eq_getElem hlt') hX'
    generalize w.doc.m_items[List.indexOf X w.doc.m_items - 1] = b at hl
    have hsw := (swap_adjacent p s b X (QList.indexOf w.doc.m_items X - 1)
      (QList.indexOf w.doc.m_items X) (by omega) (by omega)).2
    rw [← hl] at hsw
    have hres : w.moveItemDown X = (true,
        { w with heap := LabelDocument.updateItemIndexes
                    { w.doc with m_items := p ++ X :: b :: s } w.heap,
                 doc := LabelDocument.setModified { w.doc with m_items := p ++ X :: b :: s } }) := by
      unfold World.moveItemDown
      simp only [hstack]
      rw [if_neg (by omega), hsw]
    rw [hres]
    apply rearranged_of_items w _ hstack
    rw [hl]
    exact List.Perm.append_left p (List.Perm.swap b X s)

theorem moveItemToTop_rearranged (w : World) (X : ItemPtr)
    (hstack : w.doc.m_undoStack = none) : w.Rearranged (w.moveItemToTop X).2 := by
  by_cases hg : QList.indexOf w.doc.m_items X < 0 ∨
      QList.indexOf w.doc.m_items X = (w.doc.m_items.length : Int) - 1
  · have hres : w.moveItemToTop X = (false, w) := by
      unfold World.moveItemToTop
      simp only [hg, if_true]
    rw [hres]
    exact rearranged_refl w hstack
  · have hg2 := hg
    rw [not_or, not_lt] at hg
    have hmem := mem_of_indexOf_nonneg hg.1
    have hres : w.moveItemToTop X = (true,
        { w with heap := LabelDocument.updateItemIndexes
                    { w.doc with m_items := w.doc.m_items.erase X ++ [X] } w.heap,
                 doc := LabelDocument.setModified
                    { w.doc with m_items := w.doc.m_items.erase X ++ [X] } }) := by
      unfold World.moveItemToTop
      simp only [hstack]
      rw [if_neg hg2, removeAt_indexOf _ _ hmem]
    rw [hres]
    apply rearranged_of_items w _ hstack
    exact (List.perm_append_singleton X _).trans (List.perm_cons_erase hmem).symm

theorem moveItemToBottom_rearranged (w : World) (X : ItemPtr)
    (hstack : w.doc.m_undoStack = none) : w.Rearranged (w.moveItemToBottom X).2 := by
  by_cases hg : QList.indexOf w.doc.m_items X ≤ 0
  · have hres : w.moveItemToBottom X = (false, w) := by
      unfold World.moveItemToBottom
      simp only [hg, if_true]
    rw [hres]
    exact rearranged_refl w hstack
  · have hmem := mem_of_indexOf_nonneg (le_of_lt (not_le.mp hg))
    have hres : w.moveItemToBottom X = (true,
        { w with heap := LabelDocument.updateItemIndexes
                    { w.doc with m_items := X :: w.doc.m_items.erase X } w.heap,
                 doc := LabelDocument.setModified
                    { w.doc with m_items := X :: w.doc.m_items.erase X } }) := by
      unfold World.moveItemToBottom
      simp only [hstack]
      rw [if_neg hg, removeAt_indexOf _ _ hmem]
    rw [hres]
    apply rearranged_of_items w _ hstack
    exact (List.perm_cons_erase hmem).symm

theorem addItem_nodup (d : LabelDocument) (X : ItemPtr) (hnodup : d.m_items.Nodup) :
    (d.addItem X).m_items.Nodup := by
  unfold LabelDocument.addItem
  split
  · exact hnodup
  · split
    · exact hnodup
    · rename_i h1 h2
      show (d.m_items ++ [X]).Nodup
      rw [List.nodup_append]
      refine ⟨hnodup, List.nodup_singleton X, ?_⟩
      intro a ha hb
      rw [List.mem_singleton] at hb
      exact h2 (hb ▸ ha)

theorem removeItem_sublist (d : LabelDocument) (X : ItemPtr) :
    (d.removeItem X).m_items.Sublist d.m_items := by
  unfold LabelDocument.removeItem
  split
  · exact List.Sublist.refl _
  · split
    · exact List.Sublist.refl _
    · exact List.erase_sublist X d.m_items

theorem addItem_undoStack (d : LabelDocument) (X : ItemPtr) :
    (d.addItem X).m_undoStack = d.m_undoStack := by
  unfold LabelDocument.addItem
  split
  · rfl
  · split <;> rfl

theorem removeItem_undoStack (d : LabelDocument) (X : ItemPtr) :
    (d.removeItem X).m_undoStack = d.m_undoStack := by
  unfold LabelDocument.removeItem
  split
  · rfl
  · split <;> rfl

theorem call_nodup (w : World) (c : ListCall) (hstack : w.doc.m_undoStack = none)
    (hnodup : w.doc.m_items.Nodup) :
    (w.call c).doc.m_undoStack = none ∧ (w.call c).doc.m_items.Nodup := by
  cases c with
  | addItem X =>
    exact ⟨(addItem_undoStack w.doc X).trans hstack, addItem_nodup w.doc X hnodup⟩
  | removeItem X =>
    exact ⟨(removeItem_undoStack w.doc X).trans hstack,
      hnodup.sublist (removeItem_sublist w.doc X)⟩
  | clear => exact ⟨hstack, List.nodup_nil⟩
  | moveItemUp X =>
    obtain ⟨h1, h2, _⟩ := moveItemUp_rearranged w X hstack
    exact ⟨h2, h1.nodup_iff.mpr hnodup⟩
  | moveItemDown X =>
    obtain ⟨h1, h2, _⟩ := moveItemDown_rearranged w X hstack
    exact ⟨h2, h1.nodup_iff.mpr hnodup⟩
  | moveItemToTop X =>
    obtain ⟨h1, h2, _⟩ := moveItemToTop_rearranged w X hstack
    exact ⟨h2, h1.nodup_iff.mpr hnodup⟩
  | moveItemToBottom X =>
    obtain ⟨h1, h2, _⟩ := moveItemToBottom_rearranged w X hstack
    exact ⟨h2, h1.nodup_iff.mpr hnodup⟩

theorem foldl_call_nodup (calls : List ListCall) (w : World)
    (hstack : w.doc.m_undoStack = none) (hnodup : w.doc.m_items.Nodup) :
    (calls.foldl World.call w).doc.m_items.Nodup := by
  induction calls generalizing w with
  | nil => exact hnodup
  | cons c cs ih =>
    obtain ⟨h1, h2⟩ := call_nodup w c hstack hnodup
    exact ih (w.call c) h1 h2

/-- C30: in a document without undo stack whose item list holds no item twice, the list still
holds no item twice after `addItem`, `removeItem`, `clear`, `moveItemUp`, `moveItemDown`,
`moveItemToTop` or `moveItemToBottom`; every reorder call leaves a rearrangement of the list
(same length, same members); hence the list of every document reached from an empty one by
these calls holds no item twice. -/
theorem item_list_nodup (w : World) (hstack : w.doc.m_undoStack = none)
    (hnodup : w.doc.m_items.Nodup) :
    (∀ c : ListCall, (w.call c).doc.m_items.Nodup) ∧
      (∀ (X : ItemPtr) (r : World),
        r = (w.moveItemUp X).2 ∨ r = (w.moveItemDown X).2 ∨ r = (w.moveItemToTop X).2 ∨
            r = (w.moveItemToBottom X).2 →
          r.doc.m_items.length = w.doc.m_items.length ∧
            (∀ Y, Y ∈ r.doc.m_items ↔ Y ∈ w.doc.m_items) ∧
            r.doc.m_items.Perm w.doc.m_items) ∧
      (∀ (w₀ : World) (calls : List ListCall), w₀.doc.m_items = [] →
        w₀.doc.m_undoStack = none → (calls.foldl World.call w₀).doc.m_items.Nodup) := by
  refine ⟨fun c => (call_nodup w c hstack hnodup).2, ?_, ?_⟩
  · intro X r hr
    have hperm : r.doc.m_items.Perm w.doc.m_items := by
      rcases hr with rfl | rfl | rfl | rfl
      · exact (moveItemUp_rearranged w X hstack).1
      · exact (moveItemDown_rearranged w X hstack).1
      · exact (moveItemToTop_rearranged w X hstack).1
      · exact (moveItemToBottom_rearranged w X hstack).1
    exact ⟨hperm.length_eq, fun Y => hperm.mem_iff, hperm⟩
  · intro w₀ calls hempty hstack₀
    exact foldl_call_nodup calls w₀ hstack₀ (by rw [hempty]; exact List.nodup_nil)

/-- C30 at concrete inputs: on the document `[1, 2, 3]`, `addItem` of the item 2 already there
and `moveItemToTop` of the item 1; and from the empty document, adding 1, 2 and 1 again,
moving 1 up and removing 2. -/
theorem item_list_nodup_witness :
    (worldABC.call (.addItem 2)).doc.m_items.Nodup ∧
      (worldABC.moveItemToTop 1).2.doc.m_items.Perm worldABC.doc.m_items ∧
      (([.addItem 1, .addItem 2, .addItem 1, .moveItemUp 1, .removeItem 2] :
          List ListCall).foldl World.call {}).doc.m_items.Nodup :=
  ⟨(item_list_nodup worldABC rfl (by decide)).1 (.addItem 2),
    ((item_list_nodup worldABC rfl (by decide)).2.1 1 _ (Or.inr (Or.inr (Or.inl rfl)))).2.2,
    (item_list_nodup worldABC rfl (by decide)).2.2 {} _ rfl rfl⟩

end ListInvariant

section UniqueIds

theorem idsUnique_of_nodup (w : World) (h : w.itemIds.Nodup) : w.IdsUnique := by
  intro p hp q hq hne hid
  exact hne (List.inj_on_of_nodup_map h hp hq hid)

theorem itemIds_eq_typesAndIds (w : World) : w.itemIds = w.itemTypesAndIds.map Prod.snd := by
  simp [World.itemIds, World.itemTypesAndIds, List.map_map, Function.comp_def]

theorem idsUnique_of_rearranged (w r : World) (h : w.Rearranged r) (hunique : w.IdsUnique) :
    r.IdsUnique := by
  obtain ⟨hperm, _, hid⟩ := h
  intro p hp q hq hne
  rw [hid p, hid q]
  exact hunique p (hperm.mem_iff.mp hp) q (hperm.mem_iff.mp hq) hne

theorem addItem_idsUnique (w : World) (X : ItemPtr) (hunique : w.IdsUnique)
    (hfresh : X = nullptr ∨ X ∈ w.doc.m_items ∨
      ∀ q ∈ w.doc.m_items, (w.heap q).base.m_id ≠ (w.heap X).base.m_id) :
    (w.addItem X).IdsUnique := by
  by_cases h1 : X = nullptr
  · have : w.addItem X = w := by
      simp [World.addItem, LabelDocument.addItem, h1]
    rw [this]; exact hunique
  · by_cases h2 : X ∈ w.doc.m_items
    · have : w.addItem X = w := by
        simp [World.addItem, LabelDocument.addItem, h1, h2]
      rw [this]; exact hunique
    · have hf : ∀ q ∈ w.doc.m_items, (w.heap q).base.m_id ≠ (w.heap X).base.m_id := by
        rcases hfresh with h | h | h
        · exact absurd h h1
        · exact absurd h h2
        · exact h
      have hitems : (w.addItem X).doc.m_items = w.doc.m_items ++ [X] :=
        addItem_items_of_fresh w.doc X h1 h2
      intro p hp q hq hne
      rw [hitems, List.mem_append, List.mem_singleton] at hp hq
      show (w.heap p).base.m_id ≠ (w.heap q).base.m_id
      rcases hp with hp | hp <;> rcases hq with hq | hq
      · exact hunique p hp q hq hne
      · rw [hq]; exact hf p hp
      · rw [hp]; exact (hf q hq).symm
      · exact absurd (hp.trans hq.symm) hne

theorem removeItem_idsUnique (w : World) (X : ItemPtr) (hunique : w.IdsUnique) :
    (w.removeItem X).IdsUnique := by
  intro p hp q hq hne
  exact hunique p ((removeItem_sublist w.doc X).subset hp) q
    ((removeItem_sublist w.doc X).subset hq) hne

theorem setId_id (it : LabelItem ℚ) (id : String) : (it.setId id).m_id = id := by
  unfold LabelItem.setId
  split
  · assumption
  · rfl

theorem setId_idsUnique (w : World) (X : ItemPtr) (id : String) (hunique : w.IdsUnique)
    (hfresh : ∀ q ∈ w.doc.m_items, q ≠ X → (w.heap q).base.m_id ≠ id) :
    (w.setId X id).IdsUnique := by
  have hX : ((w.setId X id).heap X).base.m_id = id := by
    show (Function.update w.heap X _ X).base.m_id = id
    rw [Function.update_same, base_mapBase, setId_id]
  have hother : ∀ q, q ≠ X → ((w.setId X id).heap q).base.m_id = (w.heap q).base.m_id := by
    intro q hq
    show (Function.update w.heap X _ q).base.m_id = _
    rw [Function.update_noteq hq]
  intro p hp q hq hne
  have hp' : p ∈ w.doc.m_items := hp
  have hq' : q ∈ w.doc.m_items := hq
  by_cases h1 : p = X
  · have h2 : q ≠ X := fun h => hne (h1.trans h.symm)
    rw [h1, hX, hother q h2]
    exact (hfresh q hq' h2).symm
  · by_cases h2 : q = X
    · rw [h2, hX, hother p h1]
      exact hfresh p hp' h1
    · rw [hother p h1, hother q h2]
      exact hunique p hp' q hq' hne

theorem fromJson_itemIds (srv : Services) (w : World) (json : QJsonObject)
    (hversion : (json.value "version").toString "1.0" = "1.0") :
    (w.fromJson srv json).2.itemIds
      = (((json.value "items").toArray).filterMap recordTypeAndId).map Prod.snd := by
  rw [itemIds_eq_typesAndIds]
  congr 1
  unfold World.fromJson
  simp only [hversion, ne_eq, not_true_eq_false, if_false]
  have h := foldl_loadItem_typesAndIds srv ((json.value "items").toArray)
  simp only [World.itemTypesAndIds] at h ⊢
  simp only [LabelDocument.resetModified]
  rw [h _ (by simp [World.clear, LabelDocument.setModified])]
  simp [World.clear, LabelDocument.setModified]

theorem text_loadFromXml_id (srv : Services) (t : TextItem) (element : QDomElement)
    (htype : element.attributeValue "type" "" = "text") :
    (t.loadFromXml srv element).1 = true ∧
      (t.loadFromXml srv element).2.m_id = element.attributeValue "id" "" := by
  have h : ¬ (element.attributeValue "type" "" ≠ "text") := not_not.mpr htype
  unfold TextItem.loadFromXml
  simp only [h, if_false]
  refine ⟨trivial, ?_⟩
  split <;> split <;> split <;> rfl

theorem image_loadFromXml_id (srv : Services) (i : ImageItem) (element : QDomElement)
    (htype : element.attributeValue "type" "" = "image") :
    (i.loadFromXml srv element).1 = true ∧
      (i.loadFromXml srv element).2.m_id = element.attributeValue "id" "" := by
  have h : ¬ (element.attributeValue "type" "" ≠ "image") := not_not.mpr htype
  unfold ImageItem.loadFromXml
  simp only [h, if_false]
  refine ⟨trivial, ?_⟩
  split_ifs <;> (try split) <;> (try split_ifs) <;>
    simp only [setImage_id, setImagePath_id]

/-- Reading an element whose type names the class of the object succeeds and takes the id of
the element. -/
theorem loadFromXml_of_type (srv : Services) (o : ItemObject) (element : QDomElement)
    (htype : element.attributeValue "type" "" = o.typeName) :
    (o.loadFromXml srv element).1 = true ∧
      (o.loadFromXml srv element).2.typeName = o.typeName ∧
      (o.loadFromXml srv element).2.base.m_id = element.attributeValue "id" "" := by
  cases o with
  | text t =>
    obtain ⟨h1, h2⟩ := text_loadFromXml_id srv t element htype
    exact ⟨h1, rfl, h2⟩
  | image i =>
    obtain ⟨h1, h2⟩ := image_loadFromXml_id srv i element htype
    exact ⟨h1, rfl, h2⟩
  | barcode b =>
    simp [ItemObject.loadFromXml, BarcodeItem.loadFromXml, ItemObject.typeName,
      ItemObject.base] at htype ⊢
    simp [htype]
  | qrcode q =>
    simp [ItemObject.loadFromXml, QRCodeItem.loadFromXml, ItemObject.typeName,
      ItemObject.base] at htype ⊢
    simp [htype]

/-- One pass of the XML load loop: an element of known type adds one item with the element's
type and id at the end of the list; any other element adds nothing. -/
theorem loadItemFromXml_typesAndIds (srv : Services) (w : World) (element : QDomElement)
    (hfresh : ∀ p ∈ w.doc.m_items, p ≤ w.allocated) :
    (w.loadItemFromXml srv element).itemTypesAndIds
        = w.itemTypesAndIds ++ (elementTypeAndId element).toList ∧
      (∀ p ∈ (w.loadItemFromXml srv element).doc.m_items,
        p ≤ (w.loadItemFromXml srv element).allocated) := by
  have hnot : w.allocated + 1 ∉ w.doc.m_items := by
    intro h
    exact Nat.not_succ_le_self _ (hfresh _ h)
  cases hk : isKnownType (element.attributeValue "type" "") with
  | false =>
    have hnone := (createItemOfType_known srv (w.allocated + 1) _).2 hk
    have hres : w.loadItemFromXml srv element = w := by
      unfold World.loadItemFromXml
      simp only [hnone]
    rw [hres]
    exact ⟨by simp [elementTypeAndId, hk], hfresh⟩
  | true =>
    obtain ⟨o, hcreate, htype⟩ := (createItemOfType_known srv (w.allocated + 1) _).1 hk
    have h := loadFromXml_of_type srv o element htype.symm
    have hres : w.loadItemFromXml srv element =
        World.addItem { w with allocated := w.allocated + 1,
                               heap := Function.update w.heap (w.allocated + 1)
                                 (o.loadFromXml srv element).2 } (w.allocated + 1) := by
      unfold World.loadItemFromXml
      simp only [hcreate]
      rw [if_neg (by simp [h.1])]
    have hitems : (w.loadItemFromXml srv element).doc.m_items
        = w.doc.m_items ++ [w.allocated + 1] := by
      rw [hres]
      simp [World.addItem, LabelDocument.addItem, LabelDocument.setModified, nullptr, hnot]
    have hheap : (w.loadItemFromXml srv element).heap = Function.update w.heap (w.allocated + 1)
        (o.loadFromXml srv element).2 := by
      rw [hres]; rfl
    have halloc : (w.loadItemFromXml srv element).allocated = w.allocated + 1 := by
      rw [hres]; rfl
    constructor
    · unfold World.itemTypesAndIds
      rw [hitems, hheap, List.map_append]
      congr 1
      · apply List.map_congr_left
        intro p hp
        have := hfresh p hp
        rw [Function.update_noteq (Nat.ne_of_lt (Nat.lt_succ_of_le this))]
      · simp [elementTypeAndId, hk, h.2.1, h.2.2, htype]
    · intro p hp
      rw [hitems] at hp
      rw [halloc]
      rcases List.mem_append.mp hp with hp | hp
      · exact Nat.le_succ_of_le (hfresh p hp)
      · rw [List.mem_singleton] at hp
        exact le_of_eq hp

theorem foldl_loadItemFromXml_typesAndIds (srv : Services) (elements : List QDomElement)
    (w : World) (hfresh : ∀ p ∈ w.doc.m_items, p ≤ w.allocated) :
    (elements.foldl (World.loadItemFromXml srv) w).itemTypesAndIds
      = w.itemTypesAndIds ++ elements.filterMap elementTypeAndId := by
  induction elements generalizing w with
  | nil => simp
  | cons v vs ih =>
    obtain ⟨h1, h2⟩ := loadItemFromXml_typesAndIds srv w v hfresh
    rw [List.foldl_cons, ih _ h2, h1]
    cases hr : elementTypeAndId v <;> simp [List.filterMap_cons, hr]

theorem loadFromXml_itemIds (srv : Services) (w : World) (root itemsElement : QDomElement)
    (htag : root.tagName = "Label")
    (hitems : root.firstChildElement "Items" = some itemsElement) :
    (w.loadFromXml srv { readable := true, content := some root }).1 = true ∧
      (w.loadFromXml srv { readable := true, content := some root }).2.itemIds
        = ((itemsElement.childElements "Item").filterMap elementTypeAndId).map Prod.snd := by
  have ht : ¬ (root.tagName ≠ "Label") := not_not.mpr htag
  constructor
  · simp [World.loadFromXml, ht, World.loadItemsFromXml, hitems]
  · rw [itemIds_eq_typesAndIds]
    congr 1
    have h := foldl_loadItemFromXml_typesAndIds srv (itemsElement.childElements "Item")
    simp only [World.itemTypesAndIds] at h ⊢
    simp only [World.loadFromXml, ht, World.loadItemsFromXml, hitems, if_false,
      Bool.true_eq_false, LabelDocument.resetModified]
    rw [h _ (by simp [World.clear, LabelDocument.setModified])]
    simp [World.clear, LabelDocument.setModified]

/-- C22 as stated fails: `fromJson` on an items array with two text records of id `dup` gives
a list of two distinct items that both have the id `dup`; and `setId("i")` on the first item of
a document with the ids `t`, `i`, `b`, `q` leaves two items with the id `i`. -/
theorem ids_unique_counterexample :
    (({} : World).fromJson srvLogo [("items", .array twinItemsArray)]).1 = true ∧
      (({} : World).fromJson srvLogo [("items", .array twinItemsArray)]).2.doc.m_items
        = [1, 2] ∧
      (({} : World).fromJson srvLogo [("items", .array twinItemsArray)]).2.itemIds
        = ["dup", "dup"] ∧
      ¬ (({} : World).fromJson srvLogo [("items", .array twinItemsArray)]).2.IdsUnique ∧
      worldFourKinds.IdsUnique ∧
      (worldFourKinds.setId 1 "i").itemIds = ["i", "i", "b", "q"] ∧
      ¬ (worldFourKinds.setId 1 "i").IdsUnique := by
  have h1 : (({} : World).fromJson srvLogo [("items", .array twinItemsArray)]).2.doc.m_items
      = [1, 2] := by decide
  have h2 : (({} : World).fromJson srvLogo [("items", .array twinItemsArray)]).2.itemIds
      = ["dup", "dup"] := by decide
  have h3 : (worldFourKinds.setId 1 "i").itemIds = ["i", "i", "b", "q"] := by decide
  refine ⟨by decide, h1, h2, ?_, idsUnique_of_nodup _ (by decide), h3, ?_⟩
  · intro h
    have hid : ((({} : World).fromJson srvLogo [("items", .array twinItemsArray)]).2.heap
        1).base.m_id = ((({} : World).fromJson srvLogo
          [("items", .array twinItemsArray)]).2.heap 2).base.m_id := by decide
    exact h 1 (by rw [h1]; decide) 2 (by rw [h1]; decide) (by decide) hid
  · intro h
    have hid : ((worldFourKinds.setId 1 "i").heap 1).base.m_id
        = ((worldFourKinds.setId 1 "i").heap 2).base.m_id := by decide
    exact h 1 (by decide) 2 (by decide) (by decide) hid

/-- C22 (amended): in a document whose items have pairwise different ids, the ids stay
pairwise different after `addItem` of null, of an item already listed or of an item whose id
no listed item has; after `removeItem`; after each reorder call (no undo stack attached); and
after `setId(id)` on an item when no other listed item has that id. After a successful
`fromJson` or `loadFromXml` the ids are pairwise different when the ids of the records (or
`Item` elements) of known type are. -/
theorem ids_unique_preserved (w : World) (hunique : w.IdsUnique) :
    (∀ X : ItemPtr,
        (X = nullptr ∨ X ∈ w.doc.m_items ∨
          ∀ q ∈ w.doc.m_items, (w.heap q).base.m_id ≠ (w.heap X).base.m_id) →
        (w.addItem X).IdsUnique) ∧
      (∀ X : ItemPtr, (w.removeItem X).IdsUnique) ∧
      (w.doc.m_undoStack = none →
        ∀ X : ItemPtr, (w.moveItemUp X).2.IdsUnique ∧ (w.moveItemDown X).2.IdsUnique ∧
          (w.moveItemToTop X).2.IdsUnique ∧ (w.moveItemToBottom X).2.IdsUnique) ∧
      (∀ (X : ItemPtr) (id : String),
        (∀ q ∈ w.doc.m_items, q ≠ X → (w.heap q).base.m_id ≠ id) →
        (w.setId X id).IdsUnique) ∧
      (∀ (srv : Services) (json : QJsonObject),
        (json.value "version").toString "1.0" = "1.0" →
        ((((json.value "items").toArray).filterMap recordTypeAndId).map Prod.snd).Nodup →
        (w.fromJson srv json).1 = true ∧ (w.fromJson srv json).2.IdsUnique) ∧
      (∀ (srv : Services) (root itemsElement : QDomElement),
        root.tagName = "Label" → root.firstChildElement "Items" = some itemsElement →
        (((itemsElement.childElements "Item").filterMap elementTypeAndId).map Prod.snd).Nodup →
        (w.loadFromXml srv { readable := true, content := some root }).1 = true ∧
          (w.loadFromXml srv { readable := true, content := some root }).2.IdsUnique) := by
  refine ⟨fun X h => addItem_idsUnique w X hunique h, fun X => removeItem_idsUnique w X hunique,
    fun hstack X => ⟨?_, ?_, ?_, ?_⟩, fun X id h => setId_idsUnique w X id hunique h, ?_, ?_⟩
  · exact idsUnique_of_rearranged w _ (moveItemUp_rearranged w X hstack) hunique
  · exact idsUnique_of_rearranged w _ (moveItemDown_rearranged w X hstack) hunique
  · exact idsUnique_of_rearranged w _ (moveItemToTop_rearranged w X hstack) hunique
  · exact idsUnique_of_rearranged w _ (moveItemToBottom_rearranged w X hstack) hunique
  · intro srv json hversion hnodup
    refine ⟨?_, idsUnique_of_nodup _ (by rw [fromJson_itemIds srv w json hversion]; exact hnodup)⟩
    have hv : ¬ ((json.value "version").toString "1.0" ≠ "1.0") := not_not.mpr hversion
    simp [World.fromJson, hv]
  · intro srv root itemsElement htag hitems hnodup
    obtain ⟨h1, h2⟩ := loadFromXml_itemIds srv w root itemsElement htag hitems
    exact ⟨h1, idsUnique_of_nodup _ (by rw [h2]; exact hnodup)⟩

/-- C22 (amended) at concrete inputs: the document with the ids `t`, `i`, `b`, `q`, after
`removeItem` of its second item, after `moveItemToTop` of its first item, and after renaming
its first item to `x`. -/
theorem ids_unique_preserved_witness :
    (worldFourKinds.removeItem 2).IdsUnique ∧ (worldFourKinds.moveItemToTop 1).2.IdsUnique ∧
      (worldFourKinds.setId 1 "x").IdsUnique :=
  ⟨(ids_unique_preserved worldFourKinds (idsUnique_of_nodup _ (by decide))).2.1 2,
    ((ids_unique_preserved worldFourKinds (idsUnique_of_nodup _ (by decide))).2.2.1 rfl 1).2.2.1,
    (ids_unique_preserved worldFourKinds (idsUnique_of_nodup _ (by decide))).2.2.2.1 1 "x"
      (by decide)⟩

end UniqueIds

section BoundingBox

/-- The rect that `boundingRect` starts from: the item's rect with 12 units added on every
side. -/
theorem boundingRect_of_unrotated {K : Type} [LinearOrderedField K] (qSqrt : K → K)
    (it : LabelItem K) (h : it.m_rotation = 0) :
    it.boundingRect qSqrt
      = ⟨it.m_rect.xp - 12, it.m_rect.yp - 12, it.m_rect.w + 24, it.m_rect.h + 24⟩ := by
  have h0 : ¬ (it.m_rotation ≠ 0) := not_not.mpr h
  simp only [LabelItem.boundingRect, h0, if_false, QRectF.adjusted, HandleSize, HandleSpace]
  norm_num
  refine ⟨by ring, by ring, by ring, by ring⟩

theorem boundingRect_of_rotated {K : Type} [LinearOrderedField K] (qSqrt : K → K)
    (it : LabelItem K) (h : it.m_rotation ≠ 0) :
    it.boundingRect qSqrt
      = ⟨-qSqrt ((it.m_rect.w + 24) * (it.m_rect.w + 24)
            + (it.m_rect.h + 24) * (it.m_rect.h + 24)) / 2,
          -qSqrt ((it.m_rect.w + 24) * (it.m_rect.w + 24)
            + (it.m_rect.h + 24) * (it.m_rect.h + 24)) / 2,
          qSqrt ((it.m_rect.w + 24) * (it.m_rect.w + 24)
            + (it.m_rect.h + 24) * (it.m_rect.h + 24)),
          qSqrt ((it.m_rect.w + 24) * (it.m_rect.w + 24)
            + (it.m_rect.h + 24) * (it.m_rect.h + 24))⟩ := by
  have e1 : it.m_rect.w + ((8 + 4 : Int) : K) - -((8 + 4 : Int) : K) = it.m_rect.w + 24 := by
    push_cast; ring
  have e2 : it.m_rect.h + ((8 + 4 : Int) : K) - -((8 + 4 : Int) : K) = it.m_rect.h + 24 := by
    push_cast; ring
  simp only [LabelItem.boundingRect, h, if_true, QRectF.adjusted, HandleSize, HandleSpace,
    ne_eq, not_false_eq_true, e1, e2]

/-- C23 as stated fails: for the rect `(100, 100, 6, 16)` with rotation 90, `boundingRect()` is
the square `(-25, -25, 50, 50)`: its side 50 is the diagonal of the inflated 30 x 40 rect, not
the diagonal of the 6 x 16 rect, and its centre is the origin, not the rect's centre
`(103, 108)`. -/
theorem boundingRect_rotated_counterexample :
    ({ m_rect := ⟨100, 100, 6, 16⟩, m_rotation := 90 } : LabelItem ℝ).boundingRect Real.sqrt
        = ⟨-25, -25, 50, 50⟩ ∧
      (50 : ℝ) * 50 ≠ 6 * 6 + 16 * 16 ∧
      (⟨-25, -25, 50, 50⟩ : QRectF ℝ).center = ⟨0, 0⟩ ∧
      (⟨100, 100, 6, 16⟩ : QRectF ℝ).center = ⟨103, 108⟩ := by
  have hs : Real.sqrt ((6 + 24) * (6 + 24) + (16 + 24) * (16 + 24)) = 50 := by
    rw [show ((6 : ℝ) + 24) * (6 + 24) + (16 + 24) * (16 + 24) = 50 * 50 by norm_num]
    exact Real.sqrt_mul_self (by norm_num)
  refine ⟨?_, by norm_num, ?_, ?_⟩
  · rw [boundingRect_of_rotated Real.sqrt _ (by norm_num)]
    simp only [hs]
    norm_num
  · simp only [QRectF.center]; norm_num
  · simp only [QRectF.center]; norm_num

/-- C23 (amended): for an item with rotation 0, `boundingRect()` is the item's rect inflated on
all four sides by 12 units; for an item with non-zero rotation it is a square whose side is
the diagonal of that inflated rect (width + 24 by height + 24). -/
theorem boundingRect_contract (it : LabelItem ℝ) :
    (it.m_rotation = 0 →
        it.boundingRect Real.sqrt
          = ⟨it.m_rect.xp - 12, it.m_rect.yp - 12, it.m_rect.w + 24, it.m_rect.h + 24⟩) ∧
      (it.m_rotation ≠ 0 →
        (it.boundingRect Real.sqrt).w = (it.boundingRect Real.sqrt).h ∧
          (it.boundingRect Real.sqrt).w
            = Real.sqrt ((it.m_rect.w + 24) ^ 2 + (it.m_rect.h + 24) ^ 2) ∧
          0 ≤ (it.boundingRect Real.sqrt).w ∧
          (it.boundingRect Real.sqrt).w ^ 2
            = (it.m_rect.w + 24) ^ 2 + (it.m_rect.h + 24) ^ 2) := by
  refine ⟨boundingRect_of_unrotated Real.sqrt it, fun h => ?_⟩
  rw [boundingRect_of_rotated Real.sqrt it h]
  have e : (it.m_rect.w + 24) * (it.m_rect.w + 24) + (it.m_rect.h + 24) * (it.m_rect.h + 24)
      = (it.m_rect.w + 24) ^ 2 + (it.m_rect.h + 24) ^ 2 := by ring
  simp only [e]
  exact ⟨trivial, trivial, Real.sqrt_nonneg _, Real.sq_sqrt (by positivity)⟩

/-- C23 (amended) at concrete inputs: the default rect `(0, 0, 100, 50)` unrotated, and the
rect `(0, 0, 6, 16)` with rotation 90. -/
theorem boundingRect_contract_witness :
    ({ m_rect := ⟨0, 0, 100, 50⟩ } : LabelItem ℝ).boundingRect Real.sqrt
        = ⟨0 - 12, 0 - 12, 100 + 24, 50 + 24⟩ ∧
      (({ m_rect := ⟨0, 0, 6, 16⟩, m_rotation := 90 } : LabelItem ℝ).boundingRect Real.sqrt).w ^ 2
        = (6 + 24) ^ 2 + (16 + 24) ^ 2 :=
  ⟨(boundingRect_contract { m_rect := ⟨0, 0, 100, 50⟩ }).1 rfl,
    ((boundingRect_contract { m_rect := ⟨0, 0, 6, 16⟩, m_rotation := 90 }).2
      (by norm_num)).2.2.2⟩

end BoundingBox

section Gesture

theorem deliver_doc (w : World) (item : ItemPtr) (handler : LabelItem ℚ → LabelItem ℚ) :
    (w.deliver item handler).doc = w.doc := rfl

theorem foldl_deliver_doc (handler : ItemPtr → LabelItem ℚ → LabelItem ℚ)
    (items : List ItemPtr) (w : World) :
    (items.foldl (fun w p => w.deliver p (handler p)) w).doc = w.doc := by
  induction items generalizing w with
  | nil => rfl
  | cons p ps ih => rw [List.foldl_cons, ih, deliver_doc]

theorem mouseMoveEvent_doc (qRound : ℚ → Int) (qAtan2 : ℚ → ℚ → ℚ) (M_PI : ℚ)
    (v : LabelEditView) (w : World) (item : ItemPtr) (pos : QPointF ℚ) :
    (LabelEditView.mouseMoveEvent qRound qAtan2 M_PI v w item pos).2.doc = w.doc := by
  unfold LabelEditView.mouseMoveEvent
  split
  · exact foldl_deliver_doc _ _ w
  · rfl

theorem foldl_mouseMoveEvent_doc (qRound : ℚ → Int) (qAtan2 : ℚ → ℚ → ℚ) (M_PI : ℚ)
    (item : ItemPtr) (moves : List (QPointF ℚ)) (s : LabelEditView × World) :
    (moves.foldl
      (fun s pos => LabelEditView.mouseMoveEvent qRound qAtan2 M_PI s.1 s.2 item pos) s).2.doc
      = s.2.doc := by
  induction moves generalizing s with
  | nil => rfl
  | cons p ps ih => rw [List.foldl_cons, ih, mouseMoveEvent_doc]

theorem pointerGesture_doc (qCos qSin : ℚ → ℚ) (qRound : ℚ → Int) (qAtan2 : ℚ → ℚ → ℚ)
    (M_PI : ℚ) (v : LabelEditView) (w : World) (item : ItemPtr) (pressPos : QPointF ℚ)
    (moves : List (QPointF ℚ)) :
    (LabelEditView.pointerGesture qCos qSin qRound qAtan2 M_PI v w item pressPos moves).2.doc
      = w.doc := by
  unfold LabelEditView.pointerGesture LabelEditView.mouseReleaseEvent
  simp only [deliver_doc, foldl_mouseMoveEvent_doc]
  rfl

/-- C24, evaluated: a pointer gesture leaves the document, and with it the undo history, as
they were, whatever the press, the moves and the view settings. With grid snapping off, the
selected 20 x 20 item pressed on its bottom-right handle, dragged to `(40, 40)` and released
has the rect `(0, 0, 40, 40)`, the history is still empty and `undo()` leaves the rect
`(0, 0, 40, 40)`; with grid snapping on (the default) a drag from `(10, 10)` to `(30, 10)` moves
the item to `(20, 0)` and the history is empty as well. -/
theorem pointerGesture_pushes_no_command :
    (∀ (qCos qSin : ℚ → ℚ) (qRound : ℚ → Int) (qAtan2 : ℚ → ℚ → ℚ) (M_PI : ℚ)
        (v : LabelEditView) (w : World) (item : ItemPtr) (pressPos : QPointF ℚ)
        (moves : List (QPointF ℚ)),
        (LabelEditView.pointerGesture qCos qSin qRound qAtan2 M_PI v w item pressPos
          moves).2.doc = w.doc) ∧
      ((worldSquare.heap 1).base.m_rect = ⟨0, 0, 20, 20⟩ ∧
        worldSquare.doc.m_undoStack.map (fun st => st.commands.length) = some 0 ∧
        ((LabelEditView.pointerGesture (fun _ => 0) (fun _ => 0) (fun _ => 0) (fun _ _ => 0) 1
            { m_snapToGrid := false } worldSquare 1 ⟨20, 20⟩ [⟨40, 40⟩]).2.heap 1).base.m_rect
          = ⟨0, 0, 40, 40⟩ ∧
        (LabelEditView.pointerGesture (fun _ => 0) (fun _ => 0) (fun _ => 0) (fun _ _ => 0) 1
            { m_snapToGrid := false } worldSquare 1 ⟨20, 20⟩
            [⟨40, 40⟩]).2.doc.m_undoStack.map (fun st => st.commands.length) = some 0 ∧
        ((LabelEditView.pointerGesture (fun _ => 0) (fun _ => 0) (fun _ => 0) (fun _ _ => 0) 1
            { m_snapToGrid := false } worldSquare 1 ⟨20, 20⟩
            [⟨40, 40⟩]).2.undo.heap 1).base.m_rect = ⟨0, 0, 40, 40⟩ ∧
        ((LabelEditView.pointerGesture (fun _ => 0) (fun _ => 0) (fun x => ⌊x + 1 / 2⌋)
            (fun _ _ => 0) 1 {} worldSquare 1 ⟨10, 10⟩ [⟨30, 10⟩]).2.heap 1).base.m_rect
          = ⟨20, 0, 20, 20⟩ ∧
        (LabelEditView.pointerGesture (fun _ => 0) (fun _ => 0) (fun x => ⌊x + 1 / 2⌋)
            (fun _ _ => 0) 1 {} worldSquare 1 ⟨10, 10⟩
            [⟨30, 10⟩]).2.doc.m_undoStack.map (fun st => st.commands.length) = some 0) := by
  have hresize : ((LabelEditView.pointerGesture (fun _ => 0) (fun _ => 0) (fun _ => 0)
      (fun _ _ => 0) 1 { m_snapToGrid := false } worldSquare 1 ⟨20, 20⟩
      [⟨40, 40⟩]).2.heap 1).base.m_rect = ⟨0, 0, 40, 40⟩ := by
    norm_num [LabelEditView.pointerGesture, LabelEditView.mousePressEvent,
      LabelEditView.mouseMoveEvent, LabelEditView.mouseReleaseEvent, World.deliver,
      worldSquare, ItemObject.mapBase, ItemObject.base, LabelItem.mousePressEvent,
      LabelItem.mouseMoveEvent, LabelItem.mouseReleaseEvent, LabelItem.handleAtPosition,
      handleSquare, QRectF.contains, firstHandleContaining, LabelItem.resizeHandles,
      resizeCandidate, HandleSize, RotateHandleDistance, HandleRotate, HandleTopLeft,
      HandleTopMiddle, HandleTopRight, HandleMiddleLeft, HandleMiddleRight, HandleBottomLeft,
      HandleBottomMiddle, HandleBottomRight, QRectF.center, QRectF.top, QRectF.left,
      QRectF.right, QRectF.bottom, QRectF.topLeft, QRectF.topRight, QRectF.bottomLeft,
      QRectF.bottomRight, QRectF.setBottomRight, QRectF.setRight, QRectF.setBottom,
      QPointF.add, QPointF.sub]
  have hfloor1 : ⌊(2 : ℚ) + 1 / 2⌋ = 2 := by
    rw [Int.floor_eq_iff]; constructor <;> norm_num
  have hfloor0 : ⌊(1 : ℚ) / 2⌋ = 0 := by
    rw [Int.floor_eq_iff]; constructor <;> norm_num
  refine ⟨pointerGesture_doc, rfl, rfl, hresize, rfl, ?_, ?_, rfl⟩
  · have hstack : (LabelEditView.pointerGesture (fun _ => 0) (fun _ => 0) (fun _ => 0)
        (fun _ _ => 0) 1 { m_snapToGrid := false } worldSquare 1 ⟨20, 20⟩
        [⟨40, 40⟩]).2.doc.m_undoStack = some { undoLimit := 50 } := rfl
    have hundo : (LabelEditView.pointerGesture (fun _ => 0) (fun _ => 0) (fun _ => 0)
        (fun _ _ => 0) 1 { m_snapToGrid := false } worldSquare 1 ⟨20, 20⟩ [⟨40, 40⟩]).2.undo
        = (LabelEditView.pointerGesture (fun _ => 0) (fun _ => 0) (fun _ => 0)
          (fun _ _ => 0) 1 { m_snapToGrid := false } worldSquare 1 ⟨20, 20⟩ [⟨40, 40⟩]).2 := by
      unfold World.undo
      rw [hstack]
      rfl
    rw [hundo, hresize]
  · norm_num [LabelEditView.pointerGesture, LabelEditView.mousePressEvent,
      LabelEditView.mouseMoveEvent, LabelEditView.mouseReleaseEvent, World.deliver,
      LabelEditView.selectedItems,
      worldSquare, ItemObject.mapBase, ItemObject.base, LabelItem.mousePressEvent,
      LabelItem.mouseMoveEvent, LabelItem.mouseReleaseEvent, LabelItem.handleAtPosition,
      LabelItem.setPosition, LabelItem.position, QRectF.moveTopLeft,
      handleSquare, QRectF.contains, firstHandleContaining, LabelItem.resizeHandles,
      resizeCandidate, HandleSize, RotateHandleDistance, HandleRotate, HandleTopLeft,
      HandleTopMiddle, HandleTopRight, HandleMiddleLeft, HandleMiddleRight, HandleBottomLeft,
      HandleBottomMiddle, HandleBottomRight, QRectF.center, QRectF.top, QRectF.left,
      QRectF.right, QRectF.bottom, QRectF.topLeft, QRectF.topRight, QRectF.bottomLeft,
      QRectF.bottomRight, QPointF.add, QPointF.sub, hfloor1, hfloor0]

end Gesture

section ResizeEdges

/-- The edges of the candidate rect of a resize handle. -/
theorem resizeCandidate_edges {K : Type} [LinearOrderedField K] (handle : Int)
    (rect : QRectF K) (delta : QPointF K) (hhandle : 0 ≤ handle ∧ handle ≤ 7) :
    (resizeCandidate handle rect delta).left
        = rect.left + (if handleMovesLeft handle = true then delta.xp else 0) ∧
      (resizeCandidate handle rect delta).right
        = rect.right + (if handleMovesRight handle = true then delta.xp else 0) ∧
      (resizeCandidate handle rect delta).top
        = rect.top + (if handleMovesTop handle = true then delta.yp else 0) ∧
      (resizeCandidate handle rect delta).bottom
        = rect.bottom + (if handleMovesBottom handle = true then delta.yp else 0) := by
  obtain ⟨h0, h7⟩ := hhandle
  interval_cases handle <;>
    simp [resizeCandidate, handleMovesLeft, handleMovesRight, handleMovesTop,
      handleMovesBottom, HandleTopLeft, HandleTopMiddle, HandleTopRight, HandleMiddleLeft,
      HandleMiddleRight, HandleBottomLeft, HandleBottomMiddle, HandleBottomRight,
      QRectF.setTopLeft, QRectF.setTopRight, QRectF.setBottomLeft, QRectF.setBottomRight,
      QRectF.setLeft, QRectF.setRight, QRectF.setTop, QRectF.setBottom, QRectF.left,
      QRectF.right, QRectF.top, QRectF.bottom, QRectF.topLeft, QRectF.topRight,
      QRectF.bottomLeft, QRectF.bottomRight, QPointF.add]

/-- C25: for an unlocked item dragged by one of the eight resize handles, a pointer move by
`delta` whose candidate rect is accepted (width and height at least 10) moves the left edge by
`delta.x` exactly when the handle is a left handle, the right edge by `delta.x` exactly when it
is a right handle, the top edge by `delta.y` exactly when it is a top handle and the bottom
edge by `delta.y` exactly when it is a bottom handle; every other edge keeps its coordinate and
the rotation is unchanged. -/
theorem resize_moves_named_edges {K : Type} [LinearOrderedField K] [FloorRing K]
    (qAtan2 : K → K → K) (M_PI : K) (it : LabelItem K) (pos : QPointF K)
    (hunlocked : it.m_locked = false) (hdrag : it.m_dragging = true)
    (hhandle : 0 ≤ it.m_activeHandle ∧ it.m_activeHandle ≤ 7)
    (haccepted : 10 ≤ (resizeCandidate it.m_activeHandle it.m_rect (pos.sub it.m_lastPos)).w ∧
      10 ≤ (resizeCandidate it.m_activeHandle it.m_rect (pos.sub it.m_lastPos)).h) :
    (it.mouseMoveEvent qAtan2 M_PI pos).m_rect.left
        = it.m_rect.left
          + (if handleMovesLeft it.m_activeHandle = true then (pos.sub it.m_lastPos).xp else 0) ∧
      (it.mouseMoveEvent qAtan2 M_PI pos).m_rect.right
        = it.m_rect.right
          + (if handleMovesRight it.m_activeHandle = true then (pos.sub it.m_lastPos).xp
            else 0) ∧
      (it.mouseMoveEvent qAtan2 M_PI pos).m_rect.top
        = it.m_rect.top
          + (if handleMovesTop it.m_activeHandle = true then (pos.sub it.m_lastPos).yp else 0) ∧
      (it.mouseMoveEvent qAtan2 M_PI pos).m_rect.bottom
        = it.m_rect.bottom
          + (if handleMovesBottom it.m_activeHandle = true then (pos.sub it.m_lastPos).yp
            else 0) ∧
      (it.mouseMoveEvent qAtan2 M_PI pos).m_rotation = it.m_rotation := by
  obtain ⟨hrect, hrot⟩ := mouseMoveEvent_resize qAtan2 M_PI it pos hunlocked hdrag hhandle
  rw [hrect, if_pos haccepted]
  obtain ⟨h1, h2, h3, h4⟩ :=
    resizeCandidate_edges it.m_activeHandle it.m_rect (pos.sub it.m_lastPos) hhandle
  exact ⟨h1, h2, h3, h4, hrot⟩

/-- C25 at a concrete input: the 20 x 20 item dragged by its bottom-right handle from
(20, 20) to (30, 25): the right edge moves by 10, the bottom edge by 5, left and top stay. -/
theorem resize_moves_named_edges_witness :
    (draggedSquare.mouseMoveEvent (fun _ _ => 0) 1 ⟨30, 25⟩).m_rect.left = 0 + 0 ∧
      (draggedSquare.mouseMoveEvent (fun _ _ => 0) 1 ⟨30, 25⟩).m_rect.right
        = (0 + 20) + (30 - 20) ∧
      (draggedSquare.mouseMoveEvent (fun _ _ => 0) 1 ⟨30, 25⟩).m_rect.top = 0 + 0 ∧
      (draggedSquare.mouseMoveEvent (fun _ _ => 0) 1 ⟨30, 25⟩).m_rect.bottom
        = (0 + 20) + (25 - 20) ∧
      (draggedSquare.mouseMoveEvent (fun _ _ => 0) 1 ⟨30, 25⟩).m_rotation = 0 :=
  resize_moves_named_edges (fun _ _ => 0) 1 draggedSquare ⟨30, 25⟩ rfl rfl (by decide)
    (by
      norm_num [draggedSquare, resizeCandidate, HandleBottomRight, HandleTopLeft,
        HandleTopMiddle, HandleTopRight, HandleMiddleLeft, HandleMiddleRight, HandleBottomLeft,
        HandleBottomMiddle, QRectF.setBottomRight, QRectF.setRight, QRectF.setBottom,
        QRectF.bottomRight, QPointF.add, QPointF.sub])

end ResizeEdges

section Handles

variable {K : Type} [LinearOrderedField K]

end Handles

section GeometryCommands

variable {K : Type} [LinearOrderedField K] [FloorRing K]

end GeometryCommands

section TextStyle

theorem toInt_double_intCast (n defaultValue : Int) (h0 : -2147483648 ≤ n)
    (h1 : n ≤ 2147483647) : (QJsonValue.double (n : ℚ)).toInt defaultValue = n := by
  simp [QJsonValue.toInt, h0, h1]

theorem hexValue_hexDigit (n : Nat) (h : n < 16) :
    QColor.hexValue (QColor.hexDigit n) = some n := by
  interval_cases n <;> decide

theorem pairValue_hexPair (n : Nat) (h : n < 256) :
    QColor.pairValue (QColor.hexDigit (n / 16 % 16)) (QColor.hexDigit (n % 16)) = some n := by
  have h1 : n / 16 % 16 < 16 := Nat.mod_lt _ (by norm_num)
  have h2 : n % 16 < 16 := Nat.mod_lt _ (by norm_num)
  simp only [QColor.pairValue, hexValue_hexDigit _ h1, hexValue_hexDigit _ h2]
  congr 1
  omega

/-- The name of a colour never reads as `transparent`, and reads back as an opaque colour:
`QColor::name()` writes no alpha channel. -/
theorem fromString_name_alpha (c : QColor) : (QColor.fromString c.name).alpha = 255 := by
  have hne : c.name ≠ "transparent" := by
    intro h
    have h2 := congrArg (fun s => s.toList.head?) h
    simp [QColor.name] at h2
  unfold QColor.fromString
  rw [if_neg hne]
  simp only [QColor.name, QColor.hexPair, List.cons_append, List.nil_append, String.toList,
    if_true]
  split <;> rfl

/-- A colour with channels below 256 reads back from its name with the same red, green and
blue, valid and opaque. -/
theorem fromString_name (c : QColor) (hr : c.red < 256) (hg : c.green < 256)
    (hb : c.blue < 256) :
    QColor.fromString c.name = { red := c.red, green := c.green, blue := c.blue } := by
  have hne : c.name ≠ "transparent" := by
    intro h
    have h2 := congrArg (fun s => s.toList.head?) h
    simp [QColor.name] at h2
  unfold QColor.fromString
  rw [if_neg hne]
  simp only [QColor.name, QColor.hexPair, List.cons_append, List.nil_append, String.toList,
    if_true, pairValue_hexPair _ hr, pairValue_hexPair _ hg, pairValue_hexPair _ hb]

set_option maxHeartbeats 1600000 in
/-- What `TextItem::fromJson` reads back from `TextItem::toJson` in the text, colour and
format members. -/
theorem text_fromJson_toJson_style (t₀ t : TextItem) :
    (TextItem.fromJson t₀ t.toJson).2.m_text = t.m_text ∧
      (TextItem.fromJson t₀ t.toJson).2.m_textColor = QColor.fromString t.m_textColor.name ∧
      (TextItem.fromJson t₀ t.toJson).2.m_backgroundColor
        = QColor.fromString t.m_backgroundColor.name ∧
      (TextItem.fromJson t₀ t.toJson).2.m_borderColor
        = QColor.fromString t.m_borderColor.name ∧
      (TextItem.fromJson t₀ t.toJson).2.m_alignment
        = (QJsonValue.double (t.m_alignment : ℚ)).toInt 1 ∧
      (TextItem.fromJson t₀ t.toJson).2.m_wordWrap = t.m_wordWrap ∧
      (TextItem.fromJson t₀ t.toJson).2.m_borderWidth
        = (QJsonValue.double (t.m_borderWidth : ℚ)).toInt 0 := by
  have htype : (t.toJson.value "type").toString "" = "text" := by
    simp [TextItem.toJson, value_insert_same, value_insert_ne, QJsonValue.toString]
  have h : ¬ ((t.toJson.value "type").toString "" ≠ "text") := not_not.mpr htype
  have hc : (t.toJson.value "colors").toObject
      = [("text", .string t.m_textColor.name), ("background", .string t.m_backgroundColor.name),
        ("border", .string t.m_borderColor.name)] := by
    simp [TextItem.toJson, value_insert_same, value_insert_ne, QJsonValue.toObject]
    simp [QJsonObject.insert]
  have hf : (t.toJson.value "format").toObject
      = [("alignment", .double (t.m_alignment : ℚ)), ("wordWrap", .bool t.m_wordWrap),
        ("borderWidth", .double (t.m_borderWidth : ℚ))] := by
    simp [TextItem.toJson, value_insert_same, value_insert_ne, QJsonValue.toObject]
    simp [QJsonObject.insert]
  have ht : (t.toJson.value "text").toString "" = t.m_text := by
    simp [TextItem.toJson, value_insert_same, value_insert_ne, QJsonValue.toString]
  unfold TextItem.fromJson
  simp only [h, if_false, hc, hf, ht]
  simp [QJsonObject.value, QJsonValue.toString, QJsonValue.toBool]

/-- C28, evaluated: `fromJson(toJson(t))` returns true and gives back the text, the word-wrap
flag, and (for values in the range of `int`) the alignment and the border width; a colour
with channels below 256 comes back with the same red, green and blue but always opaque, so
the background of every item reads back with alpha 255: the default item, whose background is
`Qt::transparent`, comes back with the background opaque black. -/
theorem text_fromJson_toJson_background :
    (∀ t₀ t : TextItem,
        (TextItem.fromJson t₀ t.toJson).1 = true ∧
          (TextItem.fromJson t₀ t.toJson).2.m_text = t.m_text ∧
          (TextItem.fromJson t₀ t.toJson).2.m_wordWrap = t.m_wordWrap ∧
          (-2147483648 ≤ t.m_alignment → t.m_alignment ≤ 2147483647 →
            (TextItem.fromJson t₀ t.toJson).2.m_alignment = t.m_alignment) ∧
          (-2147483648 ≤ t.m_borderWidth → t.m_borderWidth ≤ 2147483647 →
            (TextItem.fromJson t₀ t.toJson).2.m_borderWidth = t.m_borderWidth) ∧
          (TextItem.fromJson t₀ t.toJson).2.m_textColor
            = QColor.fromString t.m_textColor.name ∧
          (TextItem.fromJson t₀ t.toJson).2.m_borderColor
            = QColor.fromString t.m_borderColor.name ∧
          (TextItem.fromJson t₀ t.toJson).2.m_backgroundColor
            = QColor.fromString t.m_backgroundColor.name ∧
          (TextItem.fromJson t₀ t.toJson).2.m_backgroundColor.alpha = 255) ∧
      (∀ c : QColor, c.red < 256 → c.green < 256 → c.blue < 256 →
        QColor.fromString c.name = { red := c.red, green := c.green, blue := c.blue }) ∧
      (({} : TextItem).m_backgroundColor = QColor.transparent ∧
        QColor.transparent.alpha = 0 ∧
        (TextItem.fromJson {} ({} : TextItem).toJson).2.m_backgroundColor = QColor.black ∧
        (TextItem.fromJson {} ({} : TextItem).toJson).2.m_backgroundColor
          ≠ ({} : TextItem).m_backgroundColor) := by
  have hbg : (TextItem.fromJson {} ({} : TextItem).toJson).2.m_backgroundColor
      = QColor.black := by
    rw [(text_fromJson_toJson_style {} {}).2.2.1,
      fromString_name _ (by decide) (by decide) (by decide)]
    rfl
  refine ⟨fun t₀ t => ?_, fromString_name, rfl, rfl, hbg, ?_⟩
  · obtain ⟨h1, h2, h3, h4, h5, h6, h7⟩ := text_fromJson_toJson_style t₀ t
    refine ⟨(text_fromJson_toJson t₀ t).1, h1, h6, ?_, ?_, h2, h4, h3, ?_⟩
    · intro h0 hmax
      rw [h5, toInt_double_intCast _ _ h0 hmax]
    · intro h0 hmax
      rw [h7, toInt_double_intCast _ _ h0 hmax]
    · rw [h3, fromString_name_alpha]
  · rw [hbg]
    decide

end TextStyle

section BarcodeData

open BarcodeItem

/-- The default data `setType` falls back to is valid for its type, as soon as `QChar::isDigit`
accepts the ten ASCII digits. -/
theorem validateData_defaultData (qIsDigit : Char → Bool)
    (hdigits : ∀ c ∈ "0123456789".toList, qIsDigit c = true) (type : BarcodeType) :
    validateData qIsDigit (defaultData type) type = true := by
  have h : ∀ c ∈ "0123456789".toList, (!qIsDigit c) = false := by
    intro c hc
    rw [hdigits c hc]
    rfl
  simp only [String.toList, List.mem_cons, List.mem_singleton, List.not_mem_nil, or_false,
    forall_eq_or_imp, forall_eq] at h
  obtain ⟨h0, h1, h2, h3, h4, h5, h6, h7, h8, h9⟩ := h
  cases type <;>
    simp [validateData, defaultData, String.isEmpty, String.length, List.any, h0, h1, h2, h3,
      h4, h5, h6, h7, h8, h9] <;>
    decide

/-- C29: for a barcode item whose data is valid for its type, the data is still valid for the
type after `setData(d)` (an invalid `d` leaves the data as it was) and after `setType(t)` (the
type becomes `t`; data that is invalid for `t` is replaced by the default data of `t`, which is
valid for `t`; valid data is kept). `QChar::isDigit` is any test that accepts the ten ASCII
digits. -/
theorem validateData_preserved (qIsDigit : Char → Bool) (b : BarcodeItem)
    (hdigits : ∀ c ∈ "0123456789".toList, qIsDigit c = true)
    (hvalid : validateData qIsDigit b.m_data b.m_type = true) :
    (∀ d : String,
        validateData qIsDigit (b.setData qIsDigit d).m_data (b.setData qIsDigit d).m_type
            = true ∧
          (b.setData qIsDigit d).m_type = b.m_type ∧
          (validateData qIsDigit d b.m_type = false →
            (b.setData qIsDigit d).m_data = b.m_data) ∧
          (validateData qIsDigit d b.m_type = true → (b.setData qIsDigit d).m_data = d)) ∧
      (∀ t : BarcodeType,
        validateData qIsDigit (b.setType qIsDigit t).m_data (b.setType qIsDigit t).m_type
            = true ∧
          (b.setType qIsDigit t).m_type = t ∧
          (validateData qIsDigit b.m_data t = false →
            (b.setType qIsDigit t).m_data = defaultData t) ∧
          (validateData qIsDigit b.m_data t = true →
            (b.setType qIsDigit t).m_data = b.m_data)) := by
  constructor
  · intro d
    unfold BarcodeItem.setData
    by_cases h1 : b.m_data = d
    · rw [if_pos h1]
      exact ⟨hvalid, rfl, fun _ => rfl, fun _ => h1⟩
    · rw [if_neg h1]
      by_cases h2 : validateData qIsDigit d b.m_type = false
      · rw [if_pos h2]
        exact ⟨hvalid, rfl, fun _ => rfl, fun h => by rw [h2] at h; exact Bool.noConfusion h⟩
      · rw [if_neg h2]
        have h3 : validateData qIsDigit d b.m_type = true := by
          simpa using h2
        exact ⟨h3, rfl, fun h => absurd h h2, fun _ => rfl⟩
  · intro t
    unfold BarcodeItem.setType
    by_cases h1 : b.m_type = t
    · rw [if_pos h1]
      subst h1
      exact ⟨hvalid, rfl, fun h => by rw [hvalid] at h; exact Bool.noConfusion h,
        fun _ => rfl⟩
    · rw [if_neg h1]
      by_cases h2 : validateData qIsDigit b.m_data t = false
      · simp [h2, validateData_defaultData qIsDigit hdigits t]
      · have h3 : validateData qIsDigit b.m_data t = true := by
          simpa using h2
        simp [h3]

/-- C29 at a concrete input: the default barcode item (`12345678`, Code 128) with the ASCII
digit test; `setData` of the empty text is rejected, and `setType(EAN13)` replaces the data by
`123456789012`. -/
theorem validateData_preserved_witness :
    (({} : BarcodeItem).setData Char.isDigit "").m_data = "12345678" ∧
      (({} : BarcodeItem).setType Char.isDigit .EAN13).m_data = "123456789012" ∧
      validateData Char.isDigit (({} : BarcodeItem).setType Char.isDigit .EAN13).m_data
        (({} : BarcodeItem).setType Char.isDigit .EAN13).m_type = true :=
  ⟨((validateData_preserved Char.isDigit {} (by decide) (by decide)).1 "").2.2.1 (by decide),
    ((validateData_preserved Char.isDigit {} (by decide) (by decide)).2 .EAN13).2.2.1
      (by decide),
    ((validateData_preserved Char.isDigit {} (by decide) (by decide)).2 .EAN13).1⟩

end BarcodeData

end LabelEditor
